import Mathlib

/-!
# Aerospike Kubernetes utility: response parsers and the pre-stop drain

A shallow embedding of `aerospike-utility/aku-utils.go` and
`aerospike-utility/aku-adm.go`.

* A Go `string` is modelled by the list of its characters (`GoString`).
* A Go `map[string]string` is modelled by an association list without
  duplicate keys (`GoMap`); indexing a missing key yields the empty string.
* `float64` arithmetic and `strconv.ParseFloat` are not interpreted: they are
  the fields of a `Float64Ops` record over which every definition is generic.
* The cluster (`client.GetNodes`, `node.RequestInfo`) is a deterministic
  state machine over an arbitrary state type; every call is recorded in a
  trace, tagged with the loop of `performPreStopOp` that made it.
-/

set_option autoImplicit false
set_option maxRecDepth 100000

namespace AKU

/-! ## Strings and maps -/

/-- A Go string, as the list of its characters. -/
abbrev GoString := List Char

/-- Scanner behind `strings.Split(s, sep)` for a non-empty `sep`: `cur` holds
the characters of the current piece, `skip` counts the characters of an
already matched separator that are still to be passed over. -/
def splitScan (sep : GoString) : GoString → Nat → GoString → List GoString
  | [], _, cur => [cur]
  | _ :: rest, skip + 1, cur => splitScan sep rest skip cur
  | c :: rest, 0, cur =>
    if sep.isPrefixOf (c :: rest) then
      cur :: splitScan sep rest (sep.length - 1) []
    else
      splitScan sep rest 0 (cur ++ [c])

/-- Go `strings.Split(s, sep)`: the pieces of `s` between the leftmost
non-overlapping occurrences of `sep`; an empty `sep` explodes `s` into its
characters. -/
def Split (s sep : GoString) : List GoString :=
  if sep = [] then s.map (fun c => [c]) else splitScan sep s 0 []

/-- Go `strings.SplitN(s, sep, 2)` for a one-character `sep`: `[s]` when `sep`
does not occur, otherwise the text before and the text after its first
occurrence. -/
def SplitN2 (s : GoString) (sep : Char) : List GoString :=
  match s.span (fun c => c != sep) with
  | (_, []) => [s]
  | (a, _ :: b) => [a, b]

/-- Go `strings.Join(parts, sep)`. -/
def Join (parts : List GoString) (sep : GoString) : GoString :=
  sep.intercalate parts

/-- A Go `map[string]string`: an association list with pairwise distinct keys. -/
abbrev GoMap := List (GoString × GoString)

/-- The two-result lookup `v, ok := m[k]`. -/
def GoMap.lookup (m : GoMap) (k : GoString) : Option GoString :=
  match m with
  | [] => none
  | (k1, v) :: rest => if k1 = k then some v else GoMap.lookup rest k

/-- The expression `m[k]`: the empty string when the key is absent. -/
def GoMap.index (m : GoMap) (k : GoString) : GoString :=
  (m.lookup k).getD []

/-- The assignment `m[k] = v`. -/
def GoMap.set (m : GoMap) (k v : GoString) : GoMap :=
  (k, v) :: m.filter (fun e => decide (e.1 ≠ k))

/-- Body of the `for _, s := range s2` loop of `parseStats`. -/
def parseStatsLoop : List GoString → GoMap → GoMap
  | [], stats => stats
  | s :: rest, stats =>
    match SplitN2 s '=' with
    | [] => parseStatsLoop rest stats
    | [_] => parseStatsLoop rest stats
    | [k, v] => parseStatsLoop rest (stats.set k v)
    | k :: more => parseStatsLoop rest (stats.set k (Join more ['=']))

/-- `parseStats(s, sep)` of `aku-utils.go`. -/
def parseStats (s sep : GoString) : GoMap :=
  parseStatsLoop (Split s sep) []

/-- Text before the first `=` of a record. -/
def recordKey (r : GoString) : GoString := r.takeWhile (fun x => x != '=')

/-- Text after the first `=` of a record. -/
def recordValue (r : GoString) : GoString := (r.dropWhile (fun x => x != '=')).tail

/-- The records that bind key `k`: those that contain `=` and have `k` before
the first one. -/
def recordsFor (k : GoString) (recs : List GoString) : List GoString :=
  recs.filter (fun r => decide ('=' ∈ r ∧ recordKey r = k))

/-! ## The response reader (`InfoParser`) -/

/-- Errors of the reader: `io.EOF`, `bufio.ErrBufferFull` and the
"Wrong value" errors built by `fmt.Errorf`. -/
inductive ReadError where
  | EOF
  | BufferFull
  | WrongValue
  deriving DecidableEq, Repr

/-- Size of the buffer of `bufio.NewReader`. -/
def defaultBufSize : Nat := 4096

/-- `InfoParser`: a `bufio.Reader` over a `strings.Reader`, represented by the
input that has not been read yet. -/
structure InfoParser where
  unread : GoString
  deriving DecidableEq, Repr

/-- `NewInfoParser(s)`. -/
def NewInfoParser (s : GoString) : InfoParser := ⟨s⟩

/-- `bufio.Reader.Peek(n)`: the next `n` bytes without advancing; short with
`io.EOF` when fewer remain, `ErrBufferFull` when `n` exceeds the buffer. -/
def InfoParser.Peek (ip : InfoParser) (n : Nat) : GoString × Option ReadError :=
  if defaultBufSize < n then (ip.unread.take defaultBufSize, some ReadError.BufferFull)
  else if ip.unread.length < n then (ip.unread, some ReadError.EOF)
  else (ip.unread.take n, none)

/-- `bufio.Reader.Read(p)` with `len(p) = n`: the bytes read and the error.
At the end of the input it reads nothing and reports `io.EOF`. A read longer
than one byte may be cut short at a buffer boundary, which is not modelled;
every call site reads a single byte. -/
def InfoParser.Read (ip : InfoParser) (n : Nat) : (GoString × Option ReadError) × InfoParser :=
  if n = 0 then (([], none), ip)
  else if ip.unread = [] then (([], some ReadError.EOF), ip)
  else ((ip.unread.take n, none), ⟨ip.unread.drop n⟩)

/-- `bufio.Reader.ReadBytes(delim)`: the bytes up to and including the first
`delim`, or everything left together with `io.EOF` when `delim` does not occur. -/
def InfoParser.ReadBytes (ip : InfoParser) (delim : Char) :
    (GoString × Option ReadError) × InfoParser :=
  match ip.unread.span (fun c => c != delim) with
  | (a, []) => ((a, some ReadError.EOF), ⟨[]⟩)
  | (a, d :: b) => ((a ++ [d], none), ⟨b⟩)

/-- `InfoParser.PeekAndExpect(s)`. -/
def InfoParser.PeekAndExpect (ip : InfoParser) (s : GoString) : Option ReadError × InfoParser :=
  match ip.Peek s.length with
  | (_, some err) => (some err, ip)
  | (v, none) => if v ≠ s then (some ReadError.WrongValue, ip) else (none, ip)

/-- `InfoParser.Expect(s)`: reads into a zeroed buffer of `len(s)` bytes and
compares the whole buffer with `s`. -/
def InfoParser.Expect (ip : InfoParser) (s : GoString) : Option ReadError × InfoParser :=
  match ip.Read s.length with
  | ((_, some err), ip1) => (some err, ip1)
  | ((v, none), ip1) =>
    if v ++ List.replicate (s.length - v.length) (Char.ofNat 0) ≠ s then
      (some ReadError.WrongValue, ip1)
    else (none, ip1)

/-- `InfoParser.ReadUntil(delim)`. -/
def InfoParser.ReadUntil (ip : InfoParser) (delim : Char) :
    (GoString × Option ReadError) × InfoParser :=
  match ip.ReadBytes delim with
  | ((v, err), ip1) =>
    match v with
    | [] => (([], err), ip1)
    | [b] => if b = delim then (([], err), ip1) else (([b], err), ip1)
    | _ => ((v.take (v.length - 1), err), ip1)

/-! ## Latency responses -/

/-- The `float64` operations the code uses: the constant `0.0`, addition,
`strconv.ParseFloat(s, 64)` (`none` when it reports an error) and the test
`x == 0.0`. -/
structure Float64Ops (F : Type) where
  zero : F
  add : F → F → F
  ParseFloat : GoString → Option F
  isZero : F → Bool

/-- The `for` loop of `getOpsPerSecLegacy`; `none` when `fuel` iterations do
not finish it or `bucketValues[0]` is out of range. -/
def legacyLoop {F : Type} (ops : Float64Ops F) : Nat → InfoParser → F → Option F
  | 0, _, _ => none
  | fuel + 1, ip, opsPerSec =>
    match ip.Expect ['{'] with
    | (some _, ip) =>
      match ip.ReadUntil ';' with
      | ((_, some _), _) => some opsPerSec
      | ((_, none), ip) => legacyLoop ops fuel ip opsPerSec
    | (none, ip) =>
      match ip.ReadUntil '}' with
      | ((_, some _), _) => some opsPerSec
      | ((_, none), ip) =>
      match ip.Expect ['-'] with
      | (some _, _) => some opsPerSec
      | (none, ip) =>
      match ip.ReadUntil ':' with
      | ((_, some _), _) => some opsPerSec
      | ((_, none), ip) =>
      match ip.PeekAndExpect [';'] with
      | (none, ip) =>
        match ip.Expect [';'] with
        | (some _, _) => some opsPerSec
        | (none, ip) => legacyLoop ops fuel ip opsPerSec
      | (some _, ip) =>
      match ip.ReadUntil ',' with
      | ((_, some _), _) => some opsPerSec
      | ((_, none), ip) =>
      match ip.ReadUntil ';' with
      | ((_, some _), _) => some opsPerSec
      | ((_, none), ip) =>
      match ip.ReadUntil ',' with
      | ((_, some _), _) => some opsPerSec
      | ((_, none), ip) =>
      match ip.ReadUntil ';' with
      | ((bucketValuesStr, err), ip) =>
      if err ≠ none ∧ err ≠ some ReadError.EOF then some opsPerSec
      else
        match Split bucketValuesStr [','] with
        | [] => none
        | v0 :: _ =>
          match ops.ParseFloat v0 with
          | none => some opsPerSec
          | some val => legacyLoop ops fuel ip (ops.add opsPerSec val)

/-- `getOpsPerSecLegacy(s)`: the pair `(opsPerSec, err)`. -/
def getOpsPerSecLegacy {F : Type} (ops : Float64Ops F) (s : GoString) :
    Option (F × Option ReadError) :=
  (legacyLoop ops (s.length + 1) (NewInfoParser s) ops.zero).map (fun x => (x, none))

/-- The `for` loop of `getOpsPerSecNew`; `none` as for `legacyLoop`. -/
def newLoop {F : Type} (ops : Float64Ops F) : Nat → InfoParser → F → Option F
  | 0, _, _ => none
  | fuel + 1, ip, opsPerSec =>
    match ip.Expect ['{'] with
    | (some _, ip) =>
      match ip.ReadUntil ';' with
      | ((_, some _), _) => some opsPerSec
      | ((_, none), ip) => newLoop ops fuel ip opsPerSec
    | (none, ip) =>
      match ip.ReadUntil '}' with
      | ((_, some _), _) => some opsPerSec
      | ((_, none), ip) =>
      match ip.Expect ['-'] with
      | (some _, _) => some opsPerSec
      | (none, ip) =>
      match ip.ReadUntil ':' with
      | ((_, some _), _) => some opsPerSec
      | ((_, none), ip) =>
      match ip.PeekAndExpect [';'] with
      | (none, ip) =>
        match ip.Expect [';'] with
        | (some _, _) => some opsPerSec
        | (none, ip) => newLoop ops fuel ip opsPerSec
      | (some _, ip) =>
      match ip.ReadUntil ',' with
      | ((_, some _), _) => some opsPerSec
      | ((_, none), ip) =>
      match ip.ReadUntil ';' with
      | ((bucketValuesStr, err), ip) =>
      if err ≠ none ∧ err ≠ some ReadError.EOF then some opsPerSec
      else
        match Split bucketValuesStr [','] with
        | [] => none
        | v0 :: _ =>
          match ops.ParseFloat v0 with
          | none => some opsPerSec
          | some val => newLoop ops fuel ip (ops.add opsPerSec val)

/-- `getOpsPerSecNew(s)`: the pair `(opsPerSec, err)`. -/
def getOpsPerSecNew {F : Type} (ops : Float64Ops F) (s : GoString) :
    Option (F × Option ReadError) :=
  (newLoop ops (s.length + 1) (NewInfoParser s) ops.zero).map (fun x => (x, none))

/-- What one iteration of a parsing loop does: it leaves the loop (`break`),
it fails on `bucketValues[0]`, or it goes on to the next iteration with a new
reader position and a new total. -/
inductive LoopStep (F : Type) where
  | stop
  | panic
  | next (ip : InfoParser) (opsPerSec : F)

/-- The body of the `for` loop of `getOpsPerSecLegacy`. -/
def legacyStep {F : Type} (ops : Float64Ops F) (ip : InfoParser) (opsPerSec : F) : LoopStep F :=
  match ip.Expect ['{'] with
  | (some _, ip) =>
    match ip.ReadUntil ';' with
    | ((_, some _), _) => .stop
    | ((_, none), ip) => .next ip opsPerSec
  | (none, ip) =>
    match ip.ReadUntil '}' with
    | ((_, some _), _) => .stop
    | ((_, none), ip) =>
    match ip.Expect ['-'] with
    | (some _, _) => .stop
    | (none, ip) =>
    match ip.ReadUntil ':' with
    | ((_, some _), _) => .stop
    | ((_, none), ip) =>
    match ip.PeekAndExpect [';'] with
    | (none, ip) =>
      match ip.Expect [';'] with
      | (some _, _) => .stop
      | (none, ip) => .next ip opsPerSec
    | (some _, ip) =>
    match ip.ReadUntil ',' with
    | ((_, some _), _) => .stop
    | ((_, none), ip) =>
    match ip.ReadUntil ';' with
    | ((_, some _), _) => .stop
    | ((_, none), ip) =>
    match ip.ReadUntil ',' with
    | ((_, some _), _) => .stop
    | ((_, none), ip) =>
    match ip.ReadUntil ';' with
    | ((bucketValuesStr, err), ip) =>
    if err ≠ none ∧ err ≠ some ReadError.EOF then .stop
    else
      match Split bucketValuesStr [','] with
      | [] => .panic
      | v0 :: _ =>
        match ops.ParseFloat v0 with
        | none => .stop
        | some val => .next ip (ops.add opsPerSec val)

/-- The body of the `for` loop of `getOpsPerSecNew`. -/
def newStep {F : Type} (ops : Float64Ops F) (ip : InfoParser) (opsPerSec : F) : LoopStep F :=
  match ip.Expect ['{'] with
  | (some _, ip) =>
    match ip.ReadUntil ';' with
    | ((_, some _), _) => .stop
    | ((_, none), ip) => .next ip opsPerSec
  | (none, ip) =>
    match ip.ReadUntil '}' with
    | ((_, some _), _) => .stop
    | ((_, none), ip) =>
    match ip.Expect ['-'] with
    | (some _, _) => .stop
    | (none, ip) =>
    match ip.ReadUntil ':' with
    | ((_, some _), _) => .stop
    | ((_, none), ip) =>
    match ip.PeekAndExpect [';'] with
    | (none, ip) =>
      match ip.Expect [';'] with
      | (some _, _) => .stop
      | (none, ip) => .next ip opsPerSec
    | (some _, ip) =>
    match ip.ReadUntil ',' with
    | ((_, some _), _) => .stop
    | ((_, none), ip) =>
    match ip.ReadUntil ';' with
    | ((bucketValuesStr, err), ip) =>
    if err ≠ none ∧ err ≠ some ReadError.EOF then .stop
    else
      match Split bucketValuesStr [','] with
      | [] => .panic
      | v0 :: _ =>
        match ops.ParseFloat v0 with
        | none => .stop
        | some val => .next ip (ops.add opsPerSec val)

/-- Value of a string of decimal digits, `none` when a character is not a digit. -/
def digitsValue : GoString → Nat → Option Nat
  | [], acc => some acc
  | c :: rest, acc =>
    if c.isDigit then digitsValue rest (acc * 10 + (c.toNat - 48)) else none

/-- A reference interpretation of `Float64Ops` by exact rationals, reading
unsigned decimal numerals `ddd` and `ddd.ddd`. -/
def decimalOps : Float64Ops ℚ where
  zero := 0
  add := fun a b => a + b
  ParseFloat := fun s =>
    match SplitN2 s '.' with
    | [i] => if i = [] then none else (digitsValue i 0).map (fun n => (n : ℚ))
    | [i, f] =>
      if i = [] ∧ f = [] then none
      else
        match digitsValue i 0, digitsValue f 0 with
        | some a, some b => some ((a : ℚ) + (b : ℚ) / (10 ^ f.length : ℕ))
        | _, _ => none
    | _ => none
  isZero := fun x => decide (x = 0)

/-- A second reference interpretation of `Float64Ops`, by natural numbers and
reading unsigned integer numerals only. -/
def natOps : Float64Ops Nat where
  zero := 0
  add := fun a b => a + b
  ParseFloat := fun s => if s = [] then none else digitsValue s 0
  isZero := fun x => decide (x = 0)

/-- The text `{ns}-op:;` of a section that carries no data. -/
def emptySection (ns op : GoString) : GoString :=
  '{' :: (ns ++ '}' :: '-' :: (op ++ [':', ';']))

/-- One section `{ns}-op:ts1,labels;ts2,v1,...,vk;` of a legacy latency
response; `vs` holds the bucket values after the first. -/
structure LegacySection where
  ns : GoString
  op : GoString
  ts1 : GoString
  labels : GoString
  ts2 : GoString
  v1 : GoString
  vs : List GoString
  deriving DecidableEq, Repr

/-- The text of a legacy section. -/
def LegacySection.render (x : LegacySection) : GoString :=
  '{' :: (x.ns ++ '}' :: '-' :: (x.op ++ ':' :: (x.ts1 ++ ',' :: (x.labels ++ ';' ::
    (x.ts2 ++ ',' :: (Join (x.v1 :: x.vs) [','] ++ [';']))))))

/-- The side conditions on the fields of a legacy section. -/
def LegacySection.WellFormed (x : LegacySection) : Prop :=
  '}' ∉ x.ns ∧ ':' ∉ x.op ∧ x.ts1.head? ≠ some ';' ∧ ',' ∉ x.ts1 ∧ ',' ∉ x.ts2 ∧
    ';' ∉ x.labels ∧ ',' ∉ x.v1 ∧ ∀ v ∈ x.v1 :: x.vs, ';' ∉ v

instance (x : LegacySection) : Decidable x.WellFormed := by
  unfold LegacySection.WellFormed
  infer_instance

/-- A legacy response: the concatenation of its sections. -/
def renderLegacy (secs : List LegacySection) : GoString :=
  (secs.map LegacySection.render).flatten

/-- One section `{ns}-op:unit,v1,...,vk;` of a new-format latency response. -/
structure NewSection where
  ns : GoString
  op : GoString
  unit : GoString
  v1 : GoString
  vs : List GoString
  deriving DecidableEq, Repr

/-- The text of a new-format section. -/
def NewSection.render (x : NewSection) : GoString :=
  '{' :: (x.ns ++ '}' :: '-' :: (x.op ++ ':' :: (x.unit ++ ',' ::
    (Join (x.v1 :: x.vs) [','] ++ [';']))))

/-- The side conditions on the fields of a new-format section. -/
def NewSection.WellFormed (x : NewSection) : Prop :=
  '}' ∉ x.ns ∧ ':' ∉ x.op ∧ x.unit.head? ≠ some ';' ∧ ',' ∉ x.unit ∧
    ',' ∉ x.v1 ∧ ∀ v ∈ x.v1 :: x.vs, ';' ∉ v

instance (x : NewSection) : Decidable x.WellFormed := by
  unfold NewSection.WellFormed
  infer_instance

/-- A new-format response: the concatenation of its sections. -/
def renderNew (secs : List NewSection) : GoString :=
  (secs.map NewSection.render).flatten

/-- The documented legacy response
`{test}-read:10:17:37-GMT,ops/sec,>1ms,>8ms,>64ms;10:17:47,29648.2,3.44,0.08,0.00;`. -/
def sampleLegacySection : LegacySection where
  ns := "test".toList
  op := "read".toList
  ts1 := "10:17:37-GMT".toList
  labels := "ops/sec,>1ms,>8ms,>64ms".toList
  ts2 := "10:17:47".toList
  v1 := "29648.2".toList
  vs := ["3.44".toList, "0.08".toList, "0.00".toList]

/-- The documented new-format response `{test}-write:msec,4234.9,28.75,7.40;`. -/
def sampleNewSection : NewSection where
  ns := "test".toList
  op := "write".toList
  unit := "msec".toList
  v1 := "4234.9".toList
  vs := ["28.75".toList, "7.40".toList]

/-! ## The version gate -/

/-- Value of a decimal numeral, read left to right. -/
def decimalValue (s : GoString) : Nat :=
  s.foldl (fun acc c => acc * 10 + (c.toNat - 48)) 0

/-- Modelled from the spec: one segment of a version string as read by
`goversion.NewVersion`, the parser of the library `hashicorp/go-version`,
which is imported by `aku-adm.go` and is not among the repository's sources.
A segment is a non-empty run of decimal digits; the library stores segments
as `int64`, so a value above `2^63 - 1` "cannot be parsed" (§4.4). -/
def versionSegment (s : GoString) : Option Nat :=
  if s ≠ [] ∧ s.all Char.isDigit = true ∧ decimalValue s < 2 ^ 63 then some (decimalValue s)
  else none

/-- All segments of a version, `none` as soon as one of them cannot be parsed. -/
def versionSegments : List GoString → Option (List Nat)
  | [] => some []
  | s :: rest =>
    match versionSegment s, versionSegments rest with
    | some n, some ns => some (n :: ns)
    | _, _ => none

/-- Modelled from the spec: a parsed `goversion.Version`, reduced to its
numeric segments (the library also carries pre-release and metadata labels,
which a dot-separated numeric version does not have). -/
structure Version where
  segments : List Nat
  deriving DecidableEq, Repr

/-- Modelled from the spec: `goversion.NewVersion(v)` on dot-separated numeric
version strings (§4.4: "dot-separated numeric version strings", failing when
the string "cannot be parsed as a numeric dotted version"). The library pads a
version of fewer than three segments with zeros. `none` is the error return.
Version strings with a `v` marker or with pre-release or metadata suffixes,
which the library also reads, are outside this model and reported as errors. -/
def NewVersion (v : GoString) : Option Version :=
  match versionSegments (Split v ['.']) with
  | none => none
  | some segs => some ⟨segs ++ List.replicate (3 - segs.length) 0⟩

/-- Modelled from the spec: the segment loop of `Version.Compare` ("compare
component-wise left to right", "missing trailing components default to 0"):
once one version runs out of segments the other is greater unless all its
remaining segments are zero. -/
def compareSegments : List Nat → List Nat → Int
  | [], [] => 0
  | [], b :: o => if (b :: o).all (fun x => x == 0) then 0 else -1
  | a :: s, [] => if (a :: s).all (fun x => x == 0) then 0 else 1
  | a :: s, b :: o => if a = b then compareSegments s o else if a < b then -1 else 1

/-- Modelled from the spec: `Version.Compare(other)`. -/
def Version.Compare (v other : Version) : Int :=
  if v.segments = other.segments then 0 else compareSegments v.segments other.segments

/-- Modelled from the spec: `Version.GreaterThanOrEqual(other)`. -/
def Version.GreaterThanOrEqual (v other : Version) : Bool :=
  decide (0 ≤ v.Compare other)

/-- `getLatencyCommand(ver)` of `aku-adm.go`; `none` is the error return. -/
def getLatencyCommand (ver : GoString) : Option GoString :=
  let ref := "5.1.0.0".toList
  match NewVersion ver with
  | none => none
  | some version =>
    match NewVersion ref with
    | none => none
    | some refVersion =>
      if version.GreaterThanOrEqual refVersion then some "latencies:".toList
      else some "latency:".toList

/-- A list of components extended to `n` components by trailing zeros. -/
def padZeros (n : Nat) (l : List Nat) : List Nat :=
  l ++ List.replicate (n - l.length) 0

/-- Left-to-right comparison of two lists of components of the same length:
`true` when the first is greater than or equal to the second. -/
def lexGe : List Nat → List Nat → Bool
  | a :: as, b :: bs => if a < b then false else if b < a then true else lexGe as bs
  | _, _ => true

/-- The order of §4.4 on lists of components: component-wise, left to right,
missing trailing components taken as 0; `true` when the first list is greater
than or equal to the second. -/
def geComponentwise (a b : List Nat) : Bool :=
  lexGe (padZeros (max a.length b.length) a) (padZeros (max a.length b.length) b)

/-- A build version is written as dot-separated decimal integers when every
piece between dots is a non-empty run of digits. -/
def IsDottedDecimal (v : GoString) : Prop :=
  ∀ p ∈ Split v ['.'], p ≠ [] ∧ p.all Char.isDigit = true

instance (v : GoString) : Decidable (IsDottedDecimal v) := by
  unfold IsDottedDecimal
  infer_instance

/-- The components of a dotted decimal version. -/
def versionComponents (v : GoString) : List Nat :=
  (Split v ['.']).map decimalValue

/-! ## The cluster and the trace of a drain -/

/-- A cluster node as the drain sees it: `node.GetName()` and
`node.GetHost().Name`. -/
structure Node where
  name : GoString
  host : GoString
  deriving DecidableEq, Repr

/-- The loops of `performPreStopOp`, in source order; `WaitPendingQuiesce` is
the loop nested in `QuiesceSelf`, `FinalStable` the stability recheck nested
in `IdempotencyGuard`. -/
inductive Phase where
  | WaitStable
  | QuiesceSelf
  | WaitPendingQuiesce
  | Recluster
  | IdempotencyGuard
  | FinalStable
  | VerifyEffectiveQuiesce
  | VerifyZeroThroughput
  | VerifyProxyDrain
  deriving DecidableEq, Repr

/-- A call on the client: `client.GetNodes()` with the listing it returned, or
`node.RequestInfo(infoPolicy, command)` with its result (`none` for a
transport error). -/
inductive Call where
  | nodes (listing : List Node)
  | info (node : Node) (command : GoString) (response : Option GoMap)
  deriving DecidableEq, Repr

/-- A call together with the loop that made it. -/
structure Event where
  phase : Phase
  call : Call
  deriving DecidableEq, Repr

/-- The cluster seen through the client: a deterministic machine over an
arbitrary state `σ` answering the two calls the drain makes. -/
structure Cluster (σ : Type) where
  GetNodes : σ → List Node × σ
  RequestInfo : σ → Node → GoString → Option GoMap × σ

/-- What a drain is run against: the cluster, the `float64` operations and the
global `myPodIP`. -/
structure Setup (σ F : Type) where
  cluster : Cluster σ
  float : Float64Ops F
  myPodIP : GoString

/-- State of a run: the cluster state and the calls made so far, oldest first. -/
structure Session (σ : Type) where
  world : σ
  trace : List Event

/-- Result of a loop run with a bound on its iterations: it finished with a
value, or it was still retrying when the bound was reached. -/
inductive Outcome (σ α : Type) where
  | done (a : α) (s : Session σ)
  | blocked (s : Session σ)

/-- The session an outcome ends in. -/
def Outcome.session {σ α : Type} : Outcome σ α → Session σ
  | .done _ s => s
  | .blocked s => s

/-- Whether the outcome is a return of the function. -/
def Outcome.finished {σ α : Type} : Outcome σ α → Bool
  | .done _ _ => true
  | .blocked _ => false

/-- Sequencing of two parts of the drain. -/
def Outcome.andThen {σ α β : Type} (o : Outcome σ α) (f : α → Session σ → Outcome σ β) :
    Outcome σ β :=
  match o with
  | .done a s => f a s
  | .blocked s => .blocked s

/-- `client.GetNodes()`, recorded in the trace. -/
def getNodes {σ : Type} (c : Cluster σ) (ph : Phase) (s : Session σ) : List Node × Session σ :=
  ((c.GetNodes s.world).1,
    ⟨(c.GetNodes s.world).2, s.trace ++ [⟨ph, Call.nodes (c.GetNodes s.world).1⟩]⟩)

/-- `node.RequestInfo(infoPolicy, command)`, recorded in the trace. -/
def requestInfo {σ : Type} (c : Cluster σ) (ph : Phase) (s : Session σ) (node : Node)
    (command : GoString) : Option GoMap × Session σ :=
  ((c.RequestInfo s.world node command).1,
    ⟨(c.RequestInfo s.world node command).2,
      s.trace ++ [⟨ph, Call.info node command (c.RequestInfo s.world node command).1⟩]⟩)

/-- The command `cluster-stable:ignore-migrations=no;`. -/
def stableCommand : GoString := "cluster-stable:ignore-migrations=no;".toList

/-- The response value `ERROR::unstable-cluster`. -/
def unstableCluster : GoString := "ERROR::unstable-cluster".toList

/-- The command `quiesce:`. -/
def quiesceCommand : GoString := "quiesce:".toList

/-- The command `recluster:`. -/
def reclusterCommand : GoString := "recluster:".toList

/-- The command `namespaces`. -/
def namespacesCommand : GoString := "namespaces".toList

/-- The command `build`. -/
def buildCommand : GoString := "build".toList

/-- `fmt.Sprintf("namespace/%s", ns)`. -/
def namespaceCommand (ns : GoString) : GoString := "namespace/".toList ++ ns

/-- The test `hostName == "localhost" || hostName == "127.0.0.1" || hostName == myPodIP`. -/
def isSelf (myPodIP : GoString) (node : Node) : Bool :=
  decide (node.host = "localhost".toList) || decide (node.host = "127.0.0.1".toList) ||
    decide (node.host = myPodIP)

/-- The `selectedNamespace` computed from a `namespaces` response: empty when
the response value is empty, otherwise `strings.Split(value, ";")[0]` (the
split on a non-empty separator always has a first piece). -/
def selectedNamespace (out : GoMap) : GoString :=
  if (out.index namespacesCommand).length > 0 then
    match Split (out.index namespacesCommand) [';'] with
    | [] => []
    | first :: _ => first
  else []

/-- The metric `key` read from a `namespace/<ns>` response:
`parseStats(stats["namespace/<ns>"], ";")[key]`. -/
def metricOf (stats : GoMap) (ns key : GoString) : GoString :=
  (parseStats (stats.index (namespaceCommand ns)) [';']).index key

/-! ## `performPreStopOp` -/

/-- The `for _, node := range activeNodes` loop of the cluster-stable check
(lines 220-235, and again 388-403): `true` when a retry is needed. -/
def stablePass {σ : Type} (c : Cluster σ) (ph : Phase) :
    List Node → Session σ → Bool × Session σ
  | [], s => (false, s)
  | node :: rest, s =>
    match requestInfo c ph s node stableCommand with
    | (none, s1) => (true, s1)
    | (some out, s1) =>
      if out.index stableCommand = unstableCluster then (true, s1)
      else stablePass c ph rest s1

/-- The cluster-stable loop (lines 216-244, and again 384-412). -/
def stableLoop {σ : Type} (c : Cluster σ) (ph : Phase) : Nat → Session σ → Outcome σ Unit
  | 0, s => .blocked s
  | fuel + 1, s =>
    match getNodes c ph s with
    | (activeNodes, s1) =>
      match stablePass c ph activeNodes s1 with
      | (true, s2) => stableLoop c ph fuel s2
      | (false, s2) => .done () s2

/-- The loop waiting for `pending_quiesce` on the quiesced node (lines 264-298). -/
def pendingQuiesceLoop {σ : Type} (c : Cluster σ) (node : Node) :
    Nat → Session σ → Outcome σ Unit
  | 0, s => .blocked s
  | fuel + 1, s =>
    match requestInfo c .WaitPendingQuiesce s node namespacesCommand with
    | (none, s1) => pendingQuiesceLoop c node fuel s1
    | (some out, s1) =>
      if (selectedNamespace out).length > 0 then
        match requestInfo c .WaitPendingQuiesce s1 node
            (namespaceCommand (selectedNamespace out)) with
        | (none, s2) => pendingQuiesceLoop c node fuel s2
        | (some stats, s2) =>
          if metricOf stats (selectedNamespace out) "pending_quiesce".toList ≠ "true".toList then
            pendingQuiesceLoop c node fuel s2
          else .done () s2
      else .done () s1

/-- The `for _, node := range activeNodes` loop of the quiesce step
(lines 252-302): the value is the `retry` flag. -/
def quiescePass {σ : Type} (c : Cluster σ) (myPodIP : GoString) (fuel : Nat) :
    List Node → Session σ → Outcome σ Bool
  | [], s => .done false s
  | node :: rest, s =>
    if isSelf myPodIP node then
      match requestInfo c .QuiesceSelf s node quiesceCommand with
      | (none, s1) => .done true s1
      | (some _, s1) =>
        (pendingQuiesceLoop c node fuel s1).andThen (fun _ s2 => .done false s2)
    else quiescePass c myPodIP fuel rest s

/-- The quiesce loop (lines 248-311). -/
def quiesceLoop {σ : Type} (c : Cluster σ) (myPodIP : GoString) (fuel : Nat) :
    Nat → Session σ → Outcome σ Unit
  | 0, s => .blocked s
  | n + 1, s =>
    match getNodes c .QuiesceSelf s with
    | (activeNodes, s1) =>
      match quiescePass c myPodIP fuel activeNodes s1 with
      | .blocked s2 => .blocked s2
      | .done true s2 => quiesceLoop c myPodIP fuel n s2
      | .done false s2 => .done () s2

/-- The `for _, node := range activeNodes` loop of the recluster step
(lines 319-326). -/
def reclusterPass {σ : Type} (c : Cluster σ) : List Node → Session σ → Bool × Session σ
  | [], s => (false, s)
  | node :: rest, s =>
    match requestInfo c .Recluster s node reclusterCommand with
    | (none, s1) => (true, s1)
    | (some _, s1) => reclusterPass c rest s1

/-- The recluster loop (lines 315-335). -/
def reclusterLoop {σ : Type} (c : Cluster σ) : Nat → Session σ → Outcome σ Unit
  | 0, s => .blocked s
  | fuel + 1, s =>
    match getNodes c .Recluster s with
    | (activeNodes, s1) =>
      match reclusterPass c activeNodes s1 with
      | (true, s2) => reclusterLoop c fuel s2
      | (false, s2) => .done () s2

/-- The `for _, node := range activeNodes` loop of the validation after
recluster (lines 346-373): the flags `retry` and `pendingQuiesceTrueInAllNodes`. -/
def guardPass {σ : Type} (c : Cluster σ) : List Node → Session σ → (Bool × Bool) × Session σ
  | [], s => ((false, true), s)
  | node :: rest, s =>
    match requestInfo c .IdempotencyGuard s node namespacesCommand with
    | (none, s1) => ((true, true), s1)
    | (some out, s1) =>
      if (selectedNamespace out).length > 0 then
        match requestInfo c .IdempotencyGuard s1 node
            (namespaceCommand (selectedNamespace out)) with
        | (none, s2) => ((true, true), s2)
        | (some stats, s2) =>
          if metricOf stats (selectedNamespace out) "pending_quiesce".toList = "false".toList then
            ((false, false), s2)
          else guardPass c rest s2
      else guardPass c rest s1

/-- The validation loop after recluster (lines 341-419). The value is `true`
when the function returns from inside the loop (line 415), `false` when the
loop is left by `break` and the drain goes on. -/
def guardLoop {σ : Type} (c : Cluster σ) (fuel : Nat) : Nat → Session σ → Outcome σ Bool
  | 0, s => .blocked s
  | n + 1, s =>
    match getNodes c .IdempotencyGuard s with
    | (activeNodes, s1) =>
      match guardPass c activeNodes s1 with
      | ((true, _), s2) => guardLoop c fuel n s2
      | ((false, true), s2) =>
        (stableLoop c .FinalStable fuel s2).andThen (fun _ s3 => .done true s3)
      | ((false, false), s2) => .done false s2

/-- The `for _, node := range activeNodes` loop of the `effective_is_quiesced`
check (lines 426-461). -/
def effectiveQuiescePass {σ : Type} (c : Cluster σ) (myPodIP : GoString) :
    List Node → Session σ → Bool × Session σ
  | [], s => (false, s)
  | node :: rest, s =>
    if isSelf myPodIP node then
      match requestInfo c .VerifyEffectiveQuiesce s node namespacesCommand with
      | (none, s1) => (true, s1)
      | (some out, s1) =>
        if (selectedNamespace out).length > 0 then
          match requestInfo c .VerifyEffectiveQuiesce s1 node
              (namespaceCommand (selectedNamespace out)) with
          | (none, s2) => (true, s2)
          | (some stats, s2) =>
            if metricOf stats (selectedNamespace out) "effective_is_quiesced".toList
                ≠ "true".toList then (true, s2)
            else (false, s2)
        else effectiveQuiescePass c myPodIP rest s1
    else effectiveQuiescePass c myPodIP rest s

/-- The `effective_is_quiesced` loop (lines 422-469). -/
def effectiveQuiesceLoop {σ : Type} (c : Cluster σ) (myPodIP : GoString) :
    Nat → Session σ → Outcome σ Unit
  | 0, s => .blocked s
  | fuel + 1, s =>
    match getNodes c .VerifyEffectiveQuiesce s with
    | (activeNodes, s1) =>
      match effectiveQuiescePass c myPodIP activeNodes s1 with
      | (true, s2) => effectiveQuiesceLoop c myPodIP fuel s2
      | (false, s2) => .done () s2

/-- The `for _, node := range activeNodes` loop of the throughput check
(lines 476-528). It is blocked when the latency parser does not return. -/
def throughputPass {σ F : Type} (cfg : Setup σ F) : List Node → Session σ → Outcome σ Bool
  | [], s => .done false s
  | node :: rest, s =>
    if isSelf cfg.myPodIP node then
      match requestInfo cfg.cluster .VerifyZeroThroughput s node buildCommand with
      | (none, s1) => .done true s1
      | (some out, s1) =>
        match getLatencyCommand (out.index buildCommand) with
        | none => .done true s1
        | some latencyCommand =>
          match requestInfo cfg.cluster .VerifyZeroThroughput s1 node latencyCommand with
          | (none, s2) => .done true s2
          | (some latencyStats, s2) =>
            match (if latencyCommand = "latencies:".toList then
                getOpsPerSecNew cfg.float (latencyStats.index "latencies:".toList)
              else getOpsPerSecLegacy cfg.float (latencyStats.index "latency:".toList)) with
            | none => .blocked s2
            | some (_, some _) => .done true s2
            | some (opsPerSec, none) =>
              if cfg.float.isZero opsPerSec = false then .done true s2
              else .done false s2
    else throughputPass cfg rest s

/-- The throughput loop (lines 472-537). -/
def throughputLoop {σ F : Type} (cfg : Setup σ F) : Nat → Session σ → Outcome σ Unit
  | 0, s => .blocked s
  | fuel + 1, s =>
    match getNodes cfg.cluster .VerifyZeroThroughput s with
    | (activeNodes, s1) =>
      match throughputPass cfg activeNodes s1 with
      | .blocked s2 => .blocked s2
      | .done true s2 => throughputLoop cfg fuel s2
      | .done false s2 => .done () s2

/-- A Go `int` (64 bits) after an addition: the sum wrapped to the range
`-2^63 .. 2^63 - 1`. -/
def wrapInt64 (x : Int) : Int :=
  (x + 2 ^ 63) % 2 ^ 64 - 2 ^ 63

/-- The text of a numeral after its optional sign `+` or `-`. -/
def unsignedPart (s : GoString) : GoString :=
  match s with
  | '-' :: r => r
  | '+' :: r => r
  | r => r

/-- The digit loop of `strconv.ParseUint(s, 10, 64)` (Go standard library), to
which `strconv.Atoi` comes down: `none` for the syntax error at a byte that is
not a decimal digit, otherwise the value and whether the range error was
raised. The range error is raised at the first digit with which the value
passes `2^64 - 1`, before any later byte is looked at, and the value is then
`2^64 - 1`. -/
def parseUintLoop : GoString → Nat → Option (Nat × Bool)
  | [], n => some (n, false)
  | c :: rest, n =>
    if c.isDigit = false then none
    else if n ≥ (2 ^ 64 - 1) / 10 + 1 then some (2 ^ 64 - 1, true)
    else if n * 10 + (c.toNat - 48) > 2 ^ 64 - 1 then some (2 ^ 64 - 1, true)
    else parseUintLoop rest (n * 10 + (c.toNat - 48))

/-- The value returned by `strconv.Atoi(s)` (its error is dropped by every
caller), as `strconv.ParseInt(s, 10, 0)` computes it: 0 on a syntax error
(empty text, a sign alone, a byte that is not a digit met before any
overflow); otherwise the value of the optionally signed numeral, replaced by
`2^63 - 1` or `-2^63` when it is out of the range of `int`, which is also the
result when the digits overflow 64 bits before a later byte that is not a
digit. -/
def Atoi (s : GoString) : Int :=
  if unsignedPart s = [] then 0
  else
    match parseUintLoop (unsignedPart s) 0 with
    | none => 0
    | some (un, _) =>
      if s.head? = some '-' then (if un > 2 ^ 63 then -(2 ^ 63) else -(un : Int))
      else (if un ≥ 2 ^ 63 then 2 ^ 63 - 1 else (un : Int))

/-- The six proxy counters of one namespace added to `total` (lines 569-585). -/
def addProxyCounters (metrics : GoMap) (total : Int) : Int :=
  let t1 := wrapInt64 (total + Atoi (metrics.index "client_proxy_complete".toList))
  let t2 := wrapInt64 (t1 + Atoi (metrics.index "client_proxy_error".toList))
  let t3 := wrapInt64 (t2 + Atoi (metrics.index "client_proxy_timeout".toList))
  let t4 := wrapInt64 (t3 + Atoi (metrics.index "batch_sub_proxy_complete".toList))
  let t5 := wrapInt64 (t4 + Atoi (metrics.index "batch_sub_proxy_error".toList))
  wrapInt64 (t5 + Atoi (metrics.index "batch_sub_proxy_timeout".toList))

/-- The `for _, ns := range namespacesList` loop (lines 559-586): the `retry`
flag it sets and `total`. -/
def proxyTally {σ : Type} (c : Cluster σ) (node : Node) :
    List GoString → Int → Session σ → (Bool × Int) × Session σ
  | [], total, s => ((false, total), s)
  | ns :: rest, total, s =>
    match requestInfo c .VerifyProxyDrain s node (namespaceCommand ns) with
    | (none, s1) => ((true, total), s1)
    | (some stats, s1) =>
      proxyTally c node rest
        (addProxyCounters (parseStats (stats.index (namespaceCommand ns)) [';']) total) s1

/-- The `for _, node := range activeNodes` loop of the proxy check
(lines 545-600): the `retry` flag and the new value of `totalProxies`. -/
def proxyPass {σ : Type} (c : Cluster σ) (myPodIP : GoString) (totalProxies : Int) :
    List Node → Session σ → (Bool × Int) × Session σ
  | [], s => ((false, totalProxies), s)
  | node :: rest, s =>
    if isSelf myPodIP node then
      match requestInfo c .VerifyProxyDrain s node namespacesCommand with
      | (none, s1) => ((true, totalProxies), s1)
      | (some out, s1) =>
        if (Split (out.index namespacesCommand) [';']).length > 0 then
          match proxyTally c node (Split (out.index namespacesCommand) [';']) 0 s1 with
          | ((retry, total), s2) =>
            if totalProxies ≠ total then ((true, total), s2)
            else ((retry, totalProxies), s2)
        else ((false, totalProxies), s1)
    else proxyPass c myPodIP totalProxies rest s

/-- The proxy loop (lines 541-609), started with a given `totalProxies`. -/
def proxyLoop {σ : Type} (c : Cluster σ) (myPodIP : GoString) :
    Nat → Int → Session σ → Outcome σ Unit
  | 0, _, s => .blocked s
  | fuel + 1, totalProxies, s =>
    match getNodes c .VerifyProxyDrain s with
    | (activeNodes, s1) =>
      match proxyPass c myPodIP totalProxies activeNodes s1 with
      | ((true, total), s2) => proxyLoop c myPodIP fuel total s2
      | ((false, _), s2) => .done () s2

/-- The drain from the throughput check on (lines 471-613). -/
def drainFromThroughput {σ F : Type} (cfg : Setup σ F) (fuel : Nat) (s : Session σ) :
    Outcome σ Unit :=
  (throughputLoop cfg fuel s).andThen fun _ s1 =>
    proxyLoop cfg.cluster cfg.myPodIP fuel 0 s1

/-- The drain from the `effective_is_quiesced` check on (lines 421-613). -/
def drainFromEffectiveQuiesce {σ F : Type} (cfg : Setup σ F) (fuel : Nat) (s : Session σ) :
    Outcome σ Unit :=
  (effectiveQuiesceLoop cfg.cluster cfg.myPodIP fuel s).andThen fun _ s1 =>
    drainFromThroughput cfg fuel s1

/-- The drain from the validation after recluster on (lines 339-613): the
function returns when the validation loop returned, and goes on otherwise. -/
def drainFromGuard {σ F : Type} (cfg : Setup σ F) (fuel : Nat) (s : Session σ) :
    Outcome σ Unit :=
  (guardLoop cfg.cluster fuel fuel s).andThen fun returned s1 =>
    if returned then .done () s1 else drainFromEffectiveQuiesce cfg fuel s1

/-- The drain from the recluster step on (lines 313-613). -/
def drainFromRecluster {σ F : Type} (cfg : Setup σ F) (fuel : Nat) (s : Session σ) :
    Outcome σ Unit :=
  (reclusterLoop cfg.cluster fuel s).andThen fun _ s1 => drainFromGuard cfg fuel s1

/-- The drain from the quiesce step on (lines 246-613). -/
def drainFromQuiesce {σ F : Type} (cfg : Setup σ F) (fuel : Nat) (s : Session σ) :
    Outcome σ Unit :=
  (quiesceLoop cfg.cluster cfg.myPodIP fuel fuel s).andThen fun _ s1 =>
    drainFromRecluster cfg fuel s1

/-- `performPreStopOp(client)` with every loop bounded by `fuel` iterations:
`done` when the function returns, `blocked` when some loop is still retrying
after `fuel` iterations. Delays (`time.Sleep`) and logging are not modelled. -/
def performPreStopOp {σ F : Type} (cfg : Setup σ F) (fuel : Nat) (s : Session σ) :
    Outcome σ Unit :=
  (stableLoop cfg.cluster .WaitStable fuel s).andThen fun _ s1 => drainFromQuiesce cfg fuel s1

/-! ## Predicates on traces -/

/-- The command of a `RequestInfo` event; `none` for a node listing. -/
def Event.command (e : Event) : Option GoString :=
  match e.call with
  | .nodes _ => none
  | .info _ command _ => some command

/-- The event is a `namespace/<ns>` response of a local node whose metric
`key`, as parsed by `parseStats`, has the given value. -/
def Event.selfMetricIs (myPodIP key value : GoString) (e : Event) : Bool :=
  match e.call with
  | .info node command (some stats) =>
    isSelf myPodIP node && decide (command.take 10 = "namespace/".toList) &&
      decide (metricOf stats (command.drop 10) key = value)
  | _ => false

/-- The event is a request of the throughput check: `build`, `latencies:` or
`latency:`. -/
def Event.isThroughputRequest (e : Event) : Prop :=
  e.command = some buildCommand ∨ e.command = some "latencies:".toList ∨
    e.command = some "latency:".toList

instance (e : Event) : Decidable e.isThroughputRequest := by
  unfold Event.isThroughputRequest
  infer_instance

/-- The event is a request that failed with a transport error. -/
def Event.failed (e : Event) : Bool :=
  match e.call with
  | .info _ _ none => true
  | _ => false

/-- The event is a `namespace/<ns>` response whose metric `key`, as parsed by
`parseStats`, has the given value. -/
def Event.metricIs (key value : GoString) (e : Event) : Bool :=
  match e.call with
  | .info _ command (some stats) =>
    decide (command.take 10 = "namespace/".toList) &&
      decide (metricOf stats (command.drop 10) key = value)
  | _ => false

/-- The trace `t2` is `t` followed by further events, all of which satisfy `P`. -/
def Grows (P : Event → Prop) (t t2 : List Event) : Prop :=
  ∃ new, t2 = t ++ new ∧ ∀ e ∈ new, P e

/-- The commands each loop sends: a `RequestInfo` event carries a command of
the loop it is tagged with. -/
def Event.Tagged (e : Event) : Prop :=
  match e.call with
  | .nodes _ => True
  | .info _ command _ =>
    match e.phase with
    | .WaitStable => command = stableCommand
    | .FinalStable => command = stableCommand
    | .QuiesceSelf => command = quiesceCommand
    | .Recluster => command = reclusterCommand
    | .VerifyZeroThroughput =>
      command = buildCommand ∨ command = "latencies:".toList ∨ command = "latency:".toList
    | _ => command = namespacesCommand ∨ ∃ ns, command = namespaceCommand ns

/-- An event of one of the loops `phases` that carries a command of its loop. -/
def Event.OfPhases (phases : List Phase) (e : Event) : Prop :=
  e.phase ∈ phases ∧ e.Tagged

/-- A `cluster-stable` answer that lets the check go on: no transport error
and a value other than `ERROR::unstable-cluster`. -/
def stableAnswer (r : Option GoMap) : Bool :=
  match r with
  | none => false
  | some out => decide (out.index stableCommand ≠ unstableCluster)

/-- The events of a pass of the cluster-stable check in which every node of
`listing`, in order, gives a `stableAnswer`. -/
def AnsweredStable (ph : Phase) (listing : List Node) (events : List Event) : Prop :=
  ∃ rs : List (Option GoMap), rs.length = listing.length ∧
    events = List.zipWith (fun n r => (⟨ph, Call.info n stableCommand r⟩ : Event)) listing rs ∧
    ∀ r ∈ rs, stableAnswer r = true

/-- Every event of the trace of `o` that satisfies `Q` and was made after the
first `start` events has only events before it that together satisfy `W`. -/
def PrecededBy {σ α : Type} (Q : Event → Prop) (W : List Event → Prop) (start : Nat)
    (o : Outcome σ α) : Prop :=
  ∀ pre e post, o.session.trace = pre ++ e :: post → start ≤ pre.length → Q e → W pre

/-- The trace holds a pass of the cluster-stable check of loop `ph`: a node
listing followed by a `stableAnswer` of every listed node, in order. -/
def SawStablePass (ph : Phase) (pre : List Event) : Prop :=
  ∃ before listing evs after,
    pre = before ++ (⟨ph, Call.nodes listing⟩ : Event) :: (evs ++ after) ∧
      AnsweredStable ph listing evs

/-- The event is a `namespaces` response, made in loop `ph`, of a local node
that reports no first namespace. -/
def Event.selfNoNamespace (myPodIP : GoString) (ph : Phase) (e : Event) : Bool :=
  match e.call with
  | .info node command (some out) =>
    decide (e.phase = ph) && isSelf myPodIP node && decide (command = namespacesCommand) &&
      decide (selectedNamespace out = [])
  | _ => false

/-- What the quiesce step has seen when it finishes: a `namespace/<ns>`
response of a local node with `pending_quiesce` equal to `true`, or a local
node reporting no namespace while `pending_quiesce` was awaited, or a listing
of the quiesce loop without any local node. -/
def QuiesceSettled (myPodIP : GoString) (pre : List Event) : Prop :=
  (∃ e ∈ pre, e.selfMetricIs myPodIP "pending_quiesce".toList "true".toList = true) ∨
  (∃ e ∈ pre, e.selfNoNamespace myPodIP .WaitPendingQuiesce = true) ∨
  ∃ listing, (⟨.QuiesceSelf, Call.nodes listing⟩ : Event) ∈ pre ∧
    ∀ n ∈ listing, isSelf myPodIP n = false

/-- The event is a `namespaces` response, made in loop `ph`, in which `node`
reports no first namespace. -/
def Event.noNamespaceFrom (ph : Phase) (node : Node) (e : Event) : Bool :=
  match e.call with
  | .info n command (some out) =>
    decide (e.phase = ph) && decide (n = node) && decide (command = namespacesCommand) &&
      decide (selectedNamespace out = [])
  | _ => false

/-- What the `effective_is_quiesced` check has seen when it finishes: a
`namespace/<ns>` response of a local node with `effective_is_quiesced` equal
to `true`, or a listing of its loop every local node of which (if any)
reported no first namespace. -/
def EffectiveQuiesceSettled (myPodIP : GoString) (pre : List Event) : Prop :=
  (∃ e ∈ pre, e.selfMetricIs myPodIP "effective_is_quiesced".toList "true".toList = true) ∨
  ∃ listing, (⟨.VerifyEffectiveQuiesce, Call.nodes listing⟩ : Event) ∈ pre ∧
    ∀ n ∈ listing, isSelf myPodIP n = true →
      ∃ e ∈ pre, e.noNamespaceFrom .VerifyEffectiveQuiesce n = true

/-- A cluster in which every request succeeds, every node answers
`cluster-stable` with a value other than `ERROR::unstable-cluster`, and every
node reports a first namespace whose `pending_quiesce` is `true`. -/
def AlreadyQuiesced {σ : Type} (c : Cluster σ) : Prop :=
  ∀ w node,
    (∃ out, (c.RequestInfo w node stableCommand).1 = some out ∧
      out.index stableCommand ≠ unstableCluster) ∧
    (∃ out, (c.RequestInfo w node quiesceCommand).1 = some out) ∧
    (∃ out, (c.RequestInfo w node reclusterCommand).1 = some out) ∧
    (∃ out, (c.RequestInfo w node namespacesCommand).1 = some out ∧
      (selectedNamespace out).length > 0 ∧
      ∃ stats, (c.RequestInfo (c.RequestInfo w node namespacesCommand).2 node
          (namespaceCommand (selectedNamespace out))).1 = some stats ∧
        metricOf stats (selectedNamespace out) "pending_quiesce".toList = "true".toList)

/-! ## Sample clusters -/

/-- A cluster without state: a fixed listing, and answers that depend only on
the node and the command. -/
def staticCluster (listing : List Node) (answer : Node → GoString → Option GoMap) :
    Cluster Unit where
  GetNodes := fun _ => (listing, ())
  RequestInfo := fun _ node command => (answer node command, ())

/-- The local node, listed under the host name `localhost`. -/
def selfNode : Node := ⟨"BB9020011AC4202".toList, "localhost".toList⟩

/-- Another node of the cluster. -/
def peerNode : Node := ⟨"BB9030011AC4202".toList, "10.0.0.7".toList⟩

/-- Answers of a node that has the namespace `test` with the given metrics,
runs build 5.7.0.1 and reports no latency data. -/
def answerWith (metrics : GoString) (command : GoString) : Option GoMap :=
  if command = namespacesCommand then some [(command, "test".toList)]
  else if command = namespaceCommand "test".toList then some [(command, metrics)]
  else if command = buildCommand then some [(command, "5.7.0.1".toList)]
  else if command = "latencies:".toList then some [(command, [])]
  else some [(command, "ok".toList)]

/-- Answers of a node without namespaces. -/
def answerNoNamespace (command : GoString) : Option GoMap :=
  if command = namespacesCommand then some [(command, [])]
  else if command = buildCommand then some [(command, "5.7.0.1".toList)]
  else if command = "latencies:".toList then some [(command, [])]
  else some [(command, "ok".toList)]

/-- A cluster whose listing holds a single node that is not the local one. -/
def peerOnlyCluster : Setup Unit ℚ where
  cluster := staticCluster [peerNode]
    (fun _ => answerWith "pending_quiesce=false;effective_is_quiesced=false".toList)
  float := decimalOps
  myPodIP := "10.0.0.5".toList

/-- A cluster of the local node, which has no namespace, and a peer. -/
def noNamespaceCluster : Setup Unit ℚ where
  cluster := staticCluster [selfNode, peerNode]
    (fun node => if node = selfNode then answerNoNamespace
      else answerWith "pending_quiesce=false;effective_is_quiesced=false".toList)
  float := decimalOps
  myPodIP := "10.0.0.5".toList

/-- A cluster of a peer and the local node, whose namespace `test` counts
three completed client proxies and two batch sub-transaction proxy errors. -/
def proxyCluster : Setup Unit ℚ where
  cluster := staticCluster [peerNode, selfNode]
    (fun _ => answerWith "client_proxy_complete=3;batch_sub_proxy_error=2".toList)
  float := decimalOps
  myPodIP := "10.0.0.5".toList

/-- A cluster of the local node, which reports `pending_quiesce=true` and
`effective_is_quiesced=true`, and a peer that reports both as `false`. -/
def quiescingCluster : Setup Unit ℚ where
  cluster := staticCluster [selfNode, peerNode]
    (fun node =>
      if node = selfNode then answerWith "pending_quiesce=true;effective_is_quiesced=true".toList
      else answerWith "pending_quiesce=false;effective_is_quiesced=false".toList)
  float := decimalOps
  myPodIP := "10.0.0.5".toList

/-- A cluster of the local node alone, which has no namespace. -/
def bareCluster : Setup Unit ℚ where
  cluster := staticCluster [selfNode] (fun _ => answerNoNamespace)
  float := decimalOps
  myPodIP := "10.0.0.5".toList

/-- A cluster of the local node alone, already reporting `pending_quiesce=true`. -/
def drainedCluster : Setup Unit ℚ where
  cluster := staticCluster [selfNode]
    (fun _ => answerWith "pending_quiesce=true;effective_is_quiesced=true".toList)
  float := decimalOps
  myPodIP := "10.0.0.5".toList

/-! ## The end-to-end scenario -/

/-- The two other nodes of the end-to-end scenario. -/
def happyPeers : List Node :=
  [⟨"BB9030011AC4202".toList, "10.0.0.7".toList⟩, ⟨"BB9040011AC4202".toList, "10.0.0.8".toList⟩]

/-- The listing of the end-to-end scenario: three nodes, the local node at
position `i`. -/
def happyListing (i : Fin 3) : List Node :=
  happyPeers.take i.val ++ selfNode :: happyPeers.drop i.val

/-- Answers of the nodes of the end-to-end scenario, all of build 5.7.0.1 with
the namespace `test`. The state counts the `namespace/test` requests the local
node has answered: its first answer still reports `pending_quiesce=false`,
every later one reports the node as quiesced, with all proxy counters at 0.
The other nodes report `pending_quiesce=false`; every node answers the
cluster-stable check and `recluster:`, and the latency data show no operation. -/
def happyAnswer (w : Nat) (node : Node) (command : GoString) : Option GoMap × Nat :=
  if command = namespacesCommand then (some [(command, "test".toList)], w)
  else if command = namespaceCommand "test".toList then
    if node = selfNode then
      if w = 0 then
        (some [(command, "pending_quiesce=false;effective_is_quiesced=false".toList)], w + 1)
      else
        (some [(command, ("pending_quiesce=true;effective_is_quiesced=true;" ++
          "client_proxy_complete=0;client_proxy_error=0;client_proxy_timeout=0;" ++
          "batch_sub_proxy_complete=0;batch_sub_proxy_error=0;batch_sub_proxy_timeout=0").toList)],
          w + 1)
    else (some [(command, "pending_quiesce=false;effective_is_quiesced=false".toList)], w)
  else if command = buildCommand then (some [(command, "5.7.0.1".toList)], w)
  else if command = "latencies:".toList then
    (some [(command, "\x7btest\x7d-read:msec,0,0,0;\x7btest\x7d-write:msec,0,0,0;".toList)], w)
  else if command = stableCommand then (some [(command, "7A8B9C0D1E2F".toList)], w)
  else (some [(command, "ok".toList)], w)

/-- The end-to-end scenario with the local node at position `i` of the listing. -/
def happyPath (i : Fin 3) : Setup Nat Nat where
  cluster := ⟨fun w => (happyListing i, w), happyAnswer⟩
  float := natOps
  myPodIP := "10.0.0.5".toList

/-- The nodes a command was sent to, in the order of the requests. -/
def commandTargets (command : GoString) (trace : List Event) : List Node :=
  trace.filterMap fun e =>
    match e.call with
    | .nodes _ => none
    | .info node c _ => if c = command then some node else none

/-- The loops that listed the nodes, one entry per listing, in order. -/
def listingPhases (trace : List Event) : List Phase :=
  trace.filterMap fun e =>
    match e.call with
    | .nodes _ => some e.phase
    | .info _ _ _ => none

/-- The requests of a trace: the loop, the host asked and the command. -/
def requestsOf (trace : List Event) : List (Phase × GoString × GoString) :=
  trace.filterMap fun e =>
    match e.call with
    | .nodes _ => none
    | .info node c _ => some (e.phase, node.host, c)

/-- The values of metric `key` that loop `ph` was given in answers to
`namespace/test`, each with the host that reported it. -/
def metricPolls (ph : Phase) (key : GoString) (trace : List Event) :
    List (GoString × GoString) :=
  trace.filterMap fun e =>
    match e.call with
    | .info node c (some stats) =>
      if e.phase = ph ∧ c = namespaceCommand "test".toList then
        some (node.host, metricOf stats "test".toList key)
      else none
    | _ => none

/-- The requests of one look at a node's namespace metrics by loop `ph`. -/
def metricRequests (ph : Phase) (node : Node) : List (Phase × GoString × GoString) :=
  [(ph, node.host, namespacesCommand), (ph, node.host, namespaceCommand "test".toList)]

/-- Number of iterations a parsing loop with body `step` makes until it leaves
by `break`, the breaking iteration included; `none` when `fuel` iterations do
not finish the loop or an index is out of range. -/
def loopIterations {F : Type} (step : InfoParser → F → LoopStep F) :
    Nat → InfoParser → F → Option Nat
  | 0, _, _ => none
  | fuel + 1, ip, opsPerSec =>
    match step ip opsPerSec with
    | .stop => some 1
    | .panic => none
    | .next ip2 acc => (loopIterations step fuel ip2 acc).map (fun k => k + 1)

/-! ## The other operations of `aku-adm.go` -/

/-- The `for _, node := range activeNodes` loop of `performPreStopOpCommunity`
(lines 128-143): `true` when a retry is needed. Its calls are recorded as calls
of the cluster-stable check. -/
def communityPass {σ : Type} (c : Cluster σ) : List Node → Session σ → Bool × Session σ
  | [], s => (false, s)
  | node :: rest, s =>
    match requestInfo c .WaitStable s node "cluster-stable:ignore-migrations=no;".toList with
    | (none, s1) => (true, s1)
    | (some out, s1) =>
      if out.index "cluster-stable:ignore-migrations=no;".toList
          = "ERROR::unstable-cluster".toList then (true, s1)
      else communityPass c rest s1

/-- `performPreStopOpCommunity(client)` (lines 114-156) with its loop bounded by
`fuel` iterations. -/
def performPreStopOpCommunity {σ : Type} (c : Cluster σ) : Nat → Session σ → Outcome σ Unit
  | 0, s => .blocked s
  | fuel + 1, s =>
    match getNodes c .WaitStable s with
    | (activeNodes, s1) =>
      match communityPass c activeNodes s1 with
      | (true, s2) => performPreStopOpCommunity c fuel s2
      | (false, s2) => .done () s2

/-- The administrative call of the client, `client.CreateUser(...)`, as a
deterministic machine: `none` when the user was created, otherwise the text of
the error (`err.Error()`). -/
structure AdminClient (σ : Type) where
  CreateUser : σ → Option GoString × σ

/-- The `for i := 0; i < 3; i++` loop of `performPostStartOp` with `attempts`
iterations left; `calls` holds the results of the calls made so far. -/
def postStartLoop {σ : Type} (c : AdminClient σ) :
    Nat → σ → List (Option GoString) → σ × List (Option GoString)
  | 0, w, calls => (w, calls)
  | attempts + 1, w, calls =>
    match c.CreateUser w with
    | (some msg, w1) =>
      if msg = "User already exists".toList then (w1, calls ++ [some msg])
      else postStartLoop c attempts w1 (calls ++ [some msg])
    | (none, w1) => (w1, calls ++ [none])

/-- `performPostStartOp(client)` (lines 643-666): the state of the client
afterwards and the results of its `CreateUser` calls, oldest first. -/
def performPostStartOp {σ : Type} (c : AdminClient σ) (w : σ) : σ × List (Option GoString) :=
  postStartLoop c 3 w []

/-- A failure after which `performPostStartOp` tries again: an error whose
text is not `User already exists`. -/
def Retried (r : Option GoString) : Prop :=
  r ≠ none ∧ r ≠ some "User already exists".toList

instance (r : Option GoString) : Decidable (Retried r) := by
  unfold Retried
  infer_instance

/-- The outcome of `aerospike.RequestInfo(connection, command)`: the response,
an error, or a panic inside the call. The client closes a connection on which
a request failed, and a request on a closed connection panics. -/
inductive InfoResult where
  | response (out : GoMap)
  | failure
  | panic
  deriving DecidableEq, Repr

/-- What the liveness probe talks to: `initAerospikeConnection` (`true` when a
connection is returned, `false` when it returns the nil connection and an
error) and `aerospike.RequestInfo` on the connection. -/
structure ProbeTarget (σ : Type) where
  initAerospikeConnection : σ → Bool × σ
  RequestInfo : σ → GoString → InfoResult × σ

/-- A call of the liveness probe with its result. -/
inductive ProbeCall where
  | connect (established : Bool)
  | info (result : InfoResult)
  deriving DecidableEq, Repr

/-- How `performLivenessProbeOp` ends: it returns after a success, it ends the
process through `zap.S().Fatal`, or a call panics. -/
inductive ProbeOutcome where
  | success
  | fatal
  | panic
  deriving DecidableEq, Repr

/-- The `for i := 0; i < 3; i++` loop of `performLivenessProbeOp` with `attempts`
iterations left; `connected` is `connection != nil`. -/
def livenessLoop {σ : Type} (t : ProbeTarget σ) :
    Nat → Bool → σ → List ProbeCall → ProbeOutcome × σ × List ProbeCall
  | 0, _, w, calls => (.fatal, w, calls)
  | attempts + 1, connected, w, calls =>
    if connected = false then
      match t.initAerospikeConnection w with
      | (false, w1) => livenessLoop t attempts false w1 (calls ++ [.connect false])
      | (true, w1) =>
        match t.RequestInfo w1 buildCommand with
        | (.failure, w2) =>
          livenessLoop t attempts true w2 (calls ++ [.connect true, .info .failure])
        | (.panic, w2) => (.panic, w2, calls ++ [.connect true, .info .panic])
        | (.response out, w2) =>
          (.success, w2, calls ++ [.connect true, .info (.response out)])
    else
      match t.RequestInfo w buildCommand with
      | (.failure, w1) => livenessLoop t attempts true w1 (calls ++ [.info .failure])
      | (.panic, w1) => (.panic, w1, calls ++ [.info .panic])
      | (.response out, w1) => (.success, w1, calls ++ [.info (.response out)])

/-- `performLivenessProbeOp(host, adminUsername, adminPassword)` (lines 160-197):
how it ends, with the calls it made. -/
def performLivenessProbeOp {σ : Type} (t : ProbeTarget σ) (w : σ) :
    ProbeOutcome × σ × List ProbeCall :=
  livenessLoop t 3 false w []

/-- The way the aerospike client treats a connection on which a request
failed with a transport error: it closes the connection, and a request on a
closed connection panics. -/
def ClosesOnFailure {σ : Type} (t : ProbeTarget σ) : Prop :=
  ∀ (w w1 : σ) (command : GoString), t.RequestInfo w command = (.failure, w1) →
    ∀ next : GoString, (t.RequestInfo w1 next).1 = .panic

/-- A host that accepts the connection and fails the first `build` request on
it. The state tells whether the client has closed the connection: it does so
when the request fails, and every later request on that connection panics. -/
def droppingHost : ProbeTarget Bool where
  initAerospikeConnection := fun _ => (true, false)
  RequestInfo := fun closed _ => if closed then (.panic, true) else (.failure, true)

/-! ## Bookkeeping of initialised volumes (`update_pod_status_util.go`) -/

/-- `removeOldFormattedVolumeName(initializedVolumes)`: the entries that split
on `@` into exactly two pieces, in order. -/
def removeOldFormattedVolumeName : List GoString → List GoString
  | [] => []
  | v :: rest =>
    if (Split v ['@']).length = 2 then v :: removeOldFormattedVolumeName rest
    else removeOldFormattedVolumeName rest

/-- `remove(s, r)`: `s` without its first element equal to `r`. -/
def remove : List GoString → GoString → List GoString
  | [], _ => []
  | v :: rest, r => if v = r then rest else v :: remove rest r

/-- The `for idx := range initializedVolumes` loop of `isVolInitialisationNeeded`
over the entries from `idx` on; `none` when `initVolInfo[0]` or `initVolInfo[1]`
is out of range. -/
def volInitLoop (initializedVolumes : List GoString) (volName pvcUID : GoString) :
    List GoString → Option (Bool × List GoString)
  | [] => some (true, initializedVolumes)
  | v :: rest =>
    match (Split v ['@'])[0]? with
    | none => none
    | some name =>
      if name = volName then
        match (Split v ['@'])[1]? with
        | none => none
        | some uid =>
          if uid ≠ pvcUID then some (true, remove initializedVolumes v)
          else some (false, initializedVolumes)
      else volInitLoop initializedVolumes volName pvcUID rest

/-- `isVolInitialisationNeeded(logger, initializedVolumes, volName, pvcUID)`:
`needInit` and `volumes`, or `none` for an index out of range. -/
def isVolInitialisationNeeded (initializedVolumes : List GoString) (volName pvcUID : GoString) :
    Option (Bool × List GoString) :=
  volInitLoop initializedVolumes volName pvcUID initializedVolumes

/-- The entry is named `volName`: its text before the first `@` is `volName`. -/
def namedVolume (volName : GoString) (v : GoString) : Bool :=
  decide ((Split v ['@'])[0]? = some volName)

/-- The six proxy counters summed by the proxy check, in the order of the code. -/
def proxyCounters : List GoString :=
  ["client_proxy_complete".toList, "client_proxy_error".toList, "client_proxy_timeout".toList,
   "batch_sub_proxy_complete".toList, "batch_sub_proxy_error".toList,
   "batch_sub_proxy_timeout".toList]

/-- The integer a counter text stands for, as the specification reads it: the
value of an optionally signed decimal numeral, and 0 for any other text, the
empty text of a missing metric included. -/
def counterValue (s : GoString) : Int :=
  if unsignedPart s = [] ∨ (unsignedPart s).all Char.isDigit = false then 0
  else if s.head? = some '-' then -(decimalValue (unsignedPart s) : Int)
  else (decimalValue (unsignedPart s) : Int)

/-- The decimal digits a counter text starts with, after its optional sign. -/
def leadingDigits (s : GoString) : GoString :=
  (unsignedPart s).takeWhile Char.isDigit

/-- The tally as the specification states it: over the namespaces and their
`namespace/<ns>` responses, the sum of the six counters read from `parseStats`
of the response. -/
def specTally (names : List GoString) (responses : List GoMap) : Int :=
  ((List.zip names responses).map fun p =>
    (proxyCounters.map fun key =>
      counterValue ((parseStats (p.2.index (namespaceCommand p.1)) [';']).index key)).sum).sum

/-- The same sum with each counter read by `strconv.Atoi`. -/
def atoiTally (names : List GoString) (responses : List GoMap) : Int :=
  ((List.zip names responses).map fun p =>
    (proxyCounters.map fun key =>
      Atoi ((parseStats (p.2.index (namespaceCommand p.1)) [';']).index key)).sum).sum

/-- A cluster of the local node alone, with the namespaces `test` and `bar`:
`namespace/test` reports three completed client proxies, the request
`namespace/bar` fails with a transport error. -/
def partialTallyCluster : Cluster Unit :=
  staticCluster [selfNode] fun _ command =>
    if command = namespacesCommand then some [(command, "test;bar".toList)]
    else if command = namespaceCommand "test".toList then
      some [(command, "client_proxy_complete=3".toList)]
    else if command = namespaceCommand "bar".toList then none
    else some [(command, "ok".toList)]

/-! ## What a pass has seen, event by event -/

/-- The events of a look by loop `ph` at the first namespace of `node`: the
answer `answer.1` to `namespaces` and, when it names a first namespace, the
answer `answer.2` to `namespace/<ns>`. -/
def metricLook (ph : Phase) (node : Node) (answer : GoMap × GoMap) : List Event :=
  if (selectedNamespace answer.1).length > 0 then
    [⟨ph, .info node namespacesCommand (some answer.1)⟩,
     ⟨ph, .info node (namespaceCommand (selectedNamespace answer.1)) (some answer.2)⟩]
  else [⟨ph, .info node namespacesCommand (some answer.1)⟩]

/-- The value of metric `key` that such a look shows; `none` when the node
names no first namespace. -/
def shownMetric (key : GoString) (answer : GoMap × GoMap) : Option GoString :=
  if (selectedNamespace answer.1).length > 0 then
    some (metricOf answer.2 (selectedNamespace answer.1) key)
  else none

/-- The events of a pass of the validation after recluster in which every node
of `listing`, in listing order, is looked at, every request is answered, and
what each look shows of `pending_quiesce` satisfies `ok`. -/
def GuardLooked (ok : Option GoString → Prop) (listing : List Node) (events : List Event) :
    Prop :=
  ∃ answers : List (GoMap × GoMap), answers.length = listing.length ∧
    events = (List.zipWith (metricLook .IdempotencyGuard) listing answers).flatten ∧
    ∀ a ∈ answers, ok (shownMetric "pending_quiesce".toList a)

/-- The events of a pass of the validation after recluster that stops at a node
showing `pending_quiesce` equal to `"false"`: the nodes listed before it are
looked at in order without showing `"false"`, the nodes after it are not asked. -/
def GuardSawFalse (listing : List Node) (events : List Event) : Prop :=
  ∃ (before : List Node) (node : Node) (after : List Node) (answer : GoMap × GoMap)
    (seen : List Event),
    listing = before ++ node :: after ∧
    GuardLooked (fun v => v ≠ some "false".toList) before seen ∧
    events = seen ++ metricLook .IdempotencyGuard node answer ∧
    shownMetric "pending_quiesce".toList answer = some "false".toList

/-- The events of a pass of the recluster step in which every node of
`listing`, in listing order, answers `recluster:`. -/
def Reclustered (listing : List Node) (events : List Event) : Prop :=
  ∃ outs : List GoMap, outs.length = listing.length ∧
    events = List.zipWith
      (fun n out => (⟨.Recluster, Call.info n reclusterCommand (some out)⟩ : Event))
      listing outs

/-- The events of a pass of the quiesce step that ends without a retry on a
node reporting `pending_quiesce=true` at once: nothing when no node of
`listing` is local; otherwise `quiesce:` answered by the first local node,
followed by one look at its `pending_quiesce`, which shows `"true"`. -/
def QuiescedSelf (myPodIP : GoString) (listing : List Node) (events : List Event) : Prop :=
  ((∀ n ∈ listing, isSelf myPodIP n = false) ∧ events = []) ∨
  ∃ (before : List Node) (node : Node) (after : List Node) (out : GoMap)
    (answer : GoMap × GoMap),
    listing = before ++ node :: after ∧ (∀ n ∈ before, isSelf myPodIP n = false) ∧
    isSelf myPodIP node = true ∧
    events = ⟨.QuiesceSelf, Call.info node quiesceCommand (some out)⟩ ::
      metricLook .WaitPendingQuiesce node answer ∧
    shownMetric "pending_quiesce".toList answer = some "true".toList

/-- A cluster of a peer and the local node, both reporting
`pending_quiesce=true`. -/
def allQuiescedCluster : Setup Unit ℚ where
  cluster := staticCluster [peerNode, selfNode]
    (fun _ => answerWith "pending_quiesce=true;effective_is_quiesced=true".toList)
  float := decimalOps
  myPodIP := "10.0.0.5".toList

/-- A second local node, listed under the host name `127.0.0.1`. -/
def loopbackNode : Node := ⟨"BB9050011AC4202".toList, "127.0.0.1".toList⟩

/-- A cluster whose listing holds a peer and two local nodes, every node
reporting `pending_quiesce=true`. -/
def twoLocalCluster : Setup Unit ℚ where
  cluster := staticCluster [peerNode, selfNode, loopbackNode]
    (fun _ => answerWith "pending_quiesce=true;effective_is_quiesced=true".toList)
  float := decimalOps
  myPodIP := "10.0.0.5".toList

/-! ## Numbers beyond the range of `float64` -/

/-- The least value of a decimal numeral that `strconv.ParseFloat(s, 64)`
rejects with a range error, `2^1024 - 2^970`: from there on a value rounds
beyond the largest `float64`, which is `2^1024 - 2^971`. -/
def float64Overflow : Nat := (2 ^ 64) ^ 16 - (2 ^ 97) ^ 10

/-- An interpretation of `Float64Ops` by natural numbers that reads unsigned
integer numerals and reports the range error of `strconv.ParseFloat`: a
numeral worth `float64Overflow` or more is rejected. Values are kept exact,
the rounding to `float64` is not modelled. -/
def rangedOps : Float64Ops Nat where
  zero := 0
  add := fun a b => a + b
  ParseFloat := fun s =>
    match natOps.ParseFloat s with
    | some v => if float64Overflow ≤ v then none else some v
    | none => none
  isZero := fun x => decide (x = 0)

/-- A new-format section whose first bucket value is the decimal number written
with 310 nines. -/
def hugeNewSection : NewSection where
  ns := "test".toList
  op := "write".toList
  unit := "msec".toList
  v1 := List.replicate 310 '9'
  vs := ["5".toList]

/-- A legacy section whose first bucket value is the decimal number written
with 310 nines. -/
def hugeLegacySection : LegacySection where
  ns := "test".toList
  op := "read".toList
  ts1 := "10:17:37-GMT".toList
  labels := "ops/sec,>1ms".toList
  ts2 := "10:17:47".toList
  v1 := List.replicate 310 '9'
  vs := ["5".toList]

end AKU
namespace AKU

/-! ## Lemmas on maps and `parseStats` -/

theorem GoMap.lookup_filter_ne (m : GoMap) (k k2 : GoString) (h : k ≠ k2) :
    GoMap.lookup (m.filter (fun e => decide (e.1 ≠ k))) k2 = GoMap.lookup m k2 := by
  induction m with
  | nil => rfl
  | cons e rest ih =>
    obtain ⟨k1, v1⟩ := e
    by_cases h1 : k1 = k
    · have h3 : ¬ k1 = k2 := fun e => h (h1 ▸ e)
      rw [List.filter_cons_of_neg (by simpa using h1)]
      simp only [GoMap.lookup, h3, if_false]
      exact ih
    · rw [List.filter_cons_of_pos (by simpa using h1)]
      simp only [GoMap.lookup, ih]

theorem GoMap.lookup_set (m : GoMap) (k v k2 : GoString) :
    (m.set k v).lookup k2 = if k = k2 then some v else m.lookup k2 := by
  unfold GoMap.set
  by_cases h : k = k2
  · simp [GoMap.lookup, h]
  · simp only [GoMap.lookup, h, if_false]
    exact GoMap.lookup_filter_ne m k k2 h

theorem span_ne_eq (s : GoString) (c : Char) :
    s.span (fun x => x != c) = (s.takeWhile (fun x => x != c), s.dropWhile (fun x => x != c)) :=
  List.span_eq_take_drop _ _

theorem dropWhile_ne_of_mem (s : GoString) (c : Char) (h : c ∈ s) :
    s.dropWhile (fun x => x != c) = c :: (s.dropWhile (fun x => x != c)).tail := by
  induction s with
  | nil => simp at h
  | cons a s ih =>
    by_cases h1 : a = c
    · subst h1; simp [List.dropWhile]
    · have h2 : c ∈ s := by
        rcases List.mem_cons.mp h with e | e
        · exact absurd e.symm h1
        · exact e
      have : (a != c) = true := by simpa using h1
      simp only [List.dropWhile, this]
      exact ih h2

theorem dropWhile_ne_of_not_mem (s : GoString) (c : Char) (h : c ∉ s) :
    s.dropWhile (fun x => x != c) = [] := by
  induction s with
  | nil => rfl
  | cons a s ih =>
    have h1 : ¬ a = c := fun e => h (e ▸ List.mem_cons_self _ _)
    have h2 : c ∉ s := fun e => h (List.mem_cons_of_mem _ e)
    have : (a != c) = true := by simpa using h1
    simp only [List.dropWhile, this]
    exact ih h2

theorem takeWhile_ne_of_not_mem (s : GoString) (c : Char) (h : c ∉ s) :
    s.takeWhile (fun x => x != c) = s := by
  induction s with
  | nil => rfl
  | cons a s ih =>
    have h1 : ¬ a = c := fun e => h (e ▸ List.mem_cons_self _ _)
    have h2 : c ∉ s := fun e => h (List.mem_cons_of_mem _ e)
    have : (a != c) = true := by simpa using h1
    simp only [List.takeWhile, this]
    rw [ih h2]

theorem SplitN2_mem (s : GoString) (c : Char) (h : c ∈ s) :
    SplitN2 s c = [s.takeWhile (fun x => x != c), (s.dropWhile (fun x => x != c)).tail] := by
  unfold SplitN2
  rw [span_ne_eq, dropWhile_ne_of_mem s c h]
  simp

theorem SplitN2_not_mem (s : GoString) (c : Char) (h : c ∉ s) : SplitN2 s c = [s] := by
  unfold SplitN2
  rw [span_ne_eq, dropWhile_ne_of_not_mem s c h]

theorem parseStatsLoop_step (r : GoString) (rest : List GoString) (stats : GoMap) :
    parseStatsLoop (r :: rest) stats =
      parseStatsLoop rest (if '=' ∈ r then stats.set (recordKey r) (recordValue r) else stats) := by
  by_cases h : '=' ∈ r
  · simp only [parseStatsLoop, SplitN2_mem r '=' h, h, if_true]
    rfl
  · simp only [parseStatsLoop, SplitN2_not_mem r '=' h, h, if_false]

theorem getLast?_cons_eq {α : Type} (a : α) (l : List α) :
    (a :: l).getLast? = some (l.getLast?.getD a) := by
  cases l with
  | nil => rfl
  | cons b l => simp [List.getLast?_cons_cons, List.getLast?_eq_getLast, List.getLast?_cons]

theorem parseStatsLoop_lookup (recs : List GoString) (stats : GoMap) (k : GoString) :
    (parseStatsLoop recs stats).lookup k =
      match (recordsFor k recs).getLast? with
      | some r => some (recordValue r)
      | none => stats.lookup k := by
  induction recs generalizing stats with
  | nil => simp [parseStatsLoop, recordsFor]
  | cons r rest ih =>
    rw [parseStatsLoop_step, ih]
    unfold recordsFor
    by_cases h : '=' ∈ r ∧ recordKey r = k
    · rw [List.filter_cons_of_pos (by simpa using h)]
      obtain ⟨h1, h2⟩ := h
      rw [getLast?_cons_eq]
      generalize (List.filter (fun r => decide ('=' ∈ r ∧ recordKey r = k)) rest).getLast? = o
      cases o with
      | none => simp [h1, GoMap.lookup_set, h2]
      | some x => simp
    · rw [List.filter_cons_of_neg (by simpa using h)]
      generalize (List.filter (fun r => decide ('=' ∈ r ∧ recordKey r = k)) rest).getLast? = o
      cases o with
      | none =>
        by_cases h1 : '=' ∈ r
        · have h2 : ¬ recordKey r = k := fun e => h ⟨h1, e⟩
          simp [h1, GoMap.lookup_set, h2]
        · simp [h1]
      | some x => simp

/-! ## Lemmas on the reader -/

theorem span_ne_append (a b : GoString) (d : Char) (h : d ∉ a) :
    (a ++ d :: b).span (fun c => c != d) = (a, d :: b) := by
  rw [List.span_eq_take_drop]
  induction a with
  | nil => simp [List.takeWhile, List.dropWhile]
  | cons x a ih =>
    have h1 : ¬ x = d := fun e => h (e ▸ List.mem_cons_self _ _)
    have h2 : d ∉ a := fun e => h (List.mem_cons_of_mem _ e)
    have hx : (x != d) = true := by simpa using h1
    have := ih h2
    simp only [List.cons_append, List.takeWhile, List.dropWhile, hx]
    rw [Prod.mk.injEq] at this ⊢
    exact ⟨congrArg (List.cons x) this.1, this.2⟩

theorem ReadBytes_delim (a b : GoString) (d : Char) (h : d ∉ a) :
    InfoParser.ReadBytes ⟨a ++ d :: b⟩ d = ((a ++ [d], none), ⟨b⟩) := by
  simp only [InfoParser.ReadBytes, span_ne_append a b d h]

theorem ReadUntil_delim (a b : GoString) (d : Char) (h : d ∉ a) :
    InfoParser.ReadUntil ⟨a ++ d :: b⟩ d = ((a, none), ⟨b⟩) := by
  unfold InfoParser.ReadUntil
  rw [ReadBytes_delim a b d h]
  match a, h with
  | [], _ => simp
  | [x], h =>
    have : ¬ x = d := fun e => h (e ▸ List.mem_cons_self _ _)
    simp
  | x :: y :: a, _ => simp

theorem Expect_char (c : Char) (r : GoString) :
    InfoParser.Expect ⟨c :: r⟩ [c] = (none, ⟨r⟩) := by
  simp [InfoParser.Expect, InfoParser.Read]

theorem Expect_nil (s : GoString) (hs : s ≠ []) :
    InfoParser.Expect ⟨[]⟩ s = (some ReadError.EOF, ⟨[]⟩) := by
  simp [InfoParser.Expect, InfoParser.Read, hs]

theorem PeekAndExpect_char (c d : Char) (r : GoString) :
    InfoParser.PeekAndExpect ⟨c :: r⟩ [d] =
      (if c = d then none else some ReadError.WrongValue, ⟨c :: r⟩) := by
  by_cases h : c = d <;> simp [InfoParser.PeekAndExpect, InfoParser.Peek, defaultBufSize, h]

theorem splitScan_char_cons (d x : Char) (r cur : GoString) :
    splitScan [d] (x :: r) 0 cur =
      if x = d then cur :: splitScan [d] r 0 [] else splitScan [d] r 0 (cur ++ [x]) := by
  by_cases h : x = d
  · subst h
    simp [splitScan, List.isPrefixOf]
  · have h1 : ¬ d = x := fun e => h e.symm
    simp [splitScan, List.isPrefixOf, h, h1]

theorem splitScan_char_append (d : Char) (a b cur : GoString) (h : d ∉ a) :
    splitScan [d] (a ++ b) 0 cur = splitScan [d] b 0 (cur ++ a) := by
  induction a generalizing cur with
  | nil => simp
  | cons x a ih =>
    have h1 : ¬ x = d := fun e => h (e ▸ List.mem_cons_self _ _)
    have h2 : d ∉ a := fun e => h (List.mem_cons_of_mem _ e)
    rw [List.cons_append, splitScan_char_cons, if_neg h1, ih _ h2]
    simp

theorem Split_Join_head (d : Char) (v1 : GoString) (vs : List GoString) (h : d ∉ v1) :
    ∃ tl, Split (Join (v1 :: vs) [d]) [d] = v1 :: tl := by
  unfold Split Join
  simp only [List.cons_ne_nil, if_false]
  cases vs with
  | nil =>
    refine ⟨[], ?_⟩
    have := splitScan_char_append d v1 [] [] h
    simp only [List.append_nil, List.nil_append] at this
    simp [List.intercalate, this, splitScan]
  | cons w ws =>
    have e : List.intercalate [d] (v1 :: w :: ws) = v1 ++ d :: List.intercalate [d] (w :: ws) := by
      simp [List.intercalate, List.intersperse]
    rw [e, splitScan_char_append d v1 _ [] h, splitScan_char_cons]
    simp

theorem not_mem_Join (c d : Char) (vs : List GoString) (hcd : c ≠ d) (h : ∀ v ∈ vs, c ∉ v) :
    c ∉ Join vs [d] := by
  unfold Join
  induction vs with
  | nil => simp [List.intercalate]
  | cons v vs ih =>
    cases vs with
    | nil => simpa [List.intercalate] using h v (List.mem_cons_self _ _)
    | cons w ws =>
      have e : List.intercalate [d] (v :: w :: ws) = v ++ d :: List.intercalate [d] (w :: ws) := by
        simp [List.intercalate, List.intersperse]
      rw [e]
      intro hm
      rcases List.mem_append.mp hm with h1 | h1
      · exact h v (List.mem_cons_self _ _) h1
      · rcases List.mem_cons.mp h1 with h2 | h2
        · exact hcd h2
        · exact ih (fun u hu => h u (List.mem_cons_of_mem _ hu)) h2

theorem legacyRender_append (x : LegacySection) (rest : GoString) :
    x.render ++ rest = '{' :: (x.ns ++ '}' :: '-' :: (x.op ++ ':' :: (x.ts1 ++ ',' ::
      (x.labels ++ ';' :: (x.ts2 ++ ',' :: (Join (x.v1 :: x.vs) [','] ++ ';' :: rest)))))) := by
  simp [LegacySection.render]

theorem PeekAndExpect_field (a b : GoString) (d : Char) (h : a.head? ≠ some ';') (hd : d ≠ ';') :
    ∃ e, InfoParser.PeekAndExpect ⟨a ++ d :: b⟩ [';'] = (some e, ⟨a ++ d :: b⟩) := by
  cases a with
  | nil =>
    refine ⟨ReadError.WrongValue, ?_⟩
    rw [List.nil_append, PeekAndExpect_char, if_neg hd]
  | cons c a =>
    refine ⟨ReadError.WrongValue, ?_⟩
    have hc : c ≠ ';' := by
      intro e; apply h; simp [e]
    rw [List.cons_append, PeekAndExpect_char, if_neg hc]

theorem legacyLoop_section {F : Type} (ops : Float64Ops F) (x : LegacySection) (val : F)
    (hwf : x.WellFormed) (hval : ops.ParseFloat x.v1 = some val)
    (fuel : Nat) (rest : GoString) (acc : F) :
    legacyLoop ops (fuel + 1) ⟨x.render ++ rest⟩ acc = legacyLoop ops fuel ⟨rest⟩ (ops.add acc val) := by
  obtain ⟨h1, h2, h3, h4, h5, h6, h7, h8⟩ := hwf
  obtain ⟨tl, htl⟩ := Split_Join_head ',' x.v1 x.vs h7
  have hj : ';' ∉ Join (x.v1 :: x.vs) [','] := not_mem_Join ';' ',' _ (by decide) h8
  obtain ⟨e, he⟩ := PeekAndExpect_field x.ts1
    (x.labels ++ ';' :: (x.ts2 ++ ',' :: (Join (x.v1 :: x.vs) [','] ++ ';' :: rest))) ',' h3 (by decide)
  rw [legacyRender_append, legacyLoop]
  simp only [Expect_char, ReadUntil_delim _ _ _ h1, ReadUntil_delim _ _ _ h2, he,
    ReadUntil_delim _ _ _ h4, ReadUntil_delim _ _ _ h6, ReadUntil_delim _ _ _ h5,
    ReadUntil_delim _ _ _ hj, htl, hval]
  simp

theorem legacyLoop_nil {F : Type} (ops : Float64Ops F) (fuel : Nat) (acc : F) :
    legacyLoop ops (fuel + 1) ⟨[]⟩ acc = some acc := by
  simp [legacyLoop, InfoParser.Expect, InfoParser.Read, InfoParser.ReadUntil, InfoParser.ReadBytes,
    List.span, List.span.loop]

theorem legacyLoop_sections {F : Type} (ops : Float64Ops F) (secs : List LegacySection)
    (vals : List F) (hwf : ∀ x ∈ secs, x.WellFormed)
    (hval : secs.map (fun x => ops.ParseFloat x.v1) = vals.map some)
    (fuel : Nat) (hfuel : secs.length < fuel) (rest : GoString) (acc : F) :
    legacyLoop ops fuel ⟨renderLegacy secs ++ rest⟩ acc =
      legacyLoop ops (fuel - secs.length) ⟨rest⟩ (vals.foldl ops.add acc) := by
  induction secs generalizing vals fuel acc with
  | nil =>
    cases vals with
    | nil => simp [renderLegacy]
    | cons v vs => simp at hval
  | cons x secs ih =>
    cases vals with
    | nil => simp at hval
    | cons v vs =>
      simp only [List.map_cons, List.cons.injEq] at hval
      obtain ⟨fuel, rfl⟩ : ∃ f, fuel = f + 1 := ⟨fuel - 1, by simp at hfuel; omega⟩
      have e : renderLegacy (x :: secs) ++ rest = x.render ++ (renderLegacy secs ++ rest) := by
        simp [renderLegacy]
      rw [e, legacyLoop_section ops x v (hwf x (List.mem_cons_self _ _)) hval.1,
        ih vs (fun y hy => hwf y (List.mem_cons_of_mem _ hy)) hval.2 fuel
          (by simp at hfuel; omega)]
      simp

theorem legacyRender_length_pos (x : LegacySection) : 0 < x.render.length := by
  simp [LegacySection.render]

theorem renderLegacy_length (secs : List LegacySection) :
    secs.length ≤ (renderLegacy secs).length := by
  induction secs with
  | nil => simp
  | cons x secs ih =>
    have := legacyRender_length_pos x
    simp only [renderLegacy, List.map_cons, List.flatten_cons, List.length_append,
      List.length_cons] at ih ⊢
    omega

/-- C2 (amended): for every legacy response that is a concatenation of sections
`{ns}-op:ts1,labels;ts2,v1,...,vk;` whose fields satisfy `WellFormed` and whose
first bucket values are accepted by `ParseFloat`, `getOpsPerSecLegacy` returns
a nil error and the sum, accumulated left to right from `0.0`, of the first
bucket value of every section. `strconv.ParseFloat` does not accept every
decimal number: one too large for a `float64` is a range error (`rangedOps`). -/
theorem getOpsPerSecLegacy_wellFormed {F : Type} (ops : Float64Ops F)
    (secs : List LegacySection) (vals : List F)
    (hwf : ∀ x ∈ secs, x.WellFormed)
    (hval : secs.map (fun x => ops.ParseFloat x.v1) = vals.map some) :
    getOpsPerSecLegacy ops (renderLegacy secs) = some (vals.foldl ops.add ops.zero, none) := by
  unfold getOpsPerSecLegacy NewInfoParser
  have h := legacyLoop_sections ops secs vals hwf hval ((renderLegacy secs).length + 1)
    (by have := renderLegacy_length secs; omega) [] ops.zero
  rw [List.append_nil] at h
  obtain ⟨k, hk⟩ : ∃ k, (renderLegacy secs).length + 1 - secs.length = k + 1 :=
    ⟨(renderLegacy secs).length - secs.length, by have := renderLegacy_length secs; omega⟩
  rw [h, hk, legacyLoop_nil]
  rfl

theorem newRender_append (x : NewSection) (rest : GoString) :
    x.render ++ rest = '{' :: (x.ns ++ '}' :: '-' :: (x.op ++ ':' :: (x.unit ++ ',' ::
      (Join (x.v1 :: x.vs) [','] ++ ';' :: rest)))) := by
  simp [NewSection.render]

theorem newLoop_section {F : Type} (ops : Float64Ops F) (x : NewSection) (val : F)
    (hwf : x.WellFormed) (hval : ops.ParseFloat x.v1 = some val)
    (fuel : Nat) (rest : GoString) (acc : F) :
    newLoop ops (fuel + 1) ⟨x.render ++ rest⟩ acc = newLoop ops fuel ⟨rest⟩ (ops.add acc val) := by
  obtain ⟨h1, h2, h3, h4, h7, h8⟩ := hwf
  obtain ⟨tl, htl⟩ := Split_Join_head ',' x.v1 x.vs h7
  have hj : ';' ∉ Join (x.v1 :: x.vs) [','] := not_mem_Join ';' ',' _ (by decide) h8
  obtain ⟨e, he⟩ := PeekAndExpect_field x.unit
    (Join (x.v1 :: x.vs) [','] ++ ';' :: rest) ',' h3 (by decide)
  rw [newRender_append, newLoop]
  simp only [Expect_char, ReadUntil_delim _ _ _ h1, ReadUntil_delim _ _ _ h2, he,
    ReadUntil_delim _ _ _ h4, ReadUntil_delim _ _ _ hj, htl, hval]
  simp

theorem newLoop_nil {F : Type} (ops : Float64Ops F) (fuel : Nat) (acc : F) :
    newLoop ops (fuel + 1) ⟨[]⟩ acc = some acc := by
  simp [newLoop, InfoParser.Expect, InfoParser.Read, InfoParser.ReadUntil, InfoParser.ReadBytes,
    List.span, List.span.loop]

theorem newLoop_sections {F : Type} (ops : Float64Ops F) (secs : List NewSection)
    (vals : List F) (hwf : ∀ x ∈ secs, x.WellFormed)
    (hval : secs.map (fun x => ops.ParseFloat x.v1) = vals.map some)
    (fuel : Nat) (hfuel : secs.length < fuel) (rest : GoString) (acc : F) :
    newLoop ops fuel ⟨renderNew secs ++ rest⟩ acc =
      newLoop ops (fuel - secs.length) ⟨rest⟩ (vals.foldl ops.add acc) := by
  induction secs generalizing vals fuel acc with
  | nil =>
    cases vals with
    | nil => simp [renderNew]
    | cons v vs => simp at hval
  | cons x secs ih =>
    cases vals with
    | nil => simp at hval
    | cons v vs =>
      simp only [List.map_cons, List.cons.injEq] at hval
      obtain ⟨fuel, rfl⟩ : ∃ f, fuel = f + 1 := ⟨fuel - 1, by simp at hfuel; omega⟩
      have e : renderNew (x :: secs) ++ rest = x.render ++ (renderNew secs ++ rest) := by
        simp [renderNew]
      rw [e, newLoop_section ops x v (hwf x (List.mem_cons_self _ _)) hval.1,
        ih vs (fun y hy => hwf y (List.mem_cons_of_mem _ hy)) hval.2 fuel
          (by simp at hfuel; omega)]
      simp

theorem renderNew_length (secs : List NewSection) :
    secs.length ≤ (renderNew secs).length := by
  induction secs with
  | nil => simp
  | cons x secs ih =>
    have : 0 < x.render.length := by simp [NewSection.render]
    simp only [renderNew, List.map_cons, List.flatten_cons, List.length_append,
      List.length_cons] at ih ⊢
    omega

/-! ## The parsers' contracts -/

/-- C1: `parseStats(text, sep)` contains key `k` exactly when some record of
`text` split on `sep` contains `=` with `k` the text before its first `=`
(records without `=`, empty ones included, add nothing), and the value stored
for `k` is the text after the first `=` of the last such record; on
`"a=1;b=2;c"` with separator `";"` the result is the map `a ↦ "1"`, `b ↦ "2"`. -/
theorem parseStats_contract (text sep k : GoString) :
    ((parseStats text sep).lookup k ≠ none ↔
        ∃ r ∈ Split text sep, '=' ∈ r ∧ recordKey r = k) ∧
    (parseStats text sep).lookup k =
        (recordsFor k (Split text sep)).getLast?.map recordValue ∧
    parseStats "a=1;b=2;c".toList ";".toList =
        [("b".toList, "2".toList), ("a".toList, "1".toList)] := by
  have hv : (parseStats text sep).lookup k =
      (recordsFor k (Split text sep)).getLast?.map recordValue := by
    unfold parseStats
    rw [parseStatsLoop_lookup]
    cases (recordsFor k (Split text sep)).getLast? <;> simp [GoMap.lookup]
  refine ⟨?_, hv, by decide⟩
  rw [hv]
  constructor
  · intro h
    cases hl : (recordsFor k (Split text sep)).getLast? with
    | none => simp [hl] at h
    | some r =>
      have hm : r ∈ recordsFor k (Split text sep) := List.mem_of_getLast?_eq_some hl
      unfold recordsFor at hm
      rw [List.mem_filter] at hm
      exact ⟨r, hm.1, by simpa using hm.2⟩
  · rintro ⟨r, hr, h1, h2⟩
    have hm : r ∈ recordsFor k (Split text sep) := by
      unfold recordsFor
      rw [List.mem_filter]
      exact ⟨hr, by simpa using ⟨h1, h2⟩⟩
    cases hl : (recordsFor k (Split text sep)).getLast? with
    | none =>
      rw [List.getLast?_eq_none_iff] at hl
      rw [hl] at hm
      simp at hm
    | some r => simp

/-- C3 (amended): for every new-format response that is a concatenation of
sections `{ns}-op:unit,v1,...,vk;` whose fields satisfy `WellFormed` and whose
first bucket values are accepted by `ParseFloat`, `getOpsPerSecNew` returns a
nil error and the sum, accumulated left to right from `0.0`, of the first
bucket value of every section. `strconv.ParseFloat` does not accept every
decimal number: one too large for a `float64` is a range error (`rangedOps`). -/
theorem getOpsPerSecNew_wellFormed {F : Type} (ops : Float64Ops F)
    (secs : List NewSection) (vals : List F)
    (hwf : ∀ x ∈ secs, x.WellFormed)
    (hval : secs.map (fun x => ops.ParseFloat x.v1) = vals.map some) :
    getOpsPerSecNew ops (renderNew secs) = some (vals.foldl ops.add ops.zero, none) := by
  unfold getOpsPerSecNew NewInfoParser
  have h := newLoop_sections ops secs vals hwf hval ((renderNew secs).length + 1)
    (by have := renderNew_length secs; omega) [] ops.zero
  rw [List.append_nil] at h
  obtain ⟨k, hk⟩ : ∃ k, (renderNew secs).length + 1 - secs.length = k + 1 :=
    ⟨(renderNew secs).length - secs.length, by have := renderNew_length secs; omega⟩
  rw [h, hk, newLoop_nil]
  rfl

/-- Witness of C2: the documented legacy response is well formed and gives
`0.0 + 29648.2`. -/
theorem getOpsPerSecLegacy_wellFormed_witness :
    renderLegacy [sampleLegacySection] =
        "\x7btest\x7d-read:10:17:37-GMT,ops/sec,>1ms,>8ms,>64ms;10:17:47,29648.2,3.44,0.08,0.00;".toList ∧
    (∀ x ∈ [sampleLegacySection], x.WellFormed) ∧
    [sampleLegacySection].map (fun x => decimalOps.ParseFloat x.v1) =
        [(148241 / 5 : ℚ)].map some ∧
    getOpsPerSecLegacy decimalOps (renderLegacy [sampleLegacySection]) =
        some ([(148241 / 5 : ℚ)].foldl decimalOps.add decimalOps.zero, none) :=
  have hv : [sampleLegacySection].map (fun x => decimalOps.ParseFloat x.v1) =
      [(148241 / 5 : ℚ)].map some := by
    simp [sampleLegacySection, decimalOps, SplitN2, digitsValue, List.span, List.span.loop]
    norm_num
  ⟨by decide, by decide, hv,
    getOpsPerSecLegacy_wellFormed decimalOps [sampleLegacySection] [148241 / 5] (by decide) hv⟩

/-- Witness of C3: the documented new-format response is well formed and gives
`0.0 + 4234.9`. -/
theorem getOpsPerSecNew_wellFormed_witness :
    renderNew [sampleNewSection] = "\x7btest\x7d-write:msec,4234.9,28.75,7.40;".toList ∧
    (∀ x ∈ [sampleNewSection], x.WellFormed) ∧
    [sampleNewSection].map (fun x => decimalOps.ParseFloat x.v1) =
        [(42349 / 10 : ℚ)].map some ∧
    getOpsPerSecNew decimalOps (renderNew [sampleNewSection]) =
        some ([(42349 / 10 : ℚ)].foldl decimalOps.add decimalOps.zero, none) :=
  have hv : [sampleNewSection].map (fun x => decimalOps.ParseFloat x.v1) =
      [(42349 / 10 : ℚ)].map some := by
    simp [sampleNewSection, decimalOps, SplitN2, digitsValue, List.span, List.span.loop]
    norm_num
  ⟨by decide, by decide, hv,
    getOpsPerSecNew_wellFormed decimalOps [sampleNewSection] [42349 / 10] (by decide) hv⟩

/-! ## The version gate -/

theorem splitScan_char_split (d : Char) (a b cur : GoString) :
    splitScan [d] (a ++ d :: b) 0 cur = splitScan [d] a 0 cur ++ splitScan [d] b 0 [] := by
  induction a generalizing cur with
  | nil => simp [splitScan_char_cons, splitScan]
  | cons x a ih =>
    rw [List.cons_append, splitScan_char_cons, splitScan_char_cons]
    by_cases h : x = d
    · simp [h, ih]
    · simp [h, ih]

theorem Split_char_append (d : Char) (a b : GoString) :
    Split (a ++ d :: b) [d] = Split a [d] ++ Split b [d] := by
  simp [Split, splitScan_char_split]

theorem versionSegments_eq (ps : List GoString)
    (hd : ∀ p ∈ ps, p ≠ [] ∧ p.all Char.isDigit = true)
    (hb : ∀ n ∈ ps.map decimalValue, n < 2 ^ 63) :
    versionSegments ps = some (ps.map decimalValue) := by
  induction ps with
  | nil => rfl
  | cons p ps ih =>
    have h1 := hd p (List.mem_cons_self _ _)
    have h2 : decimalValue p < 2 ^ 63 := hb _ (by simp)
    have h3 : versionSegment p = some (decimalValue p) := by
      unfold versionSegment
      rw [if_pos ⟨h1.1, h1.2, h2⟩]
    have h4 := ih (fun q hq => hd q (List.mem_cons_of_mem _ hq))
      (fun n hn => hb n (by simp at hn ⊢; exact Or.inr hn))
    simp [versionSegments, h3, h4]

theorem lexGe_replicate_left (o : List Nat) :
    lexGe (List.replicate o.length 0) o = o.all (fun x => x == 0) := by
  induction o with
  | nil => rfl
  | cons b o ih =>
    by_cases h : 0 < b
    · have : ¬ b = 0 := by omega
      simp [List.replicate_succ, lexGe, h, this]
    · have : b = 0 := by omega
      simp [List.replicate_succ, lexGe, this, ih]

theorem lexGe_replicate_right (s : List Nat) :
    lexGe s (List.replicate s.length 0) = true := by
  induction s with
  | nil => rfl
  | cons a s ih =>
    by_cases h : 0 < a <;> simp [List.replicate_succ, lexGe, h, ih]

theorem geComponentwise_nil_left (o : List Nat) :
    geComponentwise [] o = o.all (fun x => x == 0) := by
  simp [geComponentwise, padZeros, lexGe_replicate_left]

theorem geComponentwise_nil_right (s : List Nat) : geComponentwise s [] = true := by
  simp [geComponentwise, padZeros, lexGe_replicate_right]

theorem geComponentwise_cons (a b : Nat) (s o : List Nat) :
    geComponentwise (a :: s) (b :: o) =
      if a < b then false else if b < a then true else geComponentwise s o := by
  simp only [geComponentwise, padZeros, List.length_cons, Nat.add_max_add_right,
    List.cons_append, lexGe, Nat.add_sub_add_right]
  rfl

theorem geComponentwise_refl (s : List Nat) : geComponentwise s s = true := by
  induction s with
  | nil => rfl
  | cons a s ih => simp [geComponentwise_cons, ih]

theorem compareSegments_nonneg (s o : List Nat) :
    0 ≤ compareSegments s o ↔ geComponentwise s o = true := by
  induction s generalizing o with
  | nil =>
    cases o with
    | nil => simp [compareSegments, geComponentwise_nil_right]
    | cons b o =>
      rw [geComponentwise_nil_left]
      by_cases h : (b :: o).all (fun x => x == 0) = true
      · simp only [compareSegments, h, if_true]; simp
      · simp only [compareSegments, h, if_false]; simp
  | cons a s ih =>
    cases o with
    | nil =>
      rw [geComponentwise_nil_right]
      by_cases h : (a :: s).all (fun x => x == 0) = true
      · simp only [compareSegments, h, if_true]; simp
      · simp only [compareSegments, h, if_false]; simp
    | cons b o =>
      by_cases h1 : a = b
      · subst h1
        simp [compareSegments, geComponentwise_cons, ih]
      · by_cases h2 : a < b
        · simp [compareSegments, geComponentwise_cons, h1, h2]
        · have h3 : b < a := by omega
          simp [compareSegments, geComponentwise_cons, h1, h2, h3]

theorem GreaterThanOrEqual_eq (v o : Version) :
    v.GreaterThanOrEqual o = geComponentwise v.segments o.segments := by
  unfold Version.GreaterThanOrEqual Version.Compare
  by_cases h : v.segments = o.segments
  · simp [h, geComponentwise_refl]
  · simp only [h, if_false]
    by_cases h2 : geComponentwise v.segments o.segments = true
    · rw [h2]; simpa using (compareSegments_nonneg _ _).mpr h2
    · have := (compareSegments_nonneg v.segments o.segments).not.mpr h2
      simp only [Bool.not_eq_true] at h2
      rw [h2]
      simpa using this

theorem geComponentwise_replicate (k : Nat) (o : List Nat) :
    geComponentwise (List.replicate k 0) o = geComponentwise [] o := by
  induction k generalizing o with
  | zero => rfl
  | succ k ih =>
    cases o with
    | nil => simp [geComponentwise_nil_right]
    | cons b o =>
      rw [List.replicate_succ, geComponentwise_cons, ih, geComponentwise_nil_left,
        geComponentwise_nil_left]
      by_cases h : 0 < b
      · have : ¬ b = 0 := by omega
        simp [h, this]
      · have : b = 0 := by omega
        simp [this]

theorem geComponentwise_pad (s : List Nat) (k : Nat) (o : List Nat) :
    geComponentwise (s ++ List.replicate k 0) o = geComponentwise s o := by
  induction s generalizing o with
  | nil => simpa using geComponentwise_replicate k o
  | cons a s ih =>
    cases o with
    | nil => simp [geComponentwise_nil_right]
    | cons b o => simp [geComponentwise_cons, ih]

theorem getLatencyCommand_eq (v : GoString) (hd : IsDottedDecimal v)
    (hb : ∀ n ∈ versionComponents v, n < 2 ^ 63) :
    getLatencyCommand v =
      some (if geComponentwise (versionComponents v) [5, 1, 0, 0] = true
        then "latencies:".toList else "latency:".toList) := by
  have href : NewVersion "5.1.0.0".toList = some ⟨[5, 1, 0, 0]⟩ := by decide
  have hv : NewVersion v = some ⟨versionComponents v ++
      List.replicate (3 - (versionComponents v).length) 0⟩ := by
    unfold NewVersion
    rw [versionSegments_eq _ hd hb]
    rfl
  unfold getLatencyCommand
  simp only [hv, href, GreaterThanOrEqual_eq, geComponentwise_pad]
  by_cases h : geComponentwise (versionComponents v) [5, 1, 0, 0] = true <;> simp [h]

theorem IsDottedDecimal_append_zero (v : GoString) (hd : IsDottedDecimal v) :
    IsDottedDecimal (v ++ ".0".toList) := by
  unfold IsDottedDecimal at hd ⊢
  have e : v ++ ".0".toList = v ++ '.' :: ['0'] := rfl
  rw [e, Split_char_append]
  intro p hp
  rcases List.mem_append.mp hp with h | h
  · exact hd p h
  · have : p = ['0'] := by simpa [Split, splitScan_char_cons, splitScan] using h
    subst this
    decide

theorem versionComponents_append_zero (v : GoString) :
    versionComponents (v ++ ".0".toList) = versionComponents v ++ List.replicate 1 0 := by
  unfold versionComponents
  have e : v ++ ".0".toList = v ++ '.' :: ['0'] := rfl
  rw [e, Split_char_append, List.map_append]
  congr 1

/-- C4 (amended): for every build version written as dot-separated decimal
integers, each at most `2^63 - 1`, `getLatencyCommand` succeeds and returns
`"latencies:"` exactly when the version, compared component-wise left to right
with missing trailing components taken as 0, is at least 5.1.0.0, and
`"latency:"` otherwise; the version with `".0"` appended selects the same
command; `"5.1.0.0"` and `"6.0"` give `"latencies:"`, `"5.0.9.1"` gives
`"latency:"`. -/
theorem getLatencyCommand_gate (v : GoString) (hd : IsDottedDecimal v)
    (hb : ∀ n ∈ versionComponents v, n < 2 ^ 63) :
    getLatencyCommand v =
      some (if geComponentwise (versionComponents v) [5, 1, 0, 0] = true
        then "latencies:".toList else "latency:".toList) ∧
    getLatencyCommand (v ++ ".0".toList) = getLatencyCommand v ∧
    getLatencyCommand "5.1.0.0".toList = some "latencies:".toList ∧
    getLatencyCommand "5.0.9.1".toList = some "latency:".toList ∧
    getLatencyCommand "6.0".toList = some "latencies:".toList := by
  refine ⟨getLatencyCommand_eq v hd hb, ?_, by decide, by decide, by decide⟩
  have hb2 : ∀ n ∈ versionComponents (v ++ ".0".toList), n < 2 ^ 63 := by
    intro n hn
    rw [versionComponents_append_zero] at hn
    rcases List.mem_append.mp hn with h | h
    · exact hb n h
    · have : n = 0 := by simpa using h
      omega
  rw [getLatencyCommand_eq _ (IsDottedDecimal_append_zero v hd) hb2, getLatencyCommand_eq v hd hb,
    versionComponents_append_zero, geComponentwise_pad]

/-- Witness of C4: the version `5.0.9.1` meets the hypotheses. -/
theorem getLatencyCommand_gate_witness :
    IsDottedDecimal "5.0.9.1".toList ∧
    (∀ n ∈ versionComponents "5.0.9.1".toList, n < 2 ^ 63) ∧
    getLatencyCommand "5.0.9.1".toList =
      some (if geComponentwise (versionComponents "5.0.9.1".toList) [5, 1, 0, 0] = true
        then "latencies:".toList else "latency:".toList) :=
  ⟨by decide, by decide, (getLatencyCommand_gate "5.0.9.1".toList (by decide) (by decide)).1⟩

/-- Counterexample to C4 as stated: `9223372036854775808` is a non-negative
decimal integer, yet `getLatencyCommand` fails on it. -/
theorem getLatencyCommand_overflow :
    IsDottedDecimal "9223372036854775808".toList ∧
    getLatencyCommand "9223372036854775808".toList = none := by
  decide

/-! ## Growth of the trace -/

variable {σ : Type}

theorem Grows.refl (P : Event → Prop) (t : List Event) : Grows P t t :=
  ⟨[], by simp, by simp⟩

theorem Grows.trans {P : Event → Prop} {t1 t2 t3 : List Event}
    (h1 : Grows P t1 t2) (h2 : Grows P t2 t3) : Grows P t1 t3 := by
  obtain ⟨n1, e1, p1⟩ := h1
  obtain ⟨n2, e2, p2⟩ := h2
  refine ⟨n1 ++ n2, by rw [e2, e1, List.append_assoc], ?_⟩
  intro e he
  rcases List.mem_append.mp he with h | h
  · exact p1 e h
  · exact p2 e h

theorem Grows.weaken {P Q : Event → Prop} {t1 t2 : List Event}
    (h : Grows P t1 t2) (hpq : ∀ e, P e → Q e) : Grows Q t1 t2 := by
  obtain ⟨n1, e1, p1⟩ := h
  exact ⟨n1, e1, fun e he => hpq e (p1 e he)⟩

theorem requestInfo_trace (c : Cluster σ) (ph : Phase) (s : Session σ) (n : Node)
    (cmd : GoString) :
    (requestInfo c ph s n cmd).2.trace =
      s.trace ++ [⟨ph, Call.info n cmd (requestInfo c ph s n cmd).1⟩] := rfl

theorem getNodes_trace (c : Cluster σ) (ph : Phase) (s : Session σ) :
    (getNodes c ph s).2.trace = s.trace ++ [⟨ph, Call.nodes (getNodes c ph s).1⟩] := rfl

theorem requestInfo_grows (P : Event → Prop) (c : Cluster σ) (ph : Phase) (s : Session σ)
    (n : Node) (cmd : GoString) (hP : ∀ r, P ⟨ph, Call.info n cmd r⟩) :
    Grows P s.trace (requestInfo c ph s n cmd).2.trace :=
  ⟨_, requestInfo_trace c ph s n cmd, by simpa using hP _⟩

theorem getNodes_grows (P : Event → Prop) (c : Cluster σ) (ph : Phase) (s : Session σ)
    (hP : ∀ l, P ⟨ph, Call.nodes l⟩) :
    Grows P s.trace (getNodes c ph s).2.trace :=
  ⟨_, getNodes_trace c ph s, by simpa using hP _⟩

theorem stablePass_grows (P : Event → Prop) (c : Cluster σ) (ph : Phase)
    (hP : ∀ n r, P ⟨ph, Call.info n stableCommand r⟩) (l : List Node) (s : Session σ) :
    Grows P s.trace (stablePass c ph l s).2.trace := by
  induction l generalizing s with
  | nil => exact Grows.refl _ _
  | cons n rest ih =>
    have h1 := requestInfo_grows P c ph s n stableCommand (hP n)
    unfold stablePass
    generalize requestInfo c ph s n stableCommand = res at h1
    obtain ⟨r, s1⟩ := res
    cases r with
    | none => exact h1
    | some out =>
      dsimp only
      split
      · exact h1
      · exact h1.trans (ih s1)

theorem stableLoop_grows (P : Event → Prop) (c : Cluster σ) (ph : Phase)
    (hP : ∀ n r, P ⟨ph, Call.info n stableCommand r⟩) (hN : ∀ l, P ⟨ph, Call.nodes l⟩)
    (fuel : Nat) (s : Session σ) :
    Grows P s.trace (stableLoop c ph fuel s).session.trace := by
  induction fuel generalizing s with
  | zero => exact Grows.refl _ _
  | succ fuel ih =>
    have h1 := getNodes_grows P c ph s hN
    unfold stableLoop
    generalize getNodes c ph s = res at h1
    obtain ⟨l, s1⟩ := res
    have h2 := stablePass_grows P c ph hP l s1
    dsimp only
    generalize stablePass c ph l s1 = res2 at h2
    obtain ⟨retry, s2⟩ := res2
    cases retry with
    | true => exact (h1.trans h2).trans (ih s2)
    | false => exact h1.trans h2

theorem ofPhases_info_namespaces (S : List Phase) (ph : Phase) (hph : ph ∈ S)
    (hk : ph = .WaitPendingQuiesce ∨ ph = .IdempotencyGuard ∨ ph = .VerifyEffectiveQuiesce ∨
      ph = .VerifyProxyDrain) (n : Node) (r : Option GoMap) :
    Event.OfPhases S ⟨ph, Call.info n namespacesCommand r⟩ := by
  refine ⟨hph, ?_⟩
  rcases hk with h | h | h | h <;> subst h <;> exact Or.inl rfl

theorem ofPhases_info_namespace (S : List Phase) (ph : Phase) (hph : ph ∈ S)
    (hk : ph = .WaitPendingQuiesce ∨ ph = .IdempotencyGuard ∨ ph = .VerifyEffectiveQuiesce ∨
      ph = .VerifyProxyDrain) (n : Node) (ns : GoString) (r : Option GoMap) :
    Event.OfPhases S ⟨ph, Call.info n (namespaceCommand ns) r⟩ := by
  refine ⟨hph, ?_⟩
  rcases hk with h | h | h | h <;> subst h <;> exact Or.inr ⟨ns, rfl⟩

theorem ofPhases_nodes (S : List Phase) (ph : Phase) (hph : ph ∈ S) (l : List Node) :
    Event.OfPhases S ⟨ph, Call.nodes l⟩ := ⟨hph, trivial⟩

theorem stableLoop_ofPhases (S : List Phase) (c : Cluster σ) (ph : Phase) (hph : ph ∈ S)
    (hk : ph = .WaitStable ∨ ph = .FinalStable) (fuel : Nat) (s : Session σ) :
    Grows (Event.OfPhases S) s.trace (stableLoop c ph fuel s).session.trace := by
  apply stableLoop_grows
  · intro n r
    refine ⟨hph, ?_⟩
    rcases hk with h | h <;> subst h <;> rfl
  · exact ofPhases_nodes S ph hph

theorem pendingQuiesceLoop_grows (S : List Phase) (hS : Phase.WaitPendingQuiesce ∈ S)
    (c : Cluster σ) (node : Node) (fuel : Nat) (s : Session σ) :
    Grows (Event.OfPhases S) s.trace (pendingQuiesceLoop c node fuel s).session.trace := by
  induction fuel generalizing s with
  | zero => exact Grows.refl _ _
  | succ fuel ih =>
    have h1 := requestInfo_grows (Event.OfPhases S) c .WaitPendingQuiesce s node namespacesCommand
      (ofPhases_info_namespaces S _ hS (Or.inl rfl) node)
    unfold pendingQuiesceLoop
    generalize requestInfo c .WaitPendingQuiesce s node namespacesCommand = res at h1
    obtain ⟨r, s1⟩ := res
    cases r with
    | none => exact h1.trans (ih s1)
    | some out =>
      dsimp only
      split
      · have h2 := requestInfo_grows (Event.OfPhases S) c .WaitPendingQuiesce s1 node
          (namespaceCommand (selectedNamespace out))
          (ofPhases_info_namespace S _ hS (Or.inl rfl) node _)
        generalize requestInfo c .WaitPendingQuiesce s1 node
          (namespaceCommand (selectedNamespace out)) = res2 at h2
        obtain ⟨r2, s2⟩ := res2
        cases r2 with
        | none => exact (h1.trans h2).trans (ih s2)
        | some stats =>
          dsimp only
          split
          · exact (h1.trans h2).trans (ih s2)
          · exact h1.trans h2
      · exact h1

theorem andThen_done_session {α β : Type} (o : Outcome σ α) (b : β) :
    (o.andThen (fun _ s2 => Outcome.done b s2)).session = o.session := by
  cases o <;> rfl

theorem quiescePass_grows (S : List Phase) (hS : Phase.WaitPendingQuiesce ∈ S)
    (hQ : Phase.QuiesceSelf ∈ S) (c : Cluster σ) (ip : GoString) (fuel : Nat)
    (l : List Node) (s : Session σ) :
    Grows (Event.OfPhases S) s.trace (quiescePass c ip fuel l s).session.trace := by
  induction l generalizing s with
  | nil => exact Grows.refl _ _
  | cons n rest ih =>
    unfold quiescePass
    split
    · have h1 := requestInfo_grows (Event.OfPhases S) c .QuiesceSelf s n quiesceCommand
        (fun r => ⟨hQ, rfl⟩)
      generalize requestInfo c .QuiesceSelf s n quiesceCommand = res at h1
      obtain ⟨r, s1⟩ := res
      cases r with
      | none => exact h1
      | some out =>
        dsimp only
        rw [andThen_done_session]
        exact h1.trans (pendingQuiesceLoop_grows S hS c n fuel s1)
    · exact ih s

theorem quiesceLoop_grows (S : List Phase) (hS : Phase.WaitPendingQuiesce ∈ S)
    (hQ : Phase.QuiesceSelf ∈ S) (c : Cluster σ) (ip : GoString) (fuel n : Nat)
    (s : Session σ) :
    Grows (Event.OfPhases S) s.trace (quiesceLoop c ip fuel n s).session.trace := by
  induction n generalizing s with
  | zero => exact Grows.refl _ _
  | succ n ih =>
    have h1 := getNodes_grows (Event.OfPhases S) c .QuiesceSelf s (ofPhases_nodes S _ hQ)
    unfold quiesceLoop
    generalize getNodes c .QuiesceSelf s = res at h1
    obtain ⟨l, s1⟩ := res
    have h2 := quiescePass_grows S hS hQ c ip fuel l s1
    dsimp only
    generalize quiescePass c ip fuel l s1 = res2 at h2
    cases res2 with
    | blocked s2 => exact h1.trans h2
    | done retry s2 =>
      cases retry with
      | true => exact (h1.trans h2).trans (ih s2)
      | false => exact h1.trans h2

theorem reclusterPass_grows (S : List Phase) (hS : Phase.Recluster ∈ S)
    (c : Cluster σ) (l : List Node) (s : Session σ) :
    Grows (Event.OfPhases S) s.trace (reclusterPass c l s).2.trace := by
  induction l generalizing s with
  | nil => exact Grows.refl _ _
  | cons n rest ih =>
    have h1 := requestInfo_grows (Event.OfPhases S) c .Recluster s n reclusterCommand
      (fun r => ⟨hS, rfl⟩)
    unfold reclusterPass
    generalize requestInfo c .Recluster s n reclusterCommand = res at h1
    obtain ⟨r, s1⟩ := res
    cases r with
    | none => exact h1
    | some out => exact h1.trans (ih s1)

theorem reclusterLoop_grows (S : List Phase) (hS : Phase.Recluster ∈ S)
    (c : Cluster σ) (fuel : Nat) (s : Session σ) :
    Grows (Event.OfPhases S) s.trace (reclusterLoop c fuel s).session.trace := by
  induction fuel generalizing s with
  | zero => exact Grows.refl _ _
  | succ fuel ih =>
    have h1 := getNodes_grows (Event.OfPhases S) c .Recluster s (ofPhases_nodes S _ hS)
    unfold reclusterLoop
    generalize getNodes c .Recluster s = res at h1
    obtain ⟨l, s1⟩ := res
    have h2 := reclusterPass_grows S hS c l s1
    dsimp only
    generalize reclusterPass c l s1 = res2 at h2
    obtain ⟨retry, s2⟩ := res2
    cases retry with
    | true => exact (h1.trans h2).trans (ih s2)
    | false => exact h1.trans h2

theorem guardPass_grows (S : List Phase) (hS : Phase.IdempotencyGuard ∈ S)
    (c : Cluster σ) (l : List Node) (s : Session σ) :
    Grows (Event.OfPhases S) s.trace (guardPass c l s).2.trace := by
  induction l generalizing s with
  | nil => exact Grows.refl _ _
  | cons n rest ih =>
    have h1 := requestInfo_grows (Event.OfPhases S) c .IdempotencyGuard s n namespacesCommand
      (ofPhases_info_namespaces S _ hS (Or.inr (Or.inl rfl)) n)
    unfold guardPass
    generalize requestInfo c .IdempotencyGuard s n namespacesCommand = res at h1
    obtain ⟨r, s1⟩ := res
    cases r with
    | none => exact h1
    | some out =>
      dsimp only
      split
      · have h2 := requestInfo_grows (Event.OfPhases S) c .IdempotencyGuard s1 n
          (namespaceCommand (selectedNamespace out))
          (ofPhases_info_namespace S _ hS (Or.inr (Or.inl rfl)) n _)
        generalize requestInfo c .IdempotencyGuard s1 n
          (namespaceCommand (selectedNamespace out)) = res2 at h2
        obtain ⟨r2, s2⟩ := res2
        cases r2 with
        | none => exact h1.trans h2
        | some stats =>
          dsimp only
          split
          · exact h1.trans h2
          · exact (h1.trans h2).trans (ih s2)
      · exact h1.trans (ih s1)

theorem guardLoop_grows (S : List Phase) (hS : Phase.IdempotencyGuard ∈ S)
    (hF : Phase.FinalStable ∈ S) (c : Cluster σ) (fuel n : Nat) (s : Session σ) :
    Grows (Event.OfPhases S) s.trace (guardLoop c fuel n s).session.trace := by
  induction n generalizing s with
  | zero => exact Grows.refl _ _
  | succ n ih =>
    have h1 := getNodes_grows (Event.OfPhases S) c .IdempotencyGuard s (ofPhases_nodes S _ hS)
    unfold guardLoop
    generalize getNodes c .IdempotencyGuard s = res at h1
    obtain ⟨l, s1⟩ := res
    have h2 := guardPass_grows S hS c l s1
    dsimp only
    generalize guardPass c l s1 = res2 at h2
    obtain ⟨⟨retry, allTrue⟩, s2⟩ := res2
    cases retry with
    | true => exact (h1.trans h2).trans (ih s2)
    | false =>
      cases allTrue with
      | true =>
        dsimp only
        rw [andThen_done_session]
        exact (h1.trans h2).trans (stableLoop_ofPhases S c _ hF (Or.inr rfl) fuel s2)
      | false => exact h1.trans h2

theorem effectiveQuiescePass_grows (S : List Phase) (hS : Phase.VerifyEffectiveQuiesce ∈ S)
    (c : Cluster σ) (ip : GoString) (l : List Node) (s : Session σ) :
    Grows (Event.OfPhases S) s.trace (effectiveQuiescePass c ip l s).2.trace := by
  induction l generalizing s with
  | nil => exact Grows.refl _ _
  | cons n rest ih =>
    unfold effectiveQuiescePass
    split
    · have h1 := requestInfo_grows (Event.OfPhases S) c .VerifyEffectiveQuiesce s n
        namespacesCommand (ofPhases_info_namespaces S _ hS (Or.inr (Or.inr (Or.inl rfl))) n)
      generalize requestInfo c .VerifyEffectiveQuiesce s n namespacesCommand = res at h1
      obtain ⟨r, s1⟩ := res
      cases r with
      | none => exact h1
      | some out =>
        dsimp only
        split
        · have h2 := requestInfo_grows (Event.OfPhases S) c .VerifyEffectiveQuiesce s1 n
            (namespaceCommand (selectedNamespace out))
            (ofPhases_info_namespace S _ hS (Or.inr (Or.inr (Or.inl rfl))) n _)
          generalize requestInfo c .VerifyEffectiveQuiesce s1 n
            (namespaceCommand (selectedNamespace out)) = res2 at h2
          obtain ⟨r2, s2⟩ := res2
          cases r2 with
          | none => exact h1.trans h2
          | some stats =>
            dsimp only
            split
            · exact h1.trans h2
            · exact h1.trans h2
        · exact h1.trans (ih s1)
    · exact ih s

theorem effectiveQuiesceLoop_grows (S : List Phase) (hS : Phase.VerifyEffectiveQuiesce ∈ S)
    (c : Cluster σ) (ip : GoString) (fuel : Nat) (s : Session σ) :
    Grows (Event.OfPhases S) s.trace (effectiveQuiesceLoop c ip fuel s).session.trace := by
  induction fuel generalizing s with
  | zero => exact Grows.refl _ _
  | succ fuel ih =>
    have h1 := getNodes_grows (Event.OfPhases S) c .VerifyEffectiveQuiesce s
      (ofPhases_nodes S _ hS)
    unfold effectiveQuiesceLoop
    generalize getNodes c .VerifyEffectiveQuiesce s = res at h1
    obtain ⟨l, s1⟩ := res
    have h2 := effectiveQuiescePass_grows S hS c ip l s1
    dsimp only
    generalize effectiveQuiescePass c ip l s1 = res2 at h2
    obtain ⟨retry, s2⟩ := res2
    cases retry with
    | true => exact (h1.trans h2).trans (ih s2)
    | false => exact h1.trans h2

theorem getLatencyCommand_cases (v cmd : GoString) (h : getLatencyCommand v = some cmd) :
    cmd = "latencies:".toList ∨ cmd = "latency:".toList := by
  unfold getLatencyCommand at h
  dsimp only at h
  split at h
  · cases h
  · split at h
    · cases h
    · split at h
      · exact Or.inl (Option.some.inj h).symm
      · exact Or.inr (Option.some.inj h).symm

theorem throughputPass_grows {F : Type} (S : List Phase) (hS : Phase.VerifyZeroThroughput ∈ S)
    (cfg : Setup σ F) (l : List Node) (s : Session σ) :
    Grows (Event.OfPhases S) s.trace (throughputPass cfg l s).session.trace := by
  induction l generalizing s with
  | nil => exact Grows.refl _ _
  | cons n rest ih =>
    unfold throughputPass
    split
    · have h1 := requestInfo_grows (Event.OfPhases S) cfg.cluster .VerifyZeroThroughput s n
        buildCommand (fun r => ⟨hS, Or.inl rfl⟩)
      generalize requestInfo cfg.cluster .VerifyZeroThroughput s n buildCommand = res at h1
      obtain ⟨r, s1⟩ := res
      cases r with
      | none => exact h1
      | some out =>
        dsimp only
        cases hl : getLatencyCommand (out.index buildCommand) with
        | none => exact h1
        | some cmd =>
          dsimp only
          have h2 := requestInfo_grows (Event.OfPhases S) cfg.cluster .VerifyZeroThroughput s1 n
            cmd (fun r => ⟨hS, Or.inr (getLatencyCommand_cases _ _ hl)⟩)
          generalize requestInfo cfg.cluster .VerifyZeroThroughput s1 n cmd = res2 at h2
          obtain ⟨r2, s2⟩ := res2
          cases r2 with
          | none => exact h1.trans h2
          | some stats =>
            dsimp only
            split
            · exact h1.trans h2
            · exact h1.trans h2
            · split
              · exact h1.trans h2
              · exact h1.trans h2
    · exact ih s

theorem throughputLoop_grows {F : Type} (S : List Phase) (hS : Phase.VerifyZeroThroughput ∈ S)
    (cfg : Setup σ F) (fuel : Nat) (s : Session σ) :
    Grows (Event.OfPhases S) s.trace (throughputLoop cfg fuel s).session.trace := by
  induction fuel generalizing s with
  | zero => exact Grows.refl _ _
  | succ fuel ih =>
    have h1 := getNodes_grows (Event.OfPhases S) cfg.cluster .VerifyZeroThroughput s
      (ofPhases_nodes S _ hS)
    unfold throughputLoop
    generalize getNodes cfg.cluster .VerifyZeroThroughput s = res at h1
    obtain ⟨l, s1⟩ := res
    have h2 := throughputPass_grows S hS cfg l s1
    dsimp only
    generalize throughputPass cfg l s1 = res2 at h2
    cases res2 with
    | blocked s2 => exact h1.trans h2
    | done retry s2 =>
      cases retry with
      | true => exact (h1.trans h2).trans (ih s2)
      | false => exact h1.trans h2

theorem proxyTally_grows (S : List Phase) (hS : Phase.VerifyProxyDrain ∈ S)
    (c : Cluster σ) (node : Node) (l : List GoString) (total : Int) (s : Session σ) :
    Grows (Event.OfPhases S) s.trace (proxyTally c node l total s).2.trace := by
  induction l generalizing s total with
  | nil => exact Grows.refl _ _
  | cons ns rest ih =>
    have h1 := requestInfo_grows (Event.OfPhases S) c .VerifyProxyDrain s node
      (namespaceCommand ns)
      (ofPhases_info_namespace S _ hS (Or.inr (Or.inr (Or.inr rfl))) node ns)
    unfold proxyTally
    generalize requestInfo c .VerifyProxyDrain s node (namespaceCommand ns) = res at h1
    obtain ⟨r, s1⟩ := res
    cases r with
    | none => exact h1
    | some stats => exact h1.trans (ih _ s1)

theorem proxyPass_grows (S : List Phase) (hS : Phase.VerifyProxyDrain ∈ S)
    (c : Cluster σ) (ip : GoString) (tp : Int) (l : List Node) (s : Session σ) :
    Grows (Event.OfPhases S) s.trace (proxyPass c ip tp l s).2.trace := by
  induction l generalizing s with
  | nil => exact Grows.refl _ _
  | cons n rest ih =>
    unfold proxyPass
    split
    · have h1 := requestInfo_grows (Event.OfPhases S) c .VerifyProxyDrain s n
        namespacesCommand (ofPhases_info_namespaces S _ hS (Or.inr (Or.inr (Or.inr rfl))) n)
      generalize requestInfo c .VerifyProxyDrain s n namespacesCommand = res at h1
      obtain ⟨r, s1⟩ := res
      cases r with
      | none => exact h1
      | some out =>
        dsimp only
        split
        · have h2 := proxyTally_grows S hS c n (Split (out.index namespacesCommand) [';']) 0 s1
          generalize proxyTally c n (Split (out.index namespacesCommand) [';']) 0 s1 = res2 at h2
          obtain ⟨⟨retry, total⟩, s2⟩ := res2
          dsimp only
          split
          · exact h1.trans h2
          · exact h1.trans h2
        · exact h1
    · exact ih s

theorem proxyLoop_grows (S : List Phase) (hS : Phase.VerifyProxyDrain ∈ S)
    (c : Cluster σ) (ip : GoString) (fuel : Nat) (tp : Int) (s : Session σ) :
    Grows (Event.OfPhases S) s.trace (proxyLoop c ip fuel tp s).session.trace := by
  induction fuel generalizing s tp with
  | zero => exact Grows.refl _ _
  | succ fuel ih =>
    have h1 := getNodes_grows (Event.OfPhases S) c .VerifyProxyDrain s (ofPhases_nodes S _ hS)
    unfold proxyLoop
    generalize getNodes c .VerifyProxyDrain s = res at h1
    obtain ⟨l, s1⟩ := res
    have h2 := proxyPass_grows S hS c ip tp l s1
    dsimp only
    generalize proxyPass c ip tp l s1 = res2 at h2
    obtain ⟨⟨retry, total⟩, s2⟩ := res2
    cases retry with
    | true => exact (h1.trans h2).trans (ih _ s2)
    | false => exact h1.trans h2

/-! ## Events that come before others -/


theorem append_split_of_le {α : Type} (t new pre post : List α) (e : α)
    (h : t ++ new = pre ++ e :: post) (hl : t.length ≤ pre.length) :
    ∃ mid, pre = t ++ mid ∧ new = mid ++ e :: post := by
  rcases List.append_eq_append_iff.mp h with ⟨a, ha, hb⟩ | ⟨c, hc, hd⟩
  · exact ⟨a, ha, hb⟩
  · have hc2 := congrArg List.length hc
    rw [List.length_append] at hc2
    have : c = [] := by
      cases c with
      | nil => rfl
      | cons x c => simp at hc2; omega
    subst this
    refine ⟨[], by simpa using hc.symm, by simpa using hd.symm⟩

theorem append_split_of_lt {α : Type} (t more pre post : List α) (e : α)
    (h : t ++ more = pre ++ e :: post) (hl : pre.length < t.length) :
    ∃ post2, t = pre ++ e :: post2 := by
  rcases List.append_eq_append_iff.mp h with ⟨a, ha, hb⟩ | ⟨c, hc, hd⟩
  · have := congrArg List.length ha
    rw [List.length_append] at this
    omega
  · cases c with
    | nil =>
      have := congrArg List.length hc
      simp at this
      omega
    | cons x c =>
      simp only [List.cons_append, List.cons.injEq] at hd
      exact ⟨c, by rw [hc, hd.1]⟩

theorem andThen_grows {α β : Type} (P : Event → Prop) (t : List Event) (o : Outcome σ α)
    (f : α → Session σ → Outcome σ β)
    (h1 : Grows P t o.session.trace)
    (h2 : ∀ a s1, Grows P s1.trace (f a s1).session.trace) :
    Grows P t (o.andThen f).session.trace := by
  cases o with
  | blocked s1 => exact h1
  | done a s1 => exact h1.trans (h2 a s1)

/-- A loop that issues no `Q` event may be skipped. -/
theorem PrecededBy.skip {α β : Type} (Q : Event → Prop) (W : List Event → Prop)
    (s : Session σ) (o : Outcome σ α) (f : α → Session σ → Outcome σ β)
    (hA : Grows (fun e => ¬ Q e) s.trace o.session.trace)
    (hG : ∀ a s1, Grows (fun _ => True) s1.trace (f a s1).session.trace)
    (hB : ∀ a s1, PrecededBy Q W s1.trace.length (f a s1)) :
    PrecededBy Q W s.trace.length (o.andThen f) := by
  intro pre e post htr hlen hQ
  obtain ⟨new, hnew, hP⟩ := hA
  cases o with
  | blocked s1 =>
    change s1.trace = pre ++ e :: post at htr
    change s1.trace = s.trace ++ new at hnew
    rw [hnew] at htr
    obtain ⟨mid, _, h2⟩ := append_split_of_le _ _ _ _ _ htr hlen
    exact absurd hQ (hP e (by rw [h2]; simp))
  | done a s1 =>
    change (f a s1).session.trace = pre ++ e :: post at htr
    change s1.trace = s.trace ++ new at hnew
    by_cases hle : s1.trace.length ≤ pre.length
    · exact hB a s1 pre e post htr hle hQ
    · exfalso
      obtain ⟨more, hmore, _⟩ := hG a s1
      rw [hmore] at htr
      obtain ⟨post2, h3⟩ := append_split_of_lt _ _ _ _ _ htr (by omega)
      rw [hnew] at h3
      obtain ⟨mid, _, h2⟩ := append_split_of_le _ _ _ _ _ h3 hlen
      exact absurd hQ (hP e (by rw [h2]; simp))

/-- The loop whose completion establishes `W`. -/
theorem PrecededBy.trigger {α β : Type} (Q : Event → Prop) (W : List Event → Prop)
    (s : Session σ) (o : Outcome σ α) (f : α → Session σ → Outcome σ β)
    (hmono : ∀ t more, W t → W (t ++ more))
    (hA : Grows (fun e => ¬ Q e) s.trace o.session.trace)
    (hW : ∀ a s1, o = Outcome.done a s1 → W s1.trace)
    (hG : ∀ a s1, Grows (fun _ => True) s1.trace (f a s1).session.trace) :
    PrecededBy Q W s.trace.length (o.andThen f) := by
  intro pre e post htr hlen hQ
  obtain ⟨new, hnew, hP⟩ := hA
  cases o with
  | blocked s1 =>
    change s1.trace = pre ++ e :: post at htr
    change s1.trace = s.trace ++ new at hnew
    rw [hnew] at htr
    obtain ⟨mid, _, h2⟩ := append_split_of_le _ _ _ _ _ htr hlen
    exact absurd hQ (hP e (by rw [h2]; simp))
  | done a s1 =>
    change (f a s1).session.trace = pre ++ e :: post at htr
    change s1.trace = s.trace ++ new at hnew
    by_cases hle : s1.trace.length ≤ pre.length
    · obtain ⟨more, hmore, _⟩ := hG a s1
      rw [hmore] at htr
      obtain ⟨mid, h1, _⟩ := append_split_of_le _ _ _ _ _ htr hle
      rw [h1]
      exact hmono _ _ (hW a s1 rfl)
    · exfalso
      obtain ⟨more, hmore, _⟩ := hG a s1
      rw [hmore] at htr
      obtain ⟨post2, h3⟩ := append_split_of_lt _ _ _ _ _ htr (by omega)
      rw [hnew] at h3
      obtain ⟨mid, _, h2⟩ := append_split_of_le _ _ _ _ _ h3 hlen
      exact absurd hQ (hP e (by rw [h2]; simp))

/-! ## The drain: growth of the whole run, and the cluster-stable check -/


theorem grows_true {P : Event → Prop} {t t2 : List Event} (h : Grows P t t2) :
    Grows (fun _ => True) t t2 := h.weaken (fun _ _ => trivial)

theorem drainFromThroughput_grows {F : Type} (cfg : Setup σ F) (fuel : Nat) (s : Session σ) :
    Grows (fun _ => True) s.trace (drainFromThroughput cfg fuel s).session.trace :=
  andThen_grows _ _ _ _
    (grows_true (throughputLoop_grows [.VerifyZeroThroughput] (by simp) cfg fuel s))
    (fun _ s1 => grows_true (proxyLoop_grows [.VerifyProxyDrain] (by simp) _ _ fuel 0 s1))

theorem drainFromEffectiveQuiesce_grows {F : Type} (cfg : Setup σ F) (fuel : Nat)
    (s : Session σ) :
    Grows (fun _ => True) s.trace (drainFromEffectiveQuiesce cfg fuel s).session.trace :=
  andThen_grows _ _ _ _
    (grows_true (effectiveQuiesceLoop_grows [.VerifyEffectiveQuiesce] (by simp) _ _ fuel s))
    (fun _ s1 => drainFromThroughput_grows cfg fuel s1)

theorem drainFromGuard_grows {F : Type} (cfg : Setup σ F) (fuel : Nat) (s : Session σ) :
    Grows (fun _ => True) s.trace (drainFromGuard cfg fuel s).session.trace :=
  andThen_grows _ _ _ _
    (grows_true (guardLoop_grows [.IdempotencyGuard, .FinalStable] (by simp) (by simp) _
      fuel fuel s))
    (fun returned s1 => by
      cases returned with
      | true => exact Grows.refl _ _
      | false => exact drainFromEffectiveQuiesce_grows cfg fuel s1)

theorem drainFromRecluster_grows {F : Type} (cfg : Setup σ F) (fuel : Nat) (s : Session σ) :
    Grows (fun _ => True) s.trace (drainFromRecluster cfg fuel s).session.trace :=
  andThen_grows _ _ _ _
    (grows_true (reclusterLoop_grows [.Recluster] (by simp) _ fuel s))
    (fun _ s1 => drainFromGuard_grows cfg fuel s1)

theorem drainFromQuiesce_grows {F : Type} (cfg : Setup σ F) (fuel : Nat) (s : Session σ) :
    Grows (fun _ => True) s.trace (drainFromQuiesce cfg fuel s).session.trace :=
  andThen_grows _ _ _ _
    (grows_true (quiesceLoop_grows [.QuiesceSelf, .WaitPendingQuiesce] (by simp) (by simp)
      _ _ fuel fuel s))
    (fun _ s1 => drainFromRecluster_grows cfg fuel s1)

/-! ### WaitStable -/

theorem zipWith_stable_cons_inj (ph : Phase) (n : Node) (rest : List Node)
    (r : Option GoMap) (tl : List Event) (rs : List (Option GoMap))
    (h : (⟨ph, Call.info n stableCommand r⟩ : Event) :: tl =
      List.zipWith (fun n r => (⟨ph, Call.info n stableCommand r⟩ : Event)) (n :: rest) rs) :
    ∃ rs2, rs = r :: rs2 ∧
      tl = List.zipWith (fun n r => (⟨ph, Call.info n stableCommand r⟩ : Event)) rest rs2 := by
  cases rs with
  | nil => simp at h
  | cons r0 rs2 =>
    simp only [List.zipWith_cons_cons, List.cons.injEq, Event.mk.injEq, Call.info.injEq,
      true_and] at h
    exact ⟨rs2, by rw [h.1], h.2⟩

theorem stablePass_iff (c : Cluster σ) (ph : Phase) (l : List Node) (s : Session σ) :
    (stablePass c ph l s).1 = false ↔
      ∃ evs, (stablePass c ph l s).2.trace = s.trace ++ evs ∧ AnsweredStable ph l evs := by
  induction l generalizing s with
  | nil =>
    simp only [stablePass, true_iff]
    exact ⟨[], by simp, [], rfl, rfl, by simp⟩
  | cons n rest ih =>
    have h1 := requestInfo_trace c ph s n stableCommand
    have hg := stablePass_grows (fun _ => True) c ph (fun _ _ => trivial) rest
    unfold stablePass
    generalize requestInfo c ph s n stableCommand = res at h1
    obtain ⟨r, s1⟩ := res
    dsimp only at h1
    -- a pass that stops at this node
    have stop : ∀ (hr : stableAnswer r = false),
        ¬ ∃ evs, s1.trace = s.trace ++ evs ∧ AnsweredStable ph (n :: rest) evs := by
      rintro hr ⟨evs, he, rs, hlen, hz, hok⟩
      rw [h1] at he
      have he2 := List.append_cancel_left he
      rw [← he2] at hz
      obtain ⟨rs2, rfl, _⟩ := zipWith_stable_cons_inj ph n rest r [] rs hz
      have := hok r (List.mem_cons_self _ _)
      rw [hr] at this
      cases this
    cases r with
    | none =>
      simp only [Bool.true_eq_false, false_iff]
      exact stop rfl
    | some out =>
      dsimp only
      split
      · rename_i hu
        simp only [Bool.true_eq_false, false_iff]
        exact stop (by simp [stableAnswer, hu])
      · rename_i hu
        rw [ih s1]
        constructor
        · rintro ⟨evs, he, rs, hlen, hz, hok⟩
          refine ⟨⟨ph, Call.info n stableCommand (some out)⟩ :: evs, by rw [he, h1]; simp,
            some out :: rs, by simp [hlen], by simp [hz], ?_⟩
          intro r hr
          rcases List.mem_cons.mp hr with h | h
          · subst h; simp [stableAnswer, hu]
          · exact hok r h
        · rintro ⟨evs, he, rs, hlen, hz, hok⟩
          obtain ⟨new, hnew, _⟩ := hg s1
          rw [hnew, h1, List.append_assoc] at he
          have he2 := List.append_cancel_left he
          rw [← he2] at hz
          obtain ⟨rs2, rfl, hz2⟩ := zipWith_stable_cons_inj ph n rest _ new rs hz
          exact ⟨new, hnew, rs2, by simpa using hlen, hz2,
            fun r hr => hok r (List.mem_cons_of_mem _ hr)⟩



theorem namespaceCommand_ne (ns cmd : GoString) (h : cmd.head? ≠ some 'n') :
    namespaceCommand ns ≠ cmd := by
  intro e
  apply h
  rw [← e]
  rfl

theorem command_recluster_phase (e : Event) (ht : e.Tagged)
    (hc : e.command = some reclusterCommand) : e.phase = .Recluster := by
  obtain ⟨ph, call⟩ := e
  cases call with
  | nodes l => simp [Event.command] at hc
  | info n cmd r =>
    simp only [Event.command, Option.some.injEq] at hc
    subst hc
    cases ph <;> first
      | rfl
      | (exfalso; revert ht; simp only [Event.Tagged]; decide)
      | (exfalso
         rcases ht with h | ⟨ns, h⟩
         · revert h; decide
         · exact namespaceCommand_ne ns _ (by decide) h.symm)

theorem command_quiesce_phase (e : Event) (ht : e.Tagged)
    (hc : e.command = some quiesceCommand) : e.phase = .QuiesceSelf := by
  obtain ⟨ph, call⟩ := e
  cases call with
  | nodes l => simp [Event.command] at hc
  | info n cmd r =>
    simp only [Event.command, Option.some.injEq] at hc
    subst hc
    cases ph <;> first
      | rfl
      | (exfalso; revert ht; simp only [Event.Tagged]; decide)
      | (exfalso
         rcases ht with h | ⟨ns, h⟩
         · revert h; decide
         · exact namespaceCommand_ne ns _ (by decide) h.symm)

theorem command_throughput_phase (e : Event) (ht : e.Tagged)
    (hc : e.isThroughputRequest) : e.phase = .VerifyZeroThroughput := by
  obtain ⟨ph, call⟩ := e
  cases call with
  | nodes l =>
    rcases hc with h | h | h <;> simp [Event.command] at h
  | info n cmd r =>
    have hcmd : cmd = buildCommand ∨ cmd = "latencies:".toList ∨ cmd = "latency:".toList := by
      rcases hc with h | h | h
      · exact Or.inl (Option.some.inj h)
      · exact Or.inr (Or.inl (Option.some.inj h))
      · exact Or.inr (Or.inr (Option.some.inj h))
    cases ph <;> first
      | rfl
      | (exfalso
         have ht2 : cmd = stableCommand ∨ cmd = quiesceCommand ∨ cmd = reclusterCommand := by
           first
             | exact Or.inl ht
             | exact Or.inr (Or.inl ht)
             | exact Or.inr (Or.inr ht)
         rcases ht2 with h | h | h <;> subst h <;> revert hcmd <;> decide)
      | (exfalso
         rcases ht with h | ⟨ns, h⟩
         · subst h; revert hcmd; decide
         · subst h
           rcases hcmd with h | h | h <;>
             exact namespaceCommand_ne ns _ (by decide) h)

theorem sawStablePass_append (ph : Phase) (t more : List Event) (h : SawStablePass ph t) :
    SawStablePass ph (t ++ more) := by
  obtain ⟨before, listing, evs, after, he, ha⟩ := h
  exact ⟨before, listing, evs, after ++ more, by rw [he]; simp, ha⟩

theorem stableLoop_done (c : Cluster σ) (ph : Phase) (fuel : Nat) (s s1 : Session σ)
    (h : stableLoop c ph fuel s = Outcome.done () s1) : SawStablePass ph s1.trace := by
  induction fuel generalizing s with
  | zero => simp [stableLoop] at h
  | succ fuel ih =>
    have h1 := getNodes_trace c ph s
    unfold stableLoop at h
    generalize getNodes c ph s = res at h h1
    obtain ⟨l, s0⟩ := res
    have h2 := stablePass_iff c ph l s0
    dsimp only at h h1
    generalize stablePass c ph l s0 = res2 at h h2
    obtain ⟨retry, s2⟩ := res2
    cases retry with
    | true => exact ih s2 h
    | false =>
      dsimp only at h
      cases h
      obtain ⟨evs, he, ha⟩ := h2.mp rfl
      dsimp only at he
      exact ⟨s.trace, l, evs, [], by rw [he, h1]; simp, ha⟩

/-- C5: the WaitStable loop of `performPreStopOp` finishes in a pass exactly
when, in that pass, every node of the freshly fetched listing answers
`cluster-stable:ignore-migrations=no;` without a transport error and with a
value other than `ERROR::unstable-cluster`; otherwise the whole pass is
repeated over a re-fetched listing; and in every run no `quiesce:` command is
issued before such a pass has been made. -/
theorem waitStable_contract {F : Type} (cfg : Setup σ F) :
    (∀ listing s,
      (stablePass cfg.cluster .WaitStable listing s).1 = false ↔
        ∃ evs, (stablePass cfg.cluster .WaitStable listing s).2.trace = s.trace ++ evs ∧
          AnsweredStable .WaitStable listing evs) ∧
    (∀ fuel s,
      stableLoop cfg.cluster .WaitStable (fuel + 1) s =
        if (stablePass cfg.cluster .WaitStable (getNodes cfg.cluster .WaitStable s).1
            (getNodes cfg.cluster .WaitStable s).2).1 = true then
          stableLoop cfg.cluster .WaitStable fuel
            (stablePass cfg.cluster .WaitStable (getNodes cfg.cluster .WaitStable s).1
              (getNodes cfg.cluster .WaitStable s).2).2
        else
          Outcome.done ()
            (stablePass cfg.cluster .WaitStable (getNodes cfg.cluster .WaitStable s).1
              (getNodes cfg.cluster .WaitStable s).2).2) ∧
    (∀ fuel w,
      PrecededBy (fun e => e.command = some quiesceCommand) (SawStablePass .WaitStable) 0
        (performPreStopOp cfg fuel ⟨w, []⟩)) := by
  refine ⟨fun listing s => stablePass_iff _ _ listing s, ?_, ?_⟩
  · intro fuel s
    rw [stableLoop]
    rcases hg : getNodes cfg.cluster .WaitStable s with ⟨l, s1⟩
    dsimp only
    rcases hp : stablePass cfg.cluster .WaitStable l s1 with ⟨retry, s2⟩
    cases retry <;> simp
  · intro fuel w
    exact PrecededBy.trigger _ _ ⟨w, []⟩ _ _ (sawStablePass_append _)
      ((stableLoop_ofPhases [.WaitStable] _ _ (by simp) (Or.inl rfl) fuel _).weaken
        (fun e he hq => by
          have := command_quiesce_phase e he.2 hq
          have h2 := he.1
          rw [this] at h2
          simp at h2))
      (fun a s1 h => stableLoop_done _ _ _ _ _ h)
      (fun _ s1 => drainFromQuiesce_grows cfg fuel s1)

/-! ## Quiesce before recluster -/


theorem selfMetricIs_namespace (ip key value : GoString) (ph : Phase) (node : Node)
    (ns : GoString) (stats : GoMap) (hs : isSelf ip node = true)
    (hm : metricOf stats ns key = value) :
    Event.selfMetricIs ip key value ⟨ph, Call.info node (namespaceCommand ns) (some stats)⟩
      = true := by
  have h1 : (namespaceCommand ns).take 10 = "namespace/".toList := rfl
  have h2 : (namespaceCommand ns).drop 10 = ns := rfl
  simp only [Event.selfMetricIs, hs, h1, h2, hm, decide_True, Bool.and_self]

theorem selectedNamespace_nil (out : GoMap) (h : ¬ (selectedNamespace out).length > 0) :
    selectedNamespace out = [] := by
  cases hs : selectedNamespace out with
  | nil => rfl
  | cons x xs => rw [hs] at h; simp at h

theorem mem_of_grows {P : Event → Prop} {t t2 : List Event} (h : Grows P t t2) (e : Event)
    (he : e ∈ t) : e ∈ t2 := by
  obtain ⟨new, hn, _⟩ := h
  rw [hn]
  exact List.mem_append_left _ he

theorem pendingQuiesceLoop_done (c : Cluster σ) (ip : GoString) (node : Node)
    (hs : isSelf ip node = true) (fuel : Nat) (s s1 : Session σ)
    (h : pendingQuiesceLoop c node fuel s = Outcome.done () s1) :
    (∃ e ∈ s1.trace, e.selfMetricIs ip "pending_quiesce".toList "true".toList = true) ∨
    (∃ e ∈ s1.trace, e.selfNoNamespace ip .WaitPendingQuiesce = true) := by
  induction fuel generalizing s with
  | zero => simp [pendingQuiesceLoop] at h
  | succ fuel ih =>
    have h1 := requestInfo_trace c .WaitPendingQuiesce s node namespacesCommand
    unfold pendingQuiesceLoop at h
    generalize requestInfo c .WaitPendingQuiesce s node namespacesCommand = res at h h1
    obtain ⟨r, s0⟩ := res
    cases r with
    | none => exact ih s0 h
    | some out =>
      dsimp only at h h1
      split at h
      · have h2 := requestInfo_trace c .WaitPendingQuiesce s0 node
          (namespaceCommand (selectedNamespace out))
        generalize requestInfo c .WaitPendingQuiesce s0 node
          (namespaceCommand (selectedNamespace out)) = res2 at h h2
        obtain ⟨r2, s2⟩ := res2
        cases r2 with
        | none => exact ih s2 h
        | some stats =>
          dsimp only at h h2
          split at h
          · exact ih s2 h
          · rename_i hm
            cases h
            refine Or.inl ⟨_, ?_, selfMetricIs_namespace ip _ _ .WaitPendingQuiesce node
              (selectedNamespace out) stats hs (by simpa using hm)⟩
            rw [h2]
            simp
      · rename_i hn
        cases h
        refine Or.inr ⟨⟨.WaitPendingQuiesce, Call.info node namespacesCommand (some out)⟩, ?_, ?_⟩
        · rw [h1]; simp
        · simp [Event.selfNoNamespace, hs, selectedNamespace_nil out hn]

theorem quiescePass_done (c : Cluster σ) (ip : GoString) (fuel : Nat) (l : List Node)
    (s s1 : Session σ) (h : quiescePass c ip fuel l s = Outcome.done false s1) :
    (∃ e ∈ s1.trace, e.selfMetricIs ip "pending_quiesce".toList "true".toList = true) ∨
    (∃ e ∈ s1.trace, e.selfNoNamespace ip .WaitPendingQuiesce = true) ∨
    ∀ n ∈ l, isSelf ip n = false := by
  induction l generalizing s with
  | nil => exact Or.inr (Or.inr (by simp))
  | cons n rest ih =>
    unfold quiescePass at h
    split at h
    · rename_i hs
      generalize requestInfo c .QuiesceSelf s n quiesceCommand = res at h
      obtain ⟨r, s0⟩ := res
      cases r with
      | none => simp at h
      | some out =>
        dsimp only at h
        cases hp : pendingQuiesceLoop c n fuel s0 with
        | blocked s2 => rw [hp] at h; simp [Outcome.andThen] at h
        | done a s2 =>
          rw [hp] at h
          simp only [Outcome.andThen, Outcome.done.injEq, true_and] at h
          subst h
          rcases pendingQuiesceLoop_done c ip n hs fuel s0 s2 hp with h3 | h3
          · exact Or.inl h3
          · exact Or.inr (Or.inl h3)
    · rename_i hs
      rcases ih s h with h3 | h3 | h3
      · exact Or.inl h3
      · exact Or.inr (Or.inl h3)
      · refine Or.inr (Or.inr ?_)
        intro m hm
        rcases List.mem_cons.mp hm with e | e
        · subst e; simpa using hs
        · exact h3 m e

theorem quiesceLoop_done (c : Cluster σ) (ip : GoString) (fuel n : Nat) (s s1 : Session σ)
    (h : quiesceLoop c ip fuel n s = Outcome.done () s1) : QuiesceSettled ip s1.trace := by
  induction n generalizing s with
  | zero => simp [quiesceLoop] at h
  | succ n ih =>
    have h1 := getNodes_trace c .QuiesceSelf s
    unfold quiesceLoop at h
    generalize getNodes c .QuiesceSelf s = res at h h1
    obtain ⟨l, s0⟩ := res
    dsimp only at h h1
    have hg := quiescePass_grows [.QuiesceSelf, .WaitPendingQuiesce] (by simp) (by simp)
      c ip fuel l s0
    cases hp : quiescePass c ip fuel l s0 with
    | blocked s2 => rw [hp] at h; simp at h
    | done retry s2 =>
      rw [hp] at h hg
      cases retry with
      | true => exact ih s2 h
      | false =>
        simp only [Outcome.done.injEq, true_and] at h
        subst h
        rcases quiescePass_done c ip fuel l s0 s2 hp with h3 | h3 | h3
        · exact Or.inl h3
        · exact Or.inr (Or.inl h3)
        · refine Or.inr (Or.inr ⟨l, mem_of_grows hg _ ?_, h3⟩)
          rw [h1]
          simp

theorem quiesceSettled_append (ip : GoString) (t more : List Event) (h : QuiesceSettled ip t) :
    QuiesceSettled ip (t ++ more) := by
  rcases h with ⟨e, he, h⟩ | ⟨e, he, h⟩ | ⟨l, he, h⟩
  · exact Or.inl ⟨e, List.mem_append_left _ he, h⟩
  · exact Or.inr (Or.inl ⟨e, List.mem_append_left _ he, h⟩)
  · exact Or.inr (Or.inr ⟨l, List.mem_append_left _ he, h⟩)

theorem not_command_of_phases (S : List Phase) (Q : Event → Prop) (ph : Phase)
    (hph : ∀ e : Event, e.Tagged → Q e → e.phase = ph) (hS : ph ∉ S)
    (e : Event) (he : e.OfPhases S) : ¬ Q e := by
  intro hc
  have := hph e he.2 hc
  exact hS (this ▸ he.1)

/-- C6 (amended): in every run of `performPreStopOp`, no `recluster:` command
is issued before the quiesce step has seen one of: a `namespace/<name>`
response of a local node parsed with `pending_quiesce` equal to `"true"`; a
local node reporting no first namespace while `pending_quiesce` was awaited;
a listing of the quiesce loop that contains no local node. -/
theorem recluster_after_quiesce_settled {F : Type} (cfg : Setup σ F) (fuel : Nat) (w : σ) :
    PrecededBy (fun e => e.command = some reclusterCommand) (QuiesceSettled cfg.myPodIP) 0
      (performPreStopOp cfg fuel ⟨w, []⟩) := by
  refine PrecededBy.skip _ _ ⟨w, []⟩ _ _ ?_ ?_ ?_
  · exact (stableLoop_ofPhases [.WaitStable] _ _ (by simp) (Or.inl rfl) fuel _).weaken
      (not_command_of_phases _ _ _ command_recluster_phase (by simp))
  · exact fun _ s1 => drainFromQuiesce_grows cfg fuel s1
  · intro _ s1
    refine PrecededBy.trigger _ _ s1 _ _ (quiesceSettled_append _) ?_ ?_ ?_
    · exact (quiesceLoop_grows [.QuiesceSelf, .WaitPendingQuiesce] (by simp) (by simp)
        _ _ fuel fuel s1).weaken (not_command_of_phases _ _ _ command_recluster_phase (by simp))
    · exact fun a s2 h => quiesceLoop_done _ _ _ _ _ _ h
    · exact fun _ s2 => drainFromRecluster_grows cfg fuel s2

/-- Counterexample to C6 as stated: against a local node without namespaces
the drain runs to its end and sends `recluster:`, and no response of the run
shows `pending_quiesce` equal to `"true"` on the local node. -/
theorem recluster_without_pending_quiesce :
    (performPreStopOp noNamespaceCluster 1 ⟨(), []⟩).finished = true ∧
    (∃ e ∈ (performPreStopOp noNamespaceCluster 1 ⟨(), []⟩).session.trace,
      e.command = some reclusterCommand) ∧
    ∀ e ∈ (performPreStopOp noNamespaceCluster 1 ⟨(), []⟩).session.trace,
      e.selfMetricIs noNamespaceCluster.myPodIP "pending_quiesce".toList "true".toList
        = false := by
  decide

/-! ## Effective quiesce before the throughput check -/


theorem effectiveQuiescePass_done (c : Cluster σ) (ip : GoString) (l : List Node)
    (s s1 : Session σ) (h : effectiveQuiescePass c ip l s = (false, s1)) :
    (∃ e ∈ s1.trace, e.selfMetricIs ip "effective_is_quiesced".toList "true".toList = true) ∨
    ∀ n ∈ l, isSelf ip n = true →
      ∃ e ∈ s1.trace, e.noNamespaceFrom .VerifyEffectiveQuiesce n = true := by
  induction l generalizing s with
  | nil => exact Or.inr (by simp)
  | cons n rest ih =>
    unfold effectiveQuiescePass at h
    split at h
    · rename_i hs
      have h1 := requestInfo_trace c .VerifyEffectiveQuiesce s n namespacesCommand
      generalize requestInfo c .VerifyEffectiveQuiesce s n namespacesCommand = res at h h1
      obtain ⟨r, s0⟩ := res
      cases r with
      | none => simp at h
      | some out =>
        dsimp only at h h1
        split at h
        · have h2 := requestInfo_trace c .VerifyEffectiveQuiesce s0 n
            (namespaceCommand (selectedNamespace out))
          generalize requestInfo c .VerifyEffectiveQuiesce s0 n
            (namespaceCommand (selectedNamespace out)) = res2 at h h2
          obtain ⟨r2, s2⟩ := res2
          cases r2 with
          | none => simp at h
          | some stats =>
            dsimp only at h h2
            split at h
            · simp at h
            · rename_i hm
              simp only [Prod.mk.injEq, true_and] at h
              subst h
              refine Or.inl ⟨_, ?_, selfMetricIs_namespace ip _ _ .VerifyEffectiveQuiesce n
                (selectedNamespace out) stats hs (by simpa using hm)⟩
              rw [h2]
              simp
        · rename_i hn
          have hg := effectiveQuiescePass_grows [.VerifyEffectiveQuiesce] (by simp) c ip rest s0
          rw [h] at hg
          rcases ih s0 h with h3 | h3
          · exact Or.inl h3
          · refine Or.inr ?_
            intro m hm hself
            rcases List.mem_cons.mp hm with e | e
            · subst e
              refine ⟨⟨.VerifyEffectiveQuiesce, Call.info m namespacesCommand (some out)⟩,
                mem_of_grows hg _ (by rw [h1]; simp), ?_⟩
              simp [Event.noNamespaceFrom, selectedNamespace_nil out hn]
            · exact h3 m e hself
    · rename_i hs
      rcases ih s h with h3 | h3
      · exact Or.inl h3
      · refine Or.inr ?_
        intro m hm hself
        rcases List.mem_cons.mp hm with e | e
        · subst e; exact absurd hself hs
        · exact h3 m e hself

theorem effectiveQuiesceLoop_done (c : Cluster σ) (ip : GoString) (fuel : Nat)
    (s s1 : Session σ) (h : effectiveQuiesceLoop c ip fuel s = Outcome.done () s1) :
    EffectiveQuiesceSettled ip s1.trace := by
  induction fuel generalizing s with
  | zero => simp [effectiveQuiesceLoop] at h
  | succ fuel ih =>
    have h1 := getNodes_trace c .VerifyEffectiveQuiesce s
    unfold effectiveQuiesceLoop at h
    generalize getNodes c .VerifyEffectiveQuiesce s = res at h h1
    obtain ⟨l, s0⟩ := res
    dsimp only at h h1
    have hg := effectiveQuiescePass_grows [.VerifyEffectiveQuiesce] (by simp) c ip l s0
    rcases hp : effectiveQuiescePass c ip l s0 with ⟨retry, s2⟩
    rw [hp] at h hg
    cases retry with
    | true => exact ih s2 h
    | false =>
      simp only [Outcome.done.injEq, true_and] at h
      subst h
      rcases effectiveQuiescePass_done c ip l s0 s2 hp with h3 | h3
      · exact Or.inl h3
      · exact Or.inr ⟨l, mem_of_grows hg _ (by rw [h1]; simp), h3⟩

theorem effectiveQuiesceSettled_append (ip : GoString) (t more : List Event)
    (h : EffectiveQuiesceSettled ip t) : EffectiveQuiesceSettled ip (t ++ more) := by
  rcases h with ⟨e, he, h⟩ | ⟨l, he, h⟩
  · exact Or.inl ⟨e, List.mem_append_left _ he, h⟩
  · refine Or.inr ⟨l, List.mem_append_left _ he, fun n hn hs => ?_⟩
    obtain ⟨e, he2, h2⟩ := h n hn hs
    exact ⟨e, List.mem_append_left _ he2, h2⟩

theorem PrecededBy.done {α : Type} (Q : Event → Prop) (W : List Event → Prop) (a : α)
    (s : Session σ) : PrecededBy Q W s.trace.length (Outcome.done a s) := by
  intro pre e post htr hlen _
  have := congrArg List.length htr
  simp only [Outcome.session, List.length_append, List.length_cons] at this
  omega

theorem proxyPass_no_self (c : Cluster σ) (ip : GoString) (tp : Int) (l : List Node)
    (s : Session σ) (h : ∀ n ∈ l, isSelf ip n = false) :
    proxyPass c ip tp l s = ((false, tp), s) := by
  induction l with
  | nil => rfl
  | cons n rest ih =>
    have h1 : isSelf ip n = false := h n (List.mem_cons_self _ _)
    rw [proxyPass, h1]
    simpa using ih (fun m hm => h m (List.mem_cons_of_mem _ hm))

theorem proxyPass_skip (c : Cluster σ) (ip : GoString) (tp : Int) (before l : List Node)
    (s : Session σ) (h : ∀ n ∈ before, isSelf ip n = false) :
    proxyPass c ip tp (before ++ l) s = proxyPass c ip tp l s := by
  induction before with
  | nil => rfl
  | cons n rest ih =>
    have h1 : isSelf ip n = false := h n (List.mem_cons_self _ _)
    rw [List.cons_append, proxyPass, h1]
    simpa using ih (fun m hm => h m (List.mem_cons_of_mem _ hm))

theorem Split_length_pos (s : GoString) (d : Char) : (Split s [d]).length > 0 := by
  have : ∀ (s cur : GoString), (splitScan [d] s 0 cur).length > 0 := by
    intro s
    induction s with
    | nil => intro cur; simp [splitScan]
    | cons x r ih =>
      intro cur
      rw [splitScan_char_cons]
      split
      · simp
      · exact ih _
  simpa [Split] using this s []

/-- What a pass of the validation after recluster has seen, by its result. -/
theorem guardPass_spec (c : Cluster σ) (l : List Node) (s : Session σ) :
    ∃ new, (guardPass c l s).2.trace = s.trace ++ new ∧
      (((guardPass c l s).1.1 = true ∧ ∃ e ∈ new, e.failed = true) ∨
       ((guardPass c l s).1 = (false, true) ∧ (∀ e ∈ new, e.failed = false) ∧
          ∀ e ∈ new, e.metricIs "pending_quiesce".toList "false".toList = false) ∨
       ((guardPass c l s).1 = (false, false) ∧ (∀ e ∈ new, e.failed = false) ∧
          ∃ e ∈ new, e.metricIs "pending_quiesce".toList "false".toList = true)) := by
  induction l generalizing s with
  | nil => exact ⟨[], by simp [guardPass], Or.inr (Or.inl ⟨rfl, by simp, by simp⟩)⟩
  | cons n rest ih =>
    have h1 := requestInfo_trace c .IdempotencyGuard s n namespacesCommand
    unfold guardPass
    generalize requestInfo c .IdempotencyGuard s n namespacesCommand = res at h1
    obtain ⟨r, s0⟩ := res
    cases r with
    | none =>
      exact ⟨_, h1, Or.inl ⟨rfl, _, List.mem_singleton.mpr rfl, rfl⟩⟩
    | some out =>
      dsimp only at h1 ⊢
      have e1f : Event.failed ⟨.IdempotencyGuard, Call.info n namespacesCommand (some out)⟩
          = false := rfl
      have e1m : Event.metricIs "pending_quiesce".toList "false".toList
          ⟨.IdempotencyGuard, Call.info n namespacesCommand (some out)⟩ = false := by
        have a0 : decide (namespacesCommand.take 10 = "namespace/".toList) = false := by decide
        simp only [Event.metricIs, a0, Bool.false_and]
      split
      · have h2 := requestInfo_trace c .IdempotencyGuard s0 n
          (namespaceCommand (selectedNamespace out))
        generalize requestInfo c .IdempotencyGuard s0 n
          (namespaceCommand (selectedNamespace out)) = res2 at h2
        obtain ⟨r2, s2⟩ := res2
        cases r2 with
        | none =>
          refine ⟨_, by rw [h2, h1, List.append_assoc], Or.inl ⟨rfl,
            ⟨.IdempotencyGuard, Call.info n (namespaceCommand (selectedNamespace out)) none⟩,
            ?_, rfl⟩⟩
          simp
        | some stats =>
          dsimp only at h2 ⊢
          have e2f : Event.failed ⟨.IdempotencyGuard,
              Call.info n (namespaceCommand (selectedNamespace out)) (some stats)⟩ = false := rfl
          have e2m : Event.metricIs "pending_quiesce".toList "false".toList
              ⟨.IdempotencyGuard,
                Call.info n (namespaceCommand (selectedNamespace out)) (some stats)⟩ =
              decide (metricOf stats (selectedNamespace out) "pending_quiesce".toList
                = "false".toList) := by
            have a1 : (namespaceCommand (selectedNamespace out)).take 10 = "namespace/".toList :=
              rfl
            have a2 : (namespaceCommand (selectedNamespace out)).drop 10 = selectedNamespace out :=
              rfl
            simp only [Event.metricIs, a1, a2, decide_True, Bool.true_and]
          split
          · rename_i hm
            refine ⟨_, by rw [h2, h1, List.append_assoc], Or.inr (Or.inr ⟨rfl, ?_,
              ⟨.IdempotencyGuard,
                Call.info n (namespaceCommand (selectedNamespace out)) (some stats)⟩, ?_, ?_⟩)⟩
            · intro e he
              simp only [List.cons_append, List.nil_append, List.mem_cons, List.mem_singleton,
                List.not_mem_nil, or_false] at he
              rcases he with rfl | rfl
              · exact e1f
              · exact e2f
            · exact List.mem_append_right _ (List.mem_singleton.mpr rfl)
            · rw [e2m]; simpa using hm
          · rename_i hm
            obtain ⟨new, hn, hcase⟩ := ih s2
            refine ⟨⟨.IdempotencyGuard, Call.info n namespacesCommand (some out)⟩ ::
              ⟨.IdempotencyGuard,
                Call.info n (namespaceCommand (selectedNamespace out)) (some stats)⟩ :: new,
              by rw [hn, h2, h1]; simp, ?_⟩
            have hf : ∀ e ∈ (⟨.IdempotencyGuard, Call.info n namespacesCommand (some out)⟩
                  : Event) :: ⟨.IdempotencyGuard,
                    Call.info n (namespaceCommand (selectedNamespace out)) (some stats)⟩ :: new,
                (∀ x ∈ new, x.failed = false) → e.failed = false := by
              intro e he hx
              rcases List.mem_cons.mp he with rfl | he
              · exact e1f
              · rcases List.mem_cons.mp he with rfl | he
                · exact e2f
                · exact hx e he
            rcases hcase with ⟨a, e, he, b⟩ | ⟨a, b, d⟩ | ⟨a, b, e, he, d⟩
            · exact Or.inl ⟨a, e, by simp [he], b⟩
            · refine Or.inr (Or.inl ⟨a, fun e he => hf e he b, ?_⟩)
              intro e he
              rcases List.mem_cons.mp he with rfl | he
              · exact e1m
              · rcases List.mem_cons.mp he with rfl | he
                · rw [e2m]; simpa using hm
                · exact d e he
            · exact Or.inr (Or.inr ⟨a, fun e he => hf e he b, e, by simp [he], d⟩)
      · obtain ⟨new, hn, hcase⟩ := ih s0
        refine ⟨⟨.IdempotencyGuard, Call.info n namespacesCommand (some out)⟩ :: new,
          by rw [hn, h1]; simp, ?_⟩
        have hf : ∀ e ∈ (⟨.IdempotencyGuard, Call.info n namespacesCommand (some out)⟩
              : Event) :: new, (∀ x ∈ new, x.failed = false) → e.failed = false := by
          intro e he hx
          rcases List.mem_cons.mp he with rfl | he
          · exact e1f
          · exact hx e he
        rcases hcase with ⟨a, e, he, b⟩ | ⟨a, b, d⟩ | ⟨a, b, e, he, d⟩
        · exact Or.inl ⟨a, e, by simp [he], b⟩
        · refine Or.inr (Or.inl ⟨a, fun e he => hf e he b, ?_⟩)
          intro e he
          rcases List.mem_cons.mp he with rfl | he
          · exact e1m
          · exact d e he
        · exact Or.inr (Or.inr ⟨a, fun e he => hf e he b, e, by simp [he], d⟩)



theorem guardLooked_cons (ok : Option GoString → Prop) (n : Node) (rest : List Node)
    (a : GoMap × GoMap) (evs : List Event) (ha : ok (shownMetric "pending_quiesce".toList a))
    (h : GuardLooked ok rest evs) :
    GuardLooked ok (n :: rest) (metricLook .IdempotencyGuard n a ++ evs) := by
  obtain ⟨answers, h1, h2, h3⟩ := h
  refine ⟨a :: answers, by simp [h1], by simp [h2], ?_⟩
  intro b hb
  rcases List.mem_cons.1 hb with e | e
  · exact e ▸ ha
  · exact h3 b e

theorem guardSawFalse_cons (n : Node) (rest : List Node) (a : GoMap × GoMap)
    (evs : List Event) (ha : shownMetric "pending_quiesce".toList a ≠ some "false".toList)
    (h : GuardSawFalse rest evs) :
    GuardSawFalse (n :: rest) (metricLook .IdempotencyGuard n a ++ evs) := by
  obtain ⟨before, node, after, answer, seen, h1, h2, h3, h4⟩ := h
  exact ⟨n :: before, node, after, answer, metricLook .IdempotencyGuard n a ++ seen,
    by simp [h1], guardLooked_cons _ n before a seen ha h2, by simp [h3], h4⟩

/-- What a pass of the validation after recluster has done, by its result. -/
theorem guardPass_run (c : Cluster σ) (l : List Node) (s : Session σ) :
    ∃ new, (guardPass c l s).2.trace = s.trace ++ new ∧
      (((guardPass c l s).1 = (false, true) ∧
          GuardLooked (fun v => v ≠ some "false".toList) l new) ∨
       ((guardPass c l s).1 = (false, false) ∧ GuardSawFalse l new) ∨
       (guardPass c l s).1.1 = true) := by
  induction l generalizing s with
  | nil => exact ⟨[], by simp [guardPass], Or.inl ⟨rfl, [], rfl, rfl, by simp⟩⟩
  | cons n rest ih =>
    have h1 := requestInfo_trace c .IdempotencyGuard s n namespacesCommand
    unfold guardPass
    generalize requestInfo c .IdempotencyGuard s n namespacesCommand = res at h1
    obtain ⟨r, s0⟩ := res
    cases r with
    | none => exact ⟨_, h1, Or.inr (Or.inr rfl)⟩
    | some out =>
      dsimp only at h1 ⊢
      by_cases hns : (selectedNamespace out).length > 0
      · rw [if_pos hns]
        have h2 := requestInfo_trace c .IdempotencyGuard s0 n
          (namespaceCommand (selectedNamespace out))
        generalize requestInfo c .IdempotencyGuard s0 n
          (namespaceCommand (selectedNamespace out)) = res2 at h2
        obtain ⟨r2, s2⟩ := res2
        cases r2 with
        | none => exact ⟨_, by rw [h2, h1, List.append_assoc], Or.inr (Or.inr rfl)⟩
        | some stats =>
          dsimp only at h2 ⊢
          have hlook : metricLook .IdempotencyGuard n (out, stats) =
              [⟨.IdempotencyGuard, .info n namespacesCommand (some out)⟩,
               ⟨.IdempotencyGuard, .info n (namespaceCommand (selectedNamespace out))
                 (some stats)⟩] := by
            simp [metricLook, hns]
          have hshown : shownMetric "pending_quiesce".toList (out, stats) =
              some (metricOf stats (selectedNamespace out) "pending_quiesce".toList) := by
            simp [shownMetric, hns]
          by_cases hm : metricOf stats (selectedNamespace out) "pending_quiesce".toList
              = "false".toList
          · rw [if_pos hm]
            refine ⟨metricLook .IdempotencyGuard n (out, stats), ?_, Or.inr (Or.inl ⟨rfl, ?_⟩)⟩
            · rw [h2, h1, hlook]
              simp
            · exact ⟨[], n, rest, (out, stats), [], rfl, ⟨[], rfl, rfl, by simp⟩, rfl,
                by rw [hshown, hm]⟩
          · rw [if_neg hm]
            have hok : shownMetric "pending_quiesce".toList (out, stats)
                ≠ some "false".toList := by
              rw [hshown]
              simpa using hm
            obtain ⟨new, hn, hcase⟩ := ih s2
            refine ⟨metricLook .IdempotencyGuard n (out, stats) ++ new, ?_, ?_⟩
            · rw [hn, h2, h1, hlook]
              simp
            · rcases hcase with ⟨a, b⟩ | ⟨a, b⟩ | a
              · exact Or.inl ⟨a, guardLooked_cons _ n rest _ new hok b⟩
              · exact Or.inr (Or.inl ⟨a, guardSawFalse_cons n rest _ new hok b⟩)
              · exact Or.inr (Or.inr a)
      · rw [if_neg hns]
        have hlook : ∀ st, metricLook .IdempotencyGuard n (out, st) =
            [⟨.IdempotencyGuard, .info n namespacesCommand (some out)⟩] := by
          intro st
          simp [metricLook, hns]
        have hok : shownMetric "pending_quiesce".toList (out, [])
            ≠ some "false".toList := by
          simp [shownMetric, hns]
        obtain ⟨new, hn, hcase⟩ := ih s0
        refine ⟨metricLook .IdempotencyGuard n (out, []) ++ new, ?_, ?_⟩
        · rw [hn, h1, hlook]
          simp
        · rcases hcase with ⟨a, b⟩ | ⟨a, b⟩ | a
          · exact Or.inl ⟨a, guardLooked_cons _ n rest _ new hok b⟩
          · exact Or.inr (Or.inl ⟨a, guardSawFalse_cons n rest _ new hok b⟩)
          · exact Or.inr (Or.inr a)

theorem metricLook_events (ph : Phase) (n : Node) (a : GoMap × GoMap) (e : Event)
    (he : e ∈ metricLook ph n a) :
    e.failed = false ∧
    (e.metricIs "pending_quiesce".toList "false".toList = true →
      shownMetric "pending_quiesce".toList a = some "false".toList) ∧
    e.command ≠ some quiesceCommand ∧ e.command ≠ some reclusterCommand := by
  have a0 : decide (namespacesCommand.take 10 = "namespace/".toList) = false := by decide
  have c1 : namespacesCommand ≠ quiesceCommand := by decide
  have c2 : namespacesCommand ≠ reclusterCommand := by decide
  unfold metricLook at he
  by_cases hns : (selectedNamespace a.1).length > 0
  · rw [if_pos hns] at he
    simp only [List.mem_cons, List.mem_singleton, List.not_mem_nil, or_false] at he
    rcases he with rfl | rfl
    · refine ⟨rfl, ?_, by simpa [Event.command] using c1, by simpa [Event.command] using c2⟩
      simp only [Event.metricIs, a0, Bool.false_and]
      intro h
      cases h
    · have h1 : (namespaceCommand (selectedNamespace a.1)).take 10 = "namespace/".toList := rfl
      have h2 : (namespaceCommand (selectedNamespace a.1)).drop 10 = selectedNamespace a.1 := rfl
      refine ⟨rfl, ?_, ?_, ?_⟩
      · simp only [Event.metricIs, h1, h2, decide_True, Bool.true_and, decide_eq_true_eq]
        intro h
        rw [shownMetric, if_pos hns, h]
      · simp only [Event.command, ne_eq, Option.some.injEq]
        exact namespaceCommand_ne _ _ (by decide)
      · simp only [Event.command, ne_eq, Option.some.injEq]
        exact namespaceCommand_ne _ _ (by decide)
  · rw [if_neg hns] at he
    simp only [List.mem_singleton] at he
    subst he
    refine ⟨rfl, ?_, by simpa [Event.command] using c1, by simpa [Event.command] using c2⟩
    simp only [Event.metricIs, a0, Bool.false_and]
    intro h
    cases h

theorem mem_zipWith_flatten {α β : Type} (f : α → β → List Event) (l : List α)
    (bs : List β) (e : Event) (he : e ∈ (List.zipWith f l bs).flatten) :
    ∃ n ∈ l, ∃ b ∈ bs, e ∈ f n b := by
  induction l generalizing bs with
  | nil => simp at he
  | cons n rest ih =>
    cases bs with
    | nil => simp at he
    | cons b bs =>
      simp only [List.zipWith_cons_cons, List.flatten_cons, List.mem_append] at he
      rcases he with h | h
      · exact ⟨n, List.mem_cons_self _ _, b, List.mem_cons_self _ _, h⟩
      · obtain ⟨m, hm, b2, hb2, h2⟩ := ih bs h
        exact ⟨m, List.mem_cons_of_mem _ hm, b2, List.mem_cons_of_mem _ hb2, h2⟩

theorem guardLooked_events (ok : Option GoString → Prop) (l : List Node) (evs : List Event)
    (h : GuardLooked ok l evs) (e : Event) (he : e ∈ evs) :
    ∃ n ∈ l, ∃ a, ok (shownMetric "pending_quiesce".toList a) ∧
      e ∈ metricLook .IdempotencyGuard n a := by
  obtain ⟨answers, _, h2, h3⟩ := h
  rw [h2] at he
  obtain ⟨n, hn, a, ha, hea⟩ := mem_zipWith_flatten _ l answers e he
  exact ⟨n, hn, a, h3 a ha, hea⟩

theorem guardLooked_clear (l : List Node) (evs : List Event)
    (h : GuardLooked (fun v => v ≠ some "false".toList) l evs) (e : Event) (he : e ∈ evs) :
    e.failed = false ∧ e.metricIs "pending_quiesce".toList "false".toList = false := by
  obtain ⟨n, _, a, hok, hea⟩ := guardLooked_events _ l evs h e he
  obtain ⟨h1, h2, _⟩ := metricLook_events _ n a e hea
  refine ⟨h1, ?_⟩
  cases hm : e.metricIs "pending_quiesce".toList "false".toList with
  | false => rfl
  | true => exact absurd (h2 hm) hok

theorem guardSawFalse_events (l : List Node) (evs : List Event) (h : GuardSawFalse l evs) :
    (∀ e ∈ evs, e.failed = false) ∧
    ∃ e ∈ evs, e.metricIs "pending_quiesce".toList "false".toList = true := by
  obtain ⟨before, node, after, answer, seen, _, h2, h3, h4⟩ := h
  have hns : (selectedNamespace answer.1).length > 0 := by
    by_contra hc
    simp [shownMetric, hc] at h4
  have hm : metricOf answer.2 (selectedNamespace answer.1) "pending_quiesce".toList
      = "false".toList := by
    simpa [shownMetric, hns] using h4
  constructor
  · intro e he
    rw [h3, List.mem_append] at he
    rcases he with h | h
    · exact (guardLooked_clear before seen h2 e h).1
    · exact (metricLook_events _ node answer e h).1
  · refine ⟨⟨.IdempotencyGuard, .info node (namespaceCommand (selectedNamespace answer.1))
      (some answer.2)⟩, ?_, ?_⟩
    · rw [h3]
      apply List.mem_append_right
      simp [metricLook, hns]
    · have h1 : (namespaceCommand (selectedNamespace answer.1)).take 10 = "namespace/".toList :=
        rfl
      have h2 : (namespaceCommand (selectedNamespace answer.1)).drop 10
          = selectedNamespace answer.1 := rfl
      simp only [Event.metricIs, h1, h2, hm, decide_True, Bool.and_self]

/-- C10 (amended): a pass of the validation after recluster asks the listed
nodes in listing order. It leaves the flags `retry = false`,
`pendingQuiesceTrueInAllNodes = true` exactly when its events are a look at
every listed node, in order, with every request answered and no look showing
`pending_quiesce` equal to `"false"` (a node without a first namespace is asked
for `namespaces` only); it leaves `retry = false` with the flag `false`
exactly when the looks stop at a node showing `"false"`, the nodes before it
showing none and the nodes after it not asked; and `retry = true` exactly when
a request failed. On the first outcome the loop runs the cluster-stable check
once more and the function returns, skipping the remaining checks; on the
second the drain goes on with the `effective_is_quiesced` check; on the third
the pass is repeated. -/
theorem idempotencyGuard_contract {F : Type} (cfg : Setup σ F) :
    (∀ l s, ∃ new, (guardPass cfg.cluster l s).2.trace = s.trace ++ new ∧
      ((guardPass cfg.cluster l s).1 = (false, true) ↔
        (∀ e ∈ new, e.failed = false) ∧
          ∀ e ∈ new, e.metricIs "pending_quiesce".toList "false".toList = false) ∧
      ((guardPass cfg.cluster l s).1 = (false, false) ↔
        (∀ e ∈ new, e.failed = false) ∧
          ∃ e ∈ new, e.metricIs "pending_quiesce".toList "false".toList = true) ∧
      ((guardPass cfg.cluster l s).1.1 = true ↔ ∃ e ∈ new, e.failed = true)) ∧
    (∀ l s,
      ((guardPass cfg.cluster l s).1 = (false, true) ↔
        ∃ evs, (guardPass cfg.cluster l s).2.trace = s.trace ++ evs ∧
          GuardLooked (fun v => v ≠ some "false".toList) l evs) ∧
      ((guardPass cfg.cluster l s).1 = (false, false) ↔
        ∃ evs, (guardPass cfg.cluster l s).2.trace = s.trace ++ evs ∧
          GuardSawFalse l evs)) ∧
    (∀ fuel n s,
      guardLoop cfg.cluster fuel (n + 1) s =
        match guardPass cfg.cluster (getNodes cfg.cluster .IdempotencyGuard s).1
            (getNodes cfg.cluster .IdempotencyGuard s).2 with
        | ((true, _), s2) => guardLoop cfg.cluster fuel n s2
        | ((false, true), s2) =>
          (stableLoop cfg.cluster .FinalStable fuel s2).andThen (fun _ s3 => Outcome.done true s3)
        | ((false, false), s2) => Outcome.done false s2) ∧
    (∀ fuel s,
      drainFromGuard cfg fuel s =
        match guardLoop cfg.cluster fuel fuel s with
        | Outcome.blocked s1 => Outcome.blocked s1
        | Outcome.done true s1 => Outcome.done () s1
        | Outcome.done false s1 => drainFromEffectiveQuiesce cfg fuel s1) := by
  refine ⟨?_, ?_, ?_, ?_⟩
  · intro l s
    obtain ⟨new, hn, hcase⟩ := guardPass_spec cfg.cluster l s
    refine ⟨new, hn, ?_, ?_, ?_⟩
    · constructor
      · intro h
        rcases hcase with ⟨a, _⟩ | ⟨_, b, d⟩ | ⟨a, _⟩
        · rw [h] at a; cases a
        · exact ⟨b, d⟩
        · rw [h] at a; cases a
      · rintro ⟨hf, hm⟩
        rcases hcase with ⟨_, e, he, b⟩ | ⟨a, _⟩ | ⟨_, _, e, he, d⟩
        · rw [hf e he] at b; cases b
        · exact a
        · rw [hm e he] at d; cases d
    · constructor
      · intro h
        rcases hcase with ⟨a, _⟩ | ⟨a, _⟩ | ⟨_, b, d⟩
        · rw [h] at a; cases a
        · rw [h] at a; cases a
        · exact ⟨b, d⟩
      · rintro ⟨hf, e2, he2, hm⟩
        rcases hcase with ⟨_, e, he, b⟩ | ⟨_, _, d⟩ | ⟨a, _⟩
        · rw [hf e he] at b; cases b
        · rw [d e2 he2] at hm; cases hm
        · exact a
    · constructor
      · intro h
        rcases hcase with ⟨_, b⟩ | ⟨a, _⟩ | ⟨a, _⟩
        · exact b
        · rw [a] at h; cases h
        · rw [a] at h; cases h
      · rintro ⟨e2, he2, hf⟩
        rcases hcase with ⟨a, _⟩ | ⟨_, b, _⟩ | ⟨_, b, _⟩
        · exact a
        · rw [b e2 he2] at hf; cases hf
        · rw [b e2 he2] at hf; cases hf
  · intro l s
    obtain ⟨new, hn, hcase⟩ := guardPass_spec cfg.cluster l s
    obtain ⟨new2, hn2, hrun⟩ := guardPass_run cfg.cluster l s
    have hsame : new2 = new := List.append_cancel_left (hn2.symm.trans hn)
    subst hsame
    constructor
    · constructor
      · intro h
        rcases hrun with ⟨_, b⟩ | ⟨a, _⟩ | a
        · exact ⟨_, hn, b⟩
        · rw [h] at a; cases a
        · rw [h] at a; cases a
      · rintro ⟨evs, he, hl⟩
        have hsame : evs = new2 := List.append_cancel_left (he.symm.trans hn)
        subst hsame
        rcases hcase with ⟨_, e, he2, b⟩ | ⟨a, _⟩ | ⟨_, _, e, he2, d⟩
        · rw [(guardLooked_clear l evs hl e he2).1] at b; cases b
        · exact a
        · rw [(guardLooked_clear l evs hl e he2).2] at d; cases d
    · constructor
      · intro h
        rcases hrun with ⟨a, _⟩ | ⟨_, b⟩ | a
        · rw [h] at a; cases a
        · exact ⟨_, hn, b⟩
        · rw [h] at a; cases a
      · rintro ⟨evs, he, hl⟩
        have hsame : evs = new2 := List.append_cancel_left (he.symm.trans hn)
        subst hsame
        obtain ⟨hf, e3, he3, hm3⟩ := guardSawFalse_events l evs hl
        rcases hcase with ⟨_, e, he2, b⟩ | ⟨_, _, d⟩ | ⟨a, _⟩
        · rw [hf e he2] at b; cases b
        · rw [d e3 he3] at hm3; cases hm3
        · exact a
  · intro fuel n s
    rw [guardLoop]
  · intro fuel s
    unfold drainFromGuard
    cases guardLoop cfg.cluster fuel fuel s with
    | blocked s1 => rfl
    | done returned s1 => cases returned <;> rfl

/-- Witness of C10: on the sample cluster of a peer and the local node that both
report `pending_quiesce=true`, the pass is a look at the peer, then at the
local node, and takes the short-circuit; on the sample cluster whose peer
reports `false`, the pass over the local node and the peer stops at the peer. -/
theorem idempotencyGuard_contract_witness :
    (guardPass allQuiescedCluster.cluster [peerNode, selfNode] ⟨(), []⟩).1 = (false, true) ∧
    (∃ evs, (guardPass allQuiescedCluster.cluster [peerNode, selfNode] ⟨(), []⟩).2.trace
        = (Session.mk () []).trace ++ evs ∧
      GuardLooked (fun v => v ≠ some "false".toList) [peerNode, selfNode] evs) ∧
    (guardPass quiescingCluster.cluster [selfNode, peerNode] ⟨(), []⟩).1 = (false, false) ∧
    (∃ evs, (guardPass quiescingCluster.cluster [selfNode, peerNode] ⟨(), []⟩).2.trace
        = (Session.mk () []).trace ++ evs ∧
      GuardSawFalse [selfNode, peerNode] evs) ∧
    requestsOf (guardPass quiescingCluster.cluster [selfNode, peerNode] ⟨(), []⟩).2.trace =
      metricRequests .IdempotencyGuard selfNode ++ metricRequests .IdempotencyGuard peerNode :=
  ⟨by decide,
    (((idempotencyGuard_contract allQuiescedCluster).2.1 [peerNode, selfNode] ⟨(), []⟩).1).mp
      (by decide),
    by decide,
    (((idempotencyGuard_contract quiescingCluster).2.1 [selfNode, peerNode] ⟨(), []⟩).2).mp
      (by decide),
    by decide⟩

/-- Counterexample to C10 as stated: a node without namespaces shows no
`pending_quiesce` at all, yet the validation takes the short-circuit: no
request fails, no response shows `pending_quiesce` equal to `"true"`, and the
drain finishes without entering the `effective_is_quiesced` check. -/
theorem guard_shortcut_without_pending_quiesce :
    (guardPass bareCluster.cluster [selfNode] ⟨(), []⟩).1 = (false, true) ∧
    (guardLoop bareCluster.cluster 1 1 ⟨(), []⟩).finished = true ∧
    (performPreStopOp bareCluster 1 ⟨(), []⟩).finished = true ∧
    (∀ e ∈ (guardLoop bareCluster.cluster 1 1 ⟨(), []⟩).session.trace,
      e.failed = false ∧ e.metricIs "pending_quiesce".toList "true".toList = false) ∧
    ∀ e ∈ (performPreStopOp bareCluster 1 ⟨(), []⟩).session.trace,
      e.phase ≠ .VerifyEffectiveQuiesce := by
  decide

/-! ## A drain that finds the node already quiesced -/


theorem requestInfo_eq_some (c : Cluster σ) (ph : Phase) (s : Session σ) (n : Node)
    (cmd : GoString) (out : GoMap) (h : (c.RequestInfo s.world n cmd).1 = some out) :
    requestInfo c ph s n cmd = (some out, (requestInfo c ph s n cmd).2) :=
  Prod.ext h rfl

theorem stablePass_ok (c : Cluster σ) (hq : AlreadyQuiesced c) (ph : Phase) (l : List Node)
    (s : Session σ) : (stablePass c ph l s).1 = false := by
  induction l generalizing s with
  | nil => rfl
  | cons n rest ih =>
    obtain ⟨⟨out, h1, h2⟩, _⟩ := hq s.world n
    rw [stablePass, requestInfo_eq_some c ph s n _ out h1]
    simp only [h2, if_false]
    exact ih _

theorem stableLoop_finishes (c : Cluster σ) (hq : AlreadyQuiesced c) (ph : Phase) (fuel : Nat)
    (s : Session σ) : ∃ s1, stableLoop c ph (fuel + 1) s = Outcome.done () s1 := by
  rw [stableLoop]
  rcases hg : getNodes c ph s with ⟨l, s0⟩
  have h := stablePass_ok c hq ph l s0
  rcases hp : stablePass c ph l s0 with ⟨retry, s2⟩
  rw [hp] at h
  dsimp only at h ⊢
  subst h
  exact ⟨s2, by rw [hp]⟩

theorem pendingQuiesceLoop_finishes (c : Cluster σ) (hq : AlreadyQuiesced c) (node : Node)
    (fuel : Nat) (s : Session σ) :
    ∃ s1, pendingQuiesceLoop c node (fuel + 1) s = Outcome.done () s1 := by
  obtain ⟨_, _, _, out, h1, h2, stats, h3, h4⟩ := hq s.world node
  rw [pendingQuiesceLoop, requestInfo_eq_some c _ s node _ out h1]
  simp only [h2, if_true]
  rw [requestInfo_eq_some c _ _ node _ stats h3]
  simp only [h4, ne_eq, not_true_eq_false, if_false]
  exact ⟨_, rfl⟩

theorem quiescePass_finishes (c : Cluster σ) (hq : AlreadyQuiesced c) (ip : GoString)
    (fuel : Nat) (l : List Node) (s : Session σ) :
    ∃ s1, quiescePass c ip (fuel + 1) l s = Outcome.done false s1 := by
  induction l generalizing s with
  | nil => exact ⟨s, rfl⟩
  | cons n rest ih =>
    rw [quiescePass]
    split
    · obtain ⟨_, ⟨out, h1⟩, _⟩ := hq s.world n
      rw [requestInfo_eq_some c _ s n _ out h1]
      dsimp only
      obtain ⟨s1, h2⟩ := pendingQuiesceLoop_finishes c hq n fuel (requestInfo c .QuiesceSelf s n
        quiesceCommand).2
      rw [h2]
      exact ⟨s1, rfl⟩
    · exact ih s

theorem quiesceLoop_finishes (c : Cluster σ) (hq : AlreadyQuiesced c) (ip : GoString)
    (fuel n : Nat) (s : Session σ) :
    ∃ s1, quiesceLoop c ip (fuel + 1) (n + 1) s = Outcome.done () s1 := by
  rw [quiesceLoop]
  rcases hg : getNodes c .QuiesceSelf s with ⟨l, s0⟩
  obtain ⟨s1, h⟩ := quiescePass_finishes c hq ip fuel l s0
  dsimp only
  rw [h]
  exact ⟨s1, rfl⟩

theorem reclusterPass_ok (c : Cluster σ) (hq : AlreadyQuiesced c) (l : List Node)
    (s : Session σ) : (reclusterPass c l s).1 = false := by
  induction l generalizing s with
  | nil => rfl
  | cons n rest ih =>
    obtain ⟨_, _, ⟨out, h1⟩, _⟩ := hq s.world n
    rw [reclusterPass, requestInfo_eq_some c _ s n _ out h1]
    exact ih _

theorem reclusterLoop_finishes (c : Cluster σ) (hq : AlreadyQuiesced c) (fuel : Nat)
    (s : Session σ) : ∃ s1, reclusterLoop c (fuel + 1) s = Outcome.done () s1 := by
  rw [reclusterLoop]
  rcases hg : getNodes c .Recluster s with ⟨l, s0⟩
  have h := reclusterPass_ok c hq l s0
  rcases hp : reclusterPass c l s0 with ⟨retry, s2⟩
  rw [hp] at h
  dsimp only at h ⊢
  subst h
  exact ⟨s2, by rw [hp]⟩

theorem guardPass_ok (c : Cluster σ) (hq : AlreadyQuiesced c) (l : List Node)
    (s : Session σ) : (guardPass c l s).1 = (false, true) := by
  induction l generalizing s with
  | nil => rfl
  | cons n rest ih =>
    obtain ⟨_, _, _, out, h1, h2, stats, h3, h4⟩ := hq s.world n
    rw [guardPass, requestInfo_eq_some c _ s n _ out h1]
    simp only [h2, if_true]
    rw [requestInfo_eq_some c _ _ n _ stats h3]
    have h5 : ¬ "true".toList = "false".toList := by decide
    simp only [h4, h5, if_false]
    exact ih _

theorem guardLoop_finishes (c : Cluster σ) (hq : AlreadyQuiesced c) (fuel n : Nat)
    (s : Session σ) :
    ∃ s1 guard recheck, guardLoop c (fuel + 1) (n + 1) s = Outcome.done true s1 ∧
      s1.trace = s.trace ++ guard ++ recheck ∧
      (∀ e ∈ guard, e.OfPhases [.IdempotencyGuard]) ∧
      ∀ e ∈ recheck, e.OfPhases [.FinalStable] := by
  have g1 := getNodes_grows (Event.OfPhases [.IdempotencyGuard]) c .IdempotencyGuard s
    (ofPhases_nodes _ _ (by simp))
  rw [guardLoop]
  rcases hg : getNodes c .IdempotencyGuard s with ⟨l, s0⟩
  rw [hg] at g1
  have h := guardPass_ok c hq l s0
  have g2 := guardPass_grows [.IdempotencyGuard] (by simp) c l s0
  rcases hp : guardPass c l s0 with ⟨⟨retry, allTrue⟩, s2⟩
  rw [hp] at h g2
  simp only [Prod.mk.injEq] at h
  obtain ⟨rfl, rfl⟩ := h
  dsimp only
  rw [hp]
  dsimp only
  obtain ⟨s3, h3⟩ := stableLoop_finishes c hq .FinalStable fuel s2
  have g3 := stableLoop_ofPhases [.FinalStable] c .FinalStable (by simp) (Or.inr rfl)
    (fuel + 1) s2
  rw [h3] at g3 ⊢
  obtain ⟨guard, e1, p1⟩ := g1.trans g2
  obtain ⟨recheck, e2, p2⟩ := g3
  exact ⟨s3, guard, recheck, rfl, by rw [show s3.trace = s2.trace ++ recheck from e2, e1], p1, p2⟩

theorem drainedCluster_alreadyQuiesced : AlreadyQuiesced drainedCluster.cluster := by
  intro w node
  exact ⟨⟨_, rfl, by decide⟩, ⟨_, rfl⟩, ⟨_, rfl⟩, _, rfl, by decide, _, rfl, by decide⟩

theorem stableLoop_run (c : Cluster σ) (hq : AlreadyQuiesced c) (ph : Phase) (fuel : Nat)
    (s : Session σ) :
    ∃ s1 evs, stableLoop c ph (fuel + 1) s = Outcome.done () s1 ∧
      s1.trace = s.trace ++ ⟨ph, .nodes (getNodes c ph s).1⟩ :: evs ∧
      AnsweredStable ph (getNodes c ph s).1 evs := by
  have h := stablePass_ok c hq ph (getNodes c ph s).1 (getNodes c ph s).2
  obtain ⟨evs, he, ha⟩ := (stablePass_iff c ph (getNodes c ph s).1 (getNodes c ph s).2).mp h
  refine ⟨(stablePass c ph (getNodes c ph s).1 (getNodes c ph s).2).2, evs, ?_, ?_, ha⟩
  · rw [stableLoop]
    dsimp only
    generalize stablePass c ph (getNodes c ph s).1 (getNodes c ph s).2 = res at h
    obtain ⟨retry, s2⟩ := res
    dsimp only at h
    subst h
    rfl
  · rw [he, getNodes_trace]
    simp

theorem reclusterPass_run (c : Cluster σ) (hq : AlreadyQuiesced c) (l : List Node)
    (s : Session σ) :
    ∃ evs, reclusterPass c l s = (false, (reclusterPass c l s).2) ∧
      (reclusterPass c l s).2.trace = s.trace ++ evs ∧ Reclustered l evs := by
  induction l generalizing s with
  | nil => exact ⟨[], rfl, by simp [reclusterPass], [], rfl, rfl⟩
  | cons n rest ih =>
    obtain ⟨_, _, ⟨out, h1⟩, _⟩ := hq s.world n
    have ht := requestInfo_trace c .Recluster s n reclusterCommand
    rw [reclusterPass, requestInfo_eq_some c _ s n _ out h1]
    rw [requestInfo_eq_some c _ s n _ out h1] at ht
    dsimp only at ht ⊢
    obtain ⟨evs, e1, e2, outs, e3, e4⟩ := ih (requestInfo c .Recluster s n reclusterCommand).2
    refine ⟨⟨.Recluster, .info n reclusterCommand (some out)⟩ :: evs, e1, ?_,
      out :: outs, by simp [e3], by simp [e4]⟩
    rw [e2, ht]
    simp

theorem reclusterLoop_run (c : Cluster σ) (hq : AlreadyQuiesced c) (fuel : Nat)
    (s : Session σ) :
    ∃ s1 evs, reclusterLoop c (fuel + 1) s = Outcome.done () s1 ∧
      s1.trace = s.trace ++ ⟨.Recluster, .nodes (getNodes c .Recluster s).1⟩ :: evs ∧
      Reclustered (getNodes c .Recluster s).1 evs := by
  obtain ⟨evs, e1, e2, e3⟩ := reclusterPass_run c hq (getNodes c .Recluster s).1
    (getNodes c .Recluster s).2
  refine ⟨(reclusterPass c (getNodes c .Recluster s).1 (getNodes c .Recluster s).2).2, evs,
    ?_, ?_, e3⟩
  · rw [reclusterLoop]
    dsimp only
    rw [e1]
  · rw [e2, getNodes_trace]
    simp

theorem pendingQuiesceLoop_run (c : Cluster σ) (hq : AlreadyQuiesced c) (node : Node)
    (fuel : Nat) (s : Session σ) :
    ∃ s1 answer, pendingQuiesceLoop c node (fuel + 1) s = Outcome.done () s1 ∧
      s1.trace = s.trace ++ metricLook .WaitPendingQuiesce node answer ∧
      shownMetric "pending_quiesce".toList answer = some "true".toList := by
  obtain ⟨_, _, _, out, h1, h2, stats, h3, h4⟩ := hq s.world node
  have t1 := requestInfo_trace c .WaitPendingQuiesce s node namespacesCommand
  have t2 := requestInfo_trace c .WaitPendingQuiesce
    (requestInfo c .WaitPendingQuiesce s node namespacesCommand).2 node
    (namespaceCommand (selectedNamespace out))
  rw [pendingQuiesceLoop, requestInfo_eq_some c _ s node _ out h1]
  rw [requestInfo_eq_some c _ s node _ out h1] at t1
  simp only [h2, if_true]
  rw [requestInfo_eq_some c _ _ node _ stats h3]
  rw [requestInfo_eq_some c _ _ node _ stats h3] at t2
  simp only [h4, ne_eq, not_true_eq_false, if_false]
  refine ⟨_, (out, stats), rfl, ?_, ?_⟩
  · dsimp only at t1 t2
    rw [t2, t1]
    simp [metricLook, h2]
  · rw [shownMetric, if_pos h2, h4]

theorem quiescePass_run (c : Cluster σ) (hq : AlreadyQuiesced c) (ip : GoString) (fuel : Nat)
    (l : List Node) (s : Session σ) :
    ∃ s1 evs, quiescePass c ip (fuel + 1) l s = Outcome.done false s1 ∧
      s1.trace = s.trace ++ evs ∧ QuiescedSelf ip l evs := by
  induction l generalizing s with
  | nil => exact ⟨s, [], rfl, by simp, Or.inl ⟨by simp, rfl⟩⟩
  | cons n rest ih =>
    rw [quiescePass]
    by_cases hs : isSelf ip n = true
    · rw [if_pos hs]
      obtain ⟨_, ⟨out, h1⟩, _⟩ := hq s.world n
      have t1 := requestInfo_trace c .QuiesceSelf s n quiesceCommand
      rw [requestInfo_eq_some c _ s n _ out h1]
      rw [requestInfo_eq_some c _ s n _ out h1] at t1
      dsimp only at t1 ⊢
      obtain ⟨s1, answer, h2, h3, h4⟩ := pendingQuiesceLoop_run c hq n fuel
        (requestInfo c .QuiesceSelf s n quiesceCommand).2
      rw [h2]
      refine ⟨s1, ⟨.QuiesceSelf, .info n quiesceCommand (some out)⟩ ::
        metricLook .WaitPendingQuiesce n answer, rfl, ?_,
        Or.inr ⟨[], n, rest, out, answer, rfl, by simp, hs, rfl, h4⟩⟩
      rw [h3, t1]
      simp
    · rw [if_neg hs]
      have hs2 : isSelf ip n = false := by simpa using hs
      obtain ⟨s1, evs, e1, e2, e3⟩ := ih s
      refine ⟨s1, evs, e1, e2, ?_⟩
      rcases e3 with ⟨a, b⟩ | ⟨before, node, after, out, answer, a, b, d, e, f⟩
      · refine Or.inl ⟨?_, b⟩
        intro m hm
        rcases List.mem_cons.1 hm with h | h
        · exact h ▸ hs2
        · exact a m h
      · refine Or.inr ⟨n :: before, node, after, out, answer, by simp [a], ?_, d, e, f⟩
        intro m hm
        rcases List.mem_cons.1 hm with h | h
        · exact h ▸ hs2
        · exact b m h

theorem quiesceLoop_run (c : Cluster σ) (hq : AlreadyQuiesced c) (ip : GoString)
    (fuel n : Nat) (s : Session σ) :
    ∃ s1 evs, quiesceLoop c ip (fuel + 1) (n + 1) s = Outcome.done () s1 ∧
      s1.trace = s.trace ++ ⟨.QuiesceSelf, .nodes (getNodes c .QuiesceSelf s).1⟩ :: evs ∧
      QuiescedSelf ip (getNodes c .QuiesceSelf s).1 evs := by
  obtain ⟨s1, evs, e1, e2, e3⟩ := quiescePass_run c hq ip fuel (getNodes c .QuiesceSelf s).1
    (getNodes c .QuiesceSelf s).2
  refine ⟨s1, evs, ?_, ?_, e3⟩
  · rw [quiesceLoop]
    dsimp only
    rw [e1]
  · rw [e2, getNodes_trace]
    simp

theorem guardPass_allTrue (c : Cluster σ) (hq : AlreadyQuiesced c) (l : List Node)
    (s : Session σ) :
    ∃ evs, guardPass c l s = ((false, true), (guardPass c l s).2) ∧
      (guardPass c l s).2.trace = s.trace ++ evs ∧
      GuardLooked (fun v => v = some "true".toList) l evs := by
  induction l generalizing s with
  | nil => exact ⟨[], rfl, by simp [guardPass], [], rfl, rfl, by simp⟩
  | cons n rest ih =>
    obtain ⟨_, _, _, out, h1, h2, stats, h3, h4⟩ := hq s.world n
    have t1 := requestInfo_trace c .IdempotencyGuard s n namespacesCommand
    have t2 := requestInfo_trace c .IdempotencyGuard
      (requestInfo c .IdempotencyGuard s n namespacesCommand).2 n
      (namespaceCommand (selectedNamespace out))
    rw [guardPass, requestInfo_eq_some c _ s n _ out h1]
    rw [requestInfo_eq_some c _ s n _ out h1] at t1
    simp only [h2, if_true]
    rw [requestInfo_eq_some c _ _ n _ stats h3]
    rw [requestInfo_eq_some c _ _ n _ stats h3] at t2
    have h5 : ¬ "true".toList = "false".toList := by decide
    simp only [h4, h5, if_false]
    obtain ⟨evs, e1, e2, e3⟩ := ih (requestInfo c .IdempotencyGuard
      (requestInfo c .IdempotencyGuard s n namespacesCommand).2 n
      (namespaceCommand (selectedNamespace out))).2
    refine ⟨metricLook .IdempotencyGuard n (out, stats) ++ evs, e1, ?_,
      guardLooked_cons _ n rest (out, stats) evs (by rw [shownMetric, if_pos h2, h4]) e3⟩
    dsimp only at t1 t2
    rw [e2, t2, t1]
    simp [metricLook, h2]

theorem guardLoop_run (c : Cluster σ) (hq : AlreadyQuiesced c) (fuel n : Nat)
    (s : Session σ) :
    ∃ s1 guard recheck, guardLoop c (fuel + 1) (n + 1) s = Outcome.done true s1 ∧
      s1.trace = s.trace ++ ⟨.IdempotencyGuard, .nodes (getNodes c .IdempotencyGuard s).1⟩ ::
        guard ++ ⟨.FinalStable, .nodes
          (getNodes c .FinalStable (guardPass c (getNodes c .IdempotencyGuard s).1
            (getNodes c .IdempotencyGuard s).2).2).1⟩ :: recheck ∧
      GuardLooked (fun v => v = some "true".toList) (getNodes c .IdempotencyGuard s).1 guard ∧
      AnsweredStable .FinalStable
        (getNodes c .FinalStable (guardPass c (getNodes c .IdempotencyGuard s).1
          (getNodes c .IdempotencyGuard s).2).2).1 recheck := by
  obtain ⟨guard, e1, e2, e3⟩ := guardPass_allTrue c hq (getNodes c .IdempotencyGuard s).1
    (getNodes c .IdempotencyGuard s).2
  obtain ⟨s3, recheck, f1, f2, f3⟩ := stableLoop_run c hq .FinalStable fuel
    (guardPass c (getNodes c .IdempotencyGuard s).1 (getNodes c .IdempotencyGuard s).2).2
  refine ⟨s3, guard, recheck, ?_, ?_, e3, f3⟩
  · rw [guardLoop]
    dsimp only
    rw [e1]
    dsimp only
    rw [f1]
    rfl
  · rw [f2, e2, getNodes_trace]
    simp

theorem mem_zipWith_form {α β : Type} (f : α → β → Event) (l : List α) (bs : List β)
    (e : Event) (he : e ∈ List.zipWith f l bs) : ∃ n b, e = f n b := by
  induction l generalizing bs with
  | nil => simp at he
  | cons n rest ih =>
    cases bs with
    | nil => simp at he
    | cons b bs =>
      rw [List.zipWith_cons_cons, List.mem_cons] at he
      rcases he with h | h
      · exact ⟨n, b, h⟩
      · exact ih bs h

theorem allQuiescedCluster_alreadyQuiesced : AlreadyQuiesced allQuiescedCluster.cluster := by
  intro w node
  exact ⟨⟨_, rfl, by decide⟩, ⟨_, rfl⟩, ⟨_, rfl⟩, _, rfl, by decide, _, rfl, by decide⟩

/-- C9 (amended): against a cluster in which every request succeeds, every
node is stable and every node reports `pending_quiesce` equal to `"true"` for
its first namespace, `performPreStopOp` returns as soon as every loop is
allowed one iteration, and its trace is exactly: the listing of the
cluster-stable check and a stable answer of each of its nodes; the listing of
the quiesce step and, when it holds a local node, `quiesce:` answered by the
first one and one look at its `pending_quiesce`; the listing of the recluster
step and `recluster:` answered by each of its nodes; the listing of the
validation after recluster and a look at each of its nodes, each showing
`"true"`; the listing of the final cluster-stable recheck and a stable answer
of each of its nodes. Nothing follows, and from the validation on no
`quiesce:` and no `recluster:` command is issued. -/
theorem drain_of_already_quiesced {F : Type} (cfg : Setup σ F)
    (hq : AlreadyQuiesced cfg.cluster) (fuel : Nat) (w : σ) :
    ∃ s1 l1 e1 l2 e2 l3 e3 l4 e4 l5 e5,
      performPreStopOp cfg (fuel + 1) ⟨w, []⟩ = Outcome.done () s1 ∧
      s1.trace = ⟨.WaitStable, .nodes l1⟩ :: e1 ++ ⟨.QuiesceSelf, .nodes l2⟩ :: e2 ++
        ⟨.Recluster, .nodes l3⟩ :: e3 ++ ⟨.IdempotencyGuard, .nodes l4⟩ :: e4 ++
        ⟨.FinalStable, .nodes l5⟩ :: e5 ∧
      AnsweredStable .WaitStable l1 e1 ∧ QuiescedSelf cfg.myPodIP l2 e2 ∧
      Reclustered l3 e3 ∧ GuardLooked (fun v => v = some "true".toList) l4 e4 ∧
      AnsweredStable .FinalStable l5 e5 ∧
      ∀ e ∈ ⟨.IdempotencyGuard, .nodes l4⟩ :: e4 ++ ⟨.FinalStable, .nodes l5⟩ :: e5,
        e.command ≠ some quiesceCommand ∧ e.command ≠ some reclusterCommand := by
  obtain ⟨sa, e1, ha, ta, pa⟩ := stableLoop_run cfg.cluster hq .WaitStable fuel ⟨w, []⟩
  obtain ⟨sb, e2, hb, tb, pb⟩ := quiesceLoop_run cfg.cluster hq cfg.myPodIP fuel fuel sa
  obtain ⟨sc, e3, hc, tc, pc⟩ := reclusterLoop_run cfg.cluster hq fuel sb
  obtain ⟨sd, e4, e5, hd, td, pd, pe⟩ := guardLoop_run cfg.cluster hq fuel fuel sc
  refine ⟨sd, _, e1, _, e2, _, e3, _, e4, _, e5, ?_, ?_, pa, pb, pc, pd, pe, ?_⟩
  · simp only [performPreStopOp, ha, Outcome.andThen, drainFromQuiesce, hb, drainFromRecluster,
      hc, drainFromGuard, hd, if_true]
  · rw [td, tc, tb, ta]
    simp
  · intro e he
    have s1 : stableCommand ≠ quiesceCommand := by decide
    have s2 : stableCommand ≠ reclusterCommand := by decide
    rw [List.cons_append, List.mem_cons, List.mem_append, List.mem_cons] at he
    rcases he with rfl | he | rfl | he
    · exact ⟨by simp [Event.command], by simp [Event.command]⟩
    · obtain ⟨n, _, a, _, hea⟩ := guardLooked_events _ _ _ pd e he
      exact (metricLook_events _ n a e hea).2.2
    · exact ⟨by simp [Event.command], by simp [Event.command]⟩
    · obtain ⟨rs, _, h2, _⟩ := pe
      rw [h2] at he
      obtain ⟨n, r, rfl⟩ := mem_zipWith_form _ _ _ e he
      exact ⟨by simpa [Event.command] using s1, by simpa [Event.command] using s2⟩

/-- Witness of C9: the sample cluster of a peer and the local node that both
report `pending_quiesce=true` meets the hypothesis; its drain is the run
described, with 13 requests, the last two of them the final recheck. -/
theorem drain_of_already_quiesced_witness :
    AlreadyQuiesced allQuiescedCluster.cluster ∧
    requestsOf (performPreStopOp allQuiescedCluster 1 ⟨(), []⟩).session.trace =
      [(.WaitStable, peerNode.host, stableCommand), (.WaitStable, selfNode.host, stableCommand),
       (.QuiesceSelf, selfNode.host, quiesceCommand)] ++
      metricRequests .WaitPendingQuiesce selfNode ++
      [(.Recluster, peerNode.host, reclusterCommand),
       (.Recluster, selfNode.host, reclusterCommand)] ++
      metricRequests .IdempotencyGuard peerNode ++ metricRequests .IdempotencyGuard selfNode ++
      [(.FinalStable, peerNode.host, stableCommand),
       (.FinalStable, selfNode.host, stableCommand)] ∧
    ∃ s1 l1 e1 l2 e2 l3 e3 l4 e4 l5 e5,
      performPreStopOp allQuiescedCluster (0 + 1) ⟨(), []⟩ = Outcome.done () s1 ∧
      s1.trace = ⟨.WaitStable, .nodes l1⟩ :: e1 ++ ⟨.QuiesceSelf, .nodes l2⟩ :: e2 ++
        ⟨.Recluster, .nodes l3⟩ :: e3 ++ ⟨.IdempotencyGuard, .nodes l4⟩ :: e4 ++
        ⟨.FinalStable, .nodes l5⟩ :: e5 ∧
      AnsweredStable .WaitStable l1 e1 ∧ QuiescedSelf allQuiescedCluster.myPodIP l2 e2 ∧
      Reclustered l3 e3 ∧ GuardLooked (fun v => v = some "true".toList) l4 e4 ∧
      AnsweredStable .FinalStable l5 e5 ∧
      ∀ e ∈ ⟨.IdempotencyGuard, .nodes l4⟩ :: e4 ++ ⟨.FinalStable, .nodes l5⟩ :: e5,
        e.command ≠ some quiesceCommand ∧ e.command ≠ some reclusterCommand :=
  ⟨allQuiescedCluster_alreadyQuiesced, by decide,
    drain_of_already_quiesced allQuiescedCluster allQuiescedCluster_alreadyQuiesced 0 ()⟩

/-- Counterexample to C9 as stated: against a cluster whose only node already
reports `pending_quiesce=true` the drain runs to its end, and its trace holds
a `quiesce:` command and a `recluster:` command. -/
theorem quiesce_and_recluster_reissued :
    AlreadyQuiesced drainedCluster.cluster ∧
    (performPreStopOp drainedCluster 1 ⟨(), []⟩).finished = true ∧
    (∃ e ∈ (performPreStopOp drainedCluster 1 ⟨(), []⟩).session.trace,
      e.command = some quiesceCommand) ∧
    ∃ e ∈ (performPreStopOp drainedCluster 1 ⟨(), []⟩).session.trace,
      e.command = some reclusterCommand :=
  ⟨drainedCluster_alreadyQuiesced, by decide⟩

/-! ## A complete run on a sample cluster -/


/-- Witness of C5: in the run against the sample cluster of a local node and
a peer, the `quiesce:` command is the fifth call, and the four calls before it
hold a pass of the cluster-stable check answered by both nodes. -/
theorem waitStable_contract_witness :
    SawStablePass .WaitStable
      ((performPreStopOp quiescingCluster 1 ⟨(), []⟩).session.trace.take 4) :=
  (waitStable_contract quiescingCluster).2.2 1 () _
    ⟨.QuiesceSelf, Call.info selfNode quiesceCommand (some [(quiesceCommand, "ok".toList)])⟩
    ((performPreStopOp quiescingCluster 1 ⟨(), []⟩).session.trace.drop 5)
    (by decide) (by decide) (by decide)

/-- Witness of C6: in the same run the first `recluster:` command is the ninth
call, and the eight calls before it settle the quiesce step. -/
theorem recluster_after_quiesce_settled_witness :
    QuiesceSettled quiescingCluster.myPodIP
      ((performPreStopOp quiescingCluster 1 ⟨(), []⟩).session.trace.take 8) :=
  recluster_after_quiesce_settled quiescingCluster 1 () _
    ⟨.Recluster, Call.info selfNode reclusterCommand (some [(reclusterCommand, "ok".toList)])⟩
    ((performPreStopOp quiescingCluster 1 ⟨(), []⟩).session.trace.drop 9)
    (by decide) (by decide) (by decide)

theorem legacyLoop_succ {F : Type} (ops : Float64Ops F) (fuel : Nat) (ip : InfoParser) (acc : F) :
    legacyLoop ops (fuel + 1) ip acc =
      match legacyStep ops ip acc with
      | .stop => some acc
      | .panic => none
      | .next ip2 acc2 => legacyLoop ops fuel ip2 acc2 := by
  rw [legacyLoop, legacyStep]
  repeat' split
  all_goals first | rfl | simp_all

theorem newLoop_succ {F : Type} (ops : Float64Ops F) (fuel : Nat) (ip : InfoParser) (acc : F) :
    newLoop ops (fuel + 1) ip acc =
      match newStep ops ip acc with
      | .stop => some acc
      | .panic => none
      | .next ip2 acc2 => newLoop ops fuel ip2 acc2 := by
  rw [newLoop, newStep]
  repeat' split
  all_goals first | rfl | simp_all

theorem span_ne_not_mem (s : GoString) (d : Char) (h : d ∉ s) :
    s.span (fun c => c != d) = (s, []) := by
  rw [span_ne_eq, takeWhile_ne_of_not_mem s d h, dropWhile_ne_of_not_mem s d h]

theorem mem_split (s : GoString) (d : Char) (h : d ∈ s) :
    ∃ a b, s = a ++ d :: b ∧ d ∉ a := by
  induction s with
  | nil => simp at h
  | cons x s ih =>
    by_cases hx : x = d
    · exact ⟨[], s, by simp [hx], by simp⟩
    · have h2 : d ∈ s := by
        rcases List.mem_cons.mp h with e | e
        · exact absurd e.symm hx
        · exact e
      obtain ⟨a, b, e, hn⟩ := ih h2
      refine ⟨x :: a, b, by simp [e], ?_⟩
      intro hm
      rcases List.mem_cons.mp hm with e2 | e2
      · exact hx e2.symm
      · exact hn e2

/-- The two outcomes of `ReadBytes`. -/
theorem ReadBytes_cases (ip : InfoParser) (d : Char) :
    (∃ a b, ip.unread = a ++ d :: b ∧ d ∉ a ∧ ip.ReadBytes d = ((a ++ [d], none), ⟨b⟩)) ∨
    (d ∉ ip.unread ∧ ip.ReadBytes d = ((ip.unread, some ReadError.EOF), ⟨[]⟩)) := by
  obtain ⟨u⟩ := ip
  by_cases h : d ∈ u
  · obtain ⟨a, b, e, hn⟩ := mem_split u d h
    subst e
    exact Or.inl ⟨a, b, rfl, hn, ReadBytes_delim a b d hn⟩
  · refine Or.inr ⟨h, ?_⟩
    simp only [InfoParser.ReadBytes, span_ne_not_mem u d h]

theorem ReadUntil_eof (u : GoString) (d : Char) (h : d ∉ u) :
    InfoParser.ReadUntil ⟨u⟩ d =
      ((if u.length ≤ 1 then u else u.take (u.length - 1), some ReadError.EOF), ⟨[]⟩) := by
  have hb : InfoParser.ReadBytes ⟨u⟩ d = ((u, some ReadError.EOF), ⟨[]⟩) := by
    simp only [InfoParser.ReadBytes, span_ne_not_mem u d h]
  unfold InfoParser.ReadUntil
  rw [hb]
  match u, h with
  | [], _ => simp
  | [x], h =>
    have : ¬ x = d := fun e => h (e ▸ List.mem_cons_self _ _)
    simp [this]
  | x :: y :: a, _ => simp

/-- The two outcomes of `ReadUntil`. -/
theorem ReadUntil_cases (ip : InfoParser) (d : Char) :
    (∃ a b, ip.unread = a ++ d :: b ∧ d ∉ a ∧ ip.ReadUntil d = ((a, none), ⟨b⟩)) ∨
    (d ∉ ip.unread ∧ ∃ v, ip.ReadUntil d = ((v, some ReadError.EOF), ⟨[]⟩)) := by
  obtain ⟨u⟩ := ip
  by_cases h : d ∈ u
  · obtain ⟨a, b, e, hn⟩ := mem_split u d h
    subst e
    exact Or.inl ⟨a, b, rfl, hn, ReadUntil_delim a b d hn⟩
  · exact Or.inr ⟨h, _, ReadUntil_eof u d h⟩

theorem ReadUntil_length {ip ip2 : InfoParser} {d : Char} {v : GoString}
    {e : Option ReadError} (h : ip.ReadUntil d = ((v, e), ip2)) :
    ip2.unread.length ≤ ip.unread.length ∧ (e = none → ip2.unread.length < ip.unread.length) := by
  rcases ReadUntil_cases ip d with ⟨a, b, hu, _, hr⟩ | ⟨_, w, hr⟩
  · rw [hr] at h
    simp only [Prod.mk.injEq] at h
    obtain ⟨⟨_, _⟩, rfl⟩ := h
    rw [hu]
    simp
    omega
  · rw [hr] at h
    simp only [Prod.mk.injEq] at h
    obtain ⟨⟨_, he⟩, rfl⟩ := h
    subst he
    simp

theorem Expect_char_cases (ip : InfoParser) (c : Char) :
    (ip.unread = [] ∧ ip.Expect [c] = (some ReadError.EOF, ip)) ∨
    (∃ x r, ip.unread = x :: r ∧
      ip.Expect [c] = (if x = c then none else some ReadError.WrongValue, ⟨r⟩)) := by
  obtain ⟨u⟩ := ip
  cases u with
  | nil => exact Or.inl ⟨rfl, by simp [InfoParser.Expect, InfoParser.Read]⟩
  | cons x r =>
    refine Or.inr ⟨x, r, rfl, ?_⟩
    by_cases h : x = c <;> simp [InfoParser.Expect, InfoParser.Read, h]

theorem Expect_length {ip ip2 : InfoParser} {c : Char} {e : Option ReadError}
    (h : ip.Expect [c] = (e, ip2)) :
    ip2.unread.length ≤ ip.unread.length ∧ (e = none → ip2.unread.length < ip.unread.length) := by
  rcases Expect_char_cases ip c with ⟨hu, hr⟩ | ⟨x, r, hu, hr⟩
  · rw [hr] at h
    simp only [Prod.mk.injEq] at h
    obtain ⟨he, rfl⟩ := h
    subst he
    simp
  · rw [hr] at h
    simp only [Prod.mk.injEq] at h
    obtain ⟨_, rfl⟩ := h
    rw [hu]
    simp

theorem PeekAndExpect_same {ip ip2 : InfoParser} {s : GoString} {e : Option ReadError}
    (h : ip.PeekAndExpect s = (e, ip2)) : ip2 = ip := by
  unfold InfoParser.PeekAndExpect at h
  split at h
  · exact (Prod.mk.inj h).2.symm
  · split at h <;> exact (Prod.mk.inj h).2.symm

theorem Split_char_ne_nil (s : GoString) (d : Char) : Split s [d] ≠ [] := by
  intro h
  have := Split_length_pos s d
  rw [h] at this
  simp at this

theorem legacyStep_next {F : Type} (ops : Float64Ops F) (ip ip2 : InfoParser) (acc acc2 : F)
    (h : legacyStep ops ip acc = .next ip2 acc2) :
    ip2.unread.length < ip.unread.length := by
  unfold legacyStep at h
  split at h
  · rename_i e1 ip1 h1
    split at h
    · cases h
    · rename_i v2 ip3 h2
      cases h
      have := (Expect_length h1).1
      have := (ReadUntil_length h2).2 rfl
      omega
  · rename_i ip1 h1
    have l1 := (Expect_length h1).2 rfl
    split at h
    · cases h
    rename_i v2 ip3 h2
    have l2 := (ReadUntil_length h2).1
    split at h
    · cases h
    rename_i ip4 h3
    have l3 := (Expect_length h3).1
    split at h
    · cases h
    rename_i v4 ip5 h4
    have l4 := (ReadUntil_length h4).1
    split at h
    · rename_i ip6 h5
      have l5 := PeekAndExpect_same h5
      split at h
      · cases h
      · rename_i ip7 h6
        have l6 := (Expect_length h6).1
        cases h
        subst l5
        omega
    · rename_i e5 ip6 h5
      have l5 := PeekAndExpect_same h5
      subst l5
      split at h
      · cases h
      rename_i v6 ip7 h6
      have l6 := (ReadUntil_length h6).1
      split at h
      · cases h
      rename_i v7 ip8 h7
      have l7 := (ReadUntil_length h7).1
      split at h
      · cases h
      rename_i v8 ip9 h8
      have l8 := (ReadUntil_length h8).1
      split at h
      rename_i v9 e9 ip10 h9
      have l9 := (ReadUntil_length h9).1
      split at h
      · cases h
      · split at h
        · cases h
        · split at h
          · cases h
          · cases h
            omega
theorem newStep_next {F : Type} (ops : Float64Ops F) (ip ip2 : InfoParser) (acc acc2 : F)
    (h : newStep ops ip acc = .next ip2 acc2) :
    ip2.unread.length < ip.unread.length := by
  unfold newStep at h
  split at h
  · rename_i e1 ip1 h1
    split at h
    · cases h
    · rename_i v2 ip3 h2
      cases h
      have := (Expect_length h1).1
      have := (ReadUntil_length h2).2 rfl
      omega
  · rename_i ip1 h1
    have l1 := (Expect_length h1).2 rfl
    split at h
    · cases h
    rename_i v2 ip3 h2
    have l2 := (ReadUntil_length h2).1
    split at h
    · cases h
    rename_i ip4 h3
    have l3 := (Expect_length h3).1
    split at h
    · cases h
    rename_i v4 ip5 h4
    have l4 := (ReadUntil_length h4).1
    split at h
    · rename_i ip6 h5
      have l5 := PeekAndExpect_same h5
      split at h
      · cases h
      · rename_i ip7 h6
        have l6 := (Expect_length h6).1
        cases h
        subst l5
        omega
    · rename_i e5 ip6 h5
      have l5 := PeekAndExpect_same h5
      subst l5
      split at h
      · cases h
      rename_i v6 ip7 h6
      have l6 := (ReadUntil_length h6).1
      split at h
      rename_i v9 e9 ip10 h9
      have l9 := (ReadUntil_length h9).1
      split at h
      · cases h
      · split at h
        · cases h
        · split at h
          · cases h
          · cases h
            omega

theorem legacyStep_no_panic {F : Type} (ops : Float64Ops F) (ip : InfoParser) (acc : F) :
    legacyStep ops ip acc ≠ .panic := by
  unfold legacyStep
  intro h
  repeat' split at h
  all_goals first | (cases h; done) | (rename_i hs; exact Split_char_ne_nil _ _ hs)

theorem newStep_no_panic {F : Type} (ops : Float64Ops F) (ip : InfoParser) (acc : F) :
    newStep ops ip acc ≠ .panic := by
  unfold newStep
  intro h
  repeat' split at h
  all_goals first | (cases h; done) | (rename_i hs; exact Split_char_ne_nil _ _ hs)

theorem legacyLoop_fuel {F : Type} (ops : Float64Ops F) (fuel : Nat) :
    ∀ (ip : InfoParser) (acc : F), ip.unread.length < fuel →
      (∃ v, legacyLoop ops fuel ip acc = some v) ∧
      ∀ fuel2, ip.unread.length < fuel2 → legacyLoop ops fuel2 ip acc = legacyLoop ops fuel ip acc := by
  induction fuel with
  | zero => intro ip acc h; omega
  | succ k ih =>
    intro ip acc hlen
    rw [legacyLoop_succ]
    cases hs : legacyStep ops ip acc with
    | stop =>
      refine ⟨⟨acc, rfl⟩, fun fuel2 h2 => ?_⟩
      obtain ⟨j, rfl⟩ : ∃ j, fuel2 = j + 1 := ⟨fuel2 - 1, by omega⟩
      rw [legacyLoop_succ, hs]
    | panic => exact absurd hs (legacyStep_no_panic ops ip acc)
    | next ip2 acc2 =>
      have hl := legacyStep_next ops ip ip2 acc acc2 hs
      obtain ⟨h1, h2⟩ := ih ip2 acc2 (by omega)
      refine ⟨h1, fun fuel2 hf => ?_⟩
      obtain ⟨j, rfl⟩ : ∃ j, fuel2 = j + 1 := ⟨fuel2 - 1, by omega⟩
      rw [legacyLoop_succ, hs]
      exact h2 j (by omega)

theorem newLoop_fuel {F : Type} (ops : Float64Ops F) (fuel : Nat) :
    ∀ (ip : InfoParser) (acc : F), ip.unread.length < fuel →
      (∃ v, newLoop ops fuel ip acc = some v) ∧
      ∀ fuel2, ip.unread.length < fuel2 → newLoop ops fuel2 ip acc = newLoop ops fuel ip acc := by
  induction fuel with
  | zero => intro ip acc h; omega
  | succ k ih =>
    intro ip acc hlen
    rw [newLoop_succ]
    cases hs : newStep ops ip acc with
    | stop =>
      refine ⟨⟨acc, rfl⟩, fun fuel2 h2 => ?_⟩
      obtain ⟨j, rfl⟩ : ∃ j, fuel2 = j + 1 := ⟨fuel2 - 1, by omega⟩
      rw [newLoop_succ, hs]
    | panic => exact absurd hs (newStep_no_panic ops ip acc)
    | next ip2 acc2 =>
      have hl := newStep_next ops ip ip2 acc acc2 hs
      obtain ⟨h1, h2⟩ := ih ip2 acc2 (by omega)
      refine ⟨h1, fun fuel2 hf => ?_⟩
      obtain ⟨j, rfl⟩ : ∃ j, fuel2 = j + 1 := ⟨fuel2 - 1, by omega⟩
      rw [newLoop_succ, hs]
      exact h2 j (by omega)

/-- C16: `getOpsPerSecLegacy` and `getOpsPerSecNew` never surface a parse
error: on every input string, the empty one and malformed ones included, they
return, and the error they return is nil. -/
theorem getOpsPerSec_error_nil {F : Type} (ops : Float64Ops F) (s : GoString) :
    (∃ v, getOpsPerSecLegacy ops s = some (v, none)) ∧
    (∃ v, getOpsPerSecNew ops s = some (v, none)) := by
  constructor
  · obtain ⟨v, hv⟩ := (legacyLoop_fuel ops (s.length + 1) (NewInfoParser s) ops.zero
      (by simp [NewInfoParser])).1
    exact ⟨v, by simp [getOpsPerSecLegacy, hv]⟩
  · obtain ⟨v, hv⟩ := (newLoop_fuel ops (s.length + 1) (NewInfoParser s) ops.zero
      (by simp [NewInfoParser])).1
    exact ⟨v, by simp [getOpsPerSecNew, hv]⟩

theorem getOpsPerSecLegacy_skip {F : Type} (ops : Float64Ops F) (x r : GoString)
    (h : legacyStep ops ⟨x ++ r⟩ ops.zero = .next ⟨r⟩ ops.zero) :
    getOpsPerSecLegacy ops (x ++ r) = getOpsPerSecLegacy ops r := by
  have hl := legacyStep_next ops _ _ _ _ h
  simp only at hl
  unfold getOpsPerSecLegacy NewInfoParser
  rw [legacyLoop_succ, h]
  simp only
  rw [(legacyLoop_fuel ops (r.length + 1) ⟨r⟩ ops.zero (by simp)).2 (x ++ r).length hl]

theorem getOpsPerSecNew_skip {F : Type} (ops : Float64Ops F) (x r : GoString)
    (h : newStep ops ⟨x ++ r⟩ ops.zero = .next ⟨r⟩ ops.zero) :
    getOpsPerSecNew ops (x ++ r) = getOpsPerSecNew ops r := by
  have hl := newStep_next ops _ _ _ _ h
  simp only at hl
  unfold getOpsPerSecNew NewInfoParser
  rw [newLoop_succ, h]
  simp only
  rw [(newLoop_fuel ops (r.length + 1) ⟨r⟩ ops.zero (by simp)).2 (x ++ r).length hl]

theorem emptySection_append (ns op r : GoString) :
    emptySection ns op ++ r = '{' :: (ns ++ '}' :: '-' :: (op ++ ':' :: ';' :: r)) := by
  simp [emptySection]

theorem legacyStep_emptySection {F : Type} (ops : Float64Ops F) (ns op r : GoString) (acc : F)
    (hns : '}' ∉ ns) (hop : ':' ∉ op) :
    legacyStep ops ⟨emptySection ns op ++ r⟩ acc = .next ⟨r⟩ acc := by
  rw [emptySection_append, legacyStep]
  simp only [Expect_char, ReadUntil_delim _ _ _ hns, ReadUntil_delim _ _ _ hop,
    PeekAndExpect_char, if_true]

theorem newStep_emptySection {F : Type} (ops : Float64Ops F) (ns op r : GoString) (acc : F)
    (hns : '}' ∉ ns) (hop : ':' ∉ op) :
    newStep ops ⟨emptySection ns op ++ r⟩ acc = .next ⟨r⟩ acc := by
  rw [emptySection_append, newStep]
  simp only [Expect_char, ReadUntil_delim _ _ _ hns, ReadUntil_delim _ _ _ hop,
    PeekAndExpect_char, if_true]

theorem getOpsPerSecLegacy_nil {F : Type} (ops : Float64Ops F) :
    getOpsPerSecLegacy ops [] = some (ops.zero, none) := by
  simp [getOpsPerSecLegacy, NewInfoParser, legacyLoop_nil]

theorem getOpsPerSecNew_nil {F : Type} (ops : Float64Ops F) :
    getOpsPerSecNew ops [] = some (ops.zero, none) := by
  simp [getOpsPerSecNew, NewInfoParser, newLoop_nil]

/-- C14: for both `getOpsPerSecLegacy` and `getOpsPerSecNew`, a section
`{ns}-op:;` that carries no data contributes nothing: with `ns` free of `}` and
`op` free of `:`, parsing the section followed by `r` gives the result of
parsing `r` alone; a response made only of such sections yields `0.0`. -/
theorem empty_section_contributes_nothing {F : Type} (ops : Float64Ops F)
    (ns op r : GoString) (hns : '}' ∉ ns) (hop : ':' ∉ op) :
    getOpsPerSecLegacy ops (emptySection ns op ++ r) = getOpsPerSecLegacy ops r ∧
    getOpsPerSecNew ops (emptySection ns op ++ r) = getOpsPerSecNew ops r ∧
    (∀ secs : List (GoString × GoString), (∀ p ∈ secs, '}' ∉ p.1 ∧ ':' ∉ p.2) →
      getOpsPerSecLegacy ops (secs.map (fun p => emptySection p.1 p.2)).flatten
          = some (ops.zero, none) ∧
      getOpsPerSecNew ops (secs.map (fun p => emptySection p.1 p.2)).flatten
          = some (ops.zero, none)) := by
  refine ⟨getOpsPerSecLegacy_skip ops _ r (legacyStep_emptySection ops ns op r _ hns hop),
    getOpsPerSecNew_skip ops _ r (newStep_emptySection ops ns op r _ hns hop), ?_⟩
  intro secs
  induction secs with
  | nil => intro _; exact ⟨getOpsPerSecLegacy_nil ops, getOpsPerSecNew_nil ops⟩
  | cons p rest ih =>
    intro h
    obtain ⟨h1, h2⟩ := h p (List.mem_cons_self _ _)
    obtain ⟨i1, i2⟩ := ih (fun q hq => h q (List.mem_cons_of_mem _ hq))
    simp only [List.map_cons, List.flatten_cons]
    rw [getOpsPerSecLegacy_skip ops _ _ (legacyStep_emptySection ops p.1 p.2 _ _ h1 h2),
      getOpsPerSecNew_skip ops _ _ (newStep_emptySection ops p.1 p.2 _ _ h1 h2)]
    exact ⟨i1, i2⟩

/-- Witness of C14: the documented response `{test}-write:;` is such a section
and parses to `0.0`. -/
theorem empty_section_contributes_nothing_witness :
    emptySection "test".toList "write".toList = "\x7btest\x7d-write:;".toList ∧
    '}' ∉ "test".toList ∧ ':' ∉ "write".toList ∧
    getOpsPerSecLegacy decimalOps (emptySection "test".toList "write".toList ++ []) =
      getOpsPerSecLegacy decimalOps [] ∧
    getOpsPerSecLegacy decimalOps [] = some (0, none) :=
  ⟨by decide, by decide, by decide,
    (empty_section_contributes_nothing decimalOps "test".toList "write".toList []
      (by decide) (by decide)).1,
    rfl⟩

/-! ## Error sections and structural failures -/

theorem Expect_char_ne (x c : Char) (r : GoString) (h : x ≠ c) :
    InfoParser.Expect ⟨x :: r⟩ [c] = (some ReadError.WrongValue, ⟨r⟩) := by
  simp [InfoParser.Expect, InfoParser.Read, h]

theorem legacyStep_errorSection {F : Type} (ops : Float64Ops F) (t r : GoString) (acc : F)
    (ht : t ≠ []) (hh : t.head? ≠ some '{') (hs : ';' ∉ t) :
    legacyStep ops ⟨t ++ ';' :: r⟩ acc = .next ⟨r⟩ acc := by
  cases t with
  | nil => exact absurd rfl ht
  | cons x t =>
    have hx : x ≠ '{' := fun e => hh (by simp [e])
    have h2 : ';' ∉ t := fun e => hs (List.mem_cons_of_mem _ e)
    rw [List.cons_append, legacyStep]
    simp only [Expect_char_ne x '{' _ hx, ReadUntil_delim _ _ _ h2]

theorem newStep_errorSection {F : Type} (ops : Float64Ops F) (t r : GoString) (acc : F)
    (ht : t ≠ []) (hh : t.head? ≠ some '{') (hs : ';' ∉ t) :
    newStep ops ⟨t ++ ';' :: r⟩ acc = .next ⟨r⟩ acc := by
  cases t with
  | nil => exact absurd rfl ht
  | cons x t =>
    have hx : x ≠ '{' := fun e => hh (by simp [e])
    have h2 : ';' ∉ t := fun e => hs (List.mem_cons_of_mem _ e)
    rw [List.cons_append, newStep]
    simp only [Expect_char_ne x '{' _ hx, ReadUntil_delim _ _ _ h2]

/-- C15: in both `getOpsPerSecLegacy` and `getOpsPerSecNew`, a non-empty text
`t` that does not start with `{` and holds no `;` is skipped together with the
`;` that follows it: parsing `t ++ ";" ++ r` gives the result of parsing `r`
(so for `t = error-no-data-yet-or-back-too-small`). For the empty `t` the byte
consumed by `Expect("{")` is the `;` itself, and the section that follows is
skipped in its place: `;{test}-write:msec,7,1;` yields `0` where
`{test}-write:msec,7,1;` yields `7`, and likewise in the legacy format. -/
theorem error_section_skipped :
    (∀ (F : Type) (ops : Float64Ops F) (t r : GoString),
      t ≠ [] → t.head? ≠ some '{' → ';' ∉ t →
        getOpsPerSecLegacy ops (t ++ ';' :: r) = getOpsPerSecLegacy ops r ∧
        getOpsPerSecNew ops (t ++ ';' :: r) = getOpsPerSecNew ops r) ∧
    getOpsPerSecNew natOps
        ("error-no-data-yet-or-back-too-small".toList ++ ';' ::
          "\x7btest\x7d-write:msec,7,1;".toList) = some (7, none) ∧
    getOpsPerSecNew natOps "\x7btest\x7d-write:msec,7,1;".toList = some (7, none) ∧
    getOpsPerSecNew natOps ([] ++ ';' :: "\x7btest\x7d-write:msec,7,1;".toList)
      = some (0, none) ∧
    getOpsPerSecLegacy natOps "\x7btest\x7d-read:t,ops/sec;u,7,1;".toList = some (7, none) ∧
    getOpsPerSecLegacy natOps ([] ++ ';' :: "\x7btest\x7d-read:t,ops/sec;u,7,1;".toList)
      = some (0, none) := by
  refine ⟨?_, by decide, by decide, by decide, by decide, by decide⟩
  intro F ops t r ht hh hs
  have e : t ++ ';' :: r = (t ++ [';']) ++ r := by simp
  rw [e]
  refine ⟨getOpsPerSecLegacy_skip ops _ r ?_, getOpsPerSecNew_skip ops _ r ?_⟩
  · rw [← e]; exact legacyStep_errorSection ops t r _ ht hh hs
  · rw [← e]; exact newStep_errorSection ops t r _ ht hh hs

theorem getOpsPerSecNew_after_sections {F : Type} (ops : Float64Ops F)
    (secs : List NewSection) (vals : List F) (hwf : ∀ x ∈ secs, x.WellFormed)
    (hval : secs.map (fun x => ops.ParseFloat x.v1) = vals.map some) (rest : GoString)
    (hstop : ∀ acc, newStep ops ⟨rest⟩ acc = .stop) :
    getOpsPerSecNew ops (renderNew secs ++ rest) = some (vals.foldl ops.add ops.zero, none) := by
  unfold getOpsPerSecNew NewInfoParser
  have hlen : secs.length ≤ (renderNew secs ++ rest).length := by
    have := renderNew_length secs
    rw [List.length_append]
    omega
  rw [newLoop_sections ops secs vals hwf hval _ (by omega) rest ops.zero]
  obtain ⟨k, hk⟩ : ∃ k, (renderNew secs ++ rest).length + 1 - secs.length = k + 1 :=
    ⟨(renderNew secs ++ rest).length - secs.length, by omega⟩
  rw [hk, newLoop_succ, hstop]
  rfl

theorem getOpsPerSecLegacy_after_sections {F : Type} (ops : Float64Ops F)
    (secs : List LegacySection) (vals : List F) (hwf : ∀ x ∈ secs, x.WellFormed)
    (hval : secs.map (fun x => ops.ParseFloat x.v1) = vals.map some) (rest : GoString)
    (hstop : ∀ acc, legacyStep ops ⟨rest⟩ acc = .stop) :
    getOpsPerSecLegacy ops (renderLegacy secs ++ rest)
      = some (vals.foldl ops.add ops.zero, none) := by
  unfold getOpsPerSecLegacy NewInfoParser
  have hlen : secs.length ≤ (renderLegacy secs ++ rest).length := by
    have := renderLegacy_length secs
    rw [List.length_append]
    omega
  rw [legacyLoop_sections ops secs vals hwf hval _ (by omega) rest ops.zero]
  obtain ⟨k, hk⟩ : ∃ k, (renderLegacy secs ++ rest).length + 1 - secs.length = k + 1 :=
    ⟨(renderLegacy secs ++ rest).length - secs.length, by omega⟩
  rw [hk, legacyLoop_succ, hstop]
  rfl

theorem ReadUntil_no_delim (u : GoString) (d : Char) (h : d ∉ u) :
    ∃ v, InfoParser.ReadUntil ⟨u⟩ d = ((v, some ReadError.EOF), ⟨[]⟩) :=
  ⟨_, ReadUntil_eof u d h⟩

theorem newStep_unclosed {F : Type} (ops : Float64Ops F) (rest : GoString) (acc : F)
    (h : '}' ∉ rest) : newStep ops ⟨'{' :: rest⟩ acc = .stop := by
  obtain ⟨v, hv⟩ := ReadUntil_no_delim rest '}' h
  rw [newStep]
  simp only [Expect_char, hv]

theorem legacyStep_unclosed {F : Type} (ops : Float64Ops F) (rest : GoString) (acc : F)
    (h : '}' ∉ rest) : legacyStep ops ⟨'{' :: rest⟩ acc = .stop := by
  obtain ⟨v, hv⟩ := ReadUntil_no_delim rest '}' h
  rw [legacyStep]
  simp only [Expect_char, hv]

theorem newStep_not_a_number {F : Type} (ops : Float64Ops F) (x : NewSection)
    (hwf : x.WellFormed) (hval : ops.ParseFloat x.v1 = none) (rest : GoString) (acc : F) :
    newStep ops ⟨x.render ++ rest⟩ acc = .stop := by
  obtain ⟨h1, h2, h3, h4, h7, h8⟩ := hwf
  obtain ⟨tl, htl⟩ := Split_Join_head ',' x.v1 x.vs h7
  have hj : ';' ∉ Join (x.v1 :: x.vs) [','] := not_mem_Join ';' ',' _ (by decide) h8
  obtain ⟨e, he⟩ := PeekAndExpect_field x.unit
    (Join (x.v1 :: x.vs) [','] ++ ';' :: rest) ',' h3 (by decide)
  rw [newRender_append, newStep]
  simp only [Expect_char, ReadUntil_delim _ _ _ h1, ReadUntil_delim _ _ _ h2, he,
    ReadUntil_delim _ _ _ h4, ReadUntil_delim _ _ _ hj, htl, hval]
  simp

theorem legacyStep_not_a_number {F : Type} (ops : Float64Ops F) (x : LegacySection)
    (hwf : x.WellFormed) (hval : ops.ParseFloat x.v1 = none) (rest : GoString) (acc : F) :
    legacyStep ops ⟨x.render ++ rest⟩ acc = .stop := by
  obtain ⟨h1, h2, h3, h4, h5, h6, h7, h8⟩ := hwf
  obtain ⟨tl, htl⟩ := Split_Join_head ',' x.v1 x.vs h7
  have hj : ';' ∉ Join (x.v1 :: x.vs) [','] := not_mem_Join ';' ',' _ (by decide) h8
  obtain ⟨e, he⟩ := PeekAndExpect_field x.ts1
    (x.labels ++ ';' :: (x.ts2 ++ ',' :: (Join (x.v1 :: x.vs) [','] ++ ';' :: rest))) ','
    h3 (by decide)
  rw [legacyRender_append, legacyStep]
  simp only [Expect_char, ReadUntil_delim _ _ _ h1, ReadUntil_delim _ _ _ h2, he,
    ReadUntil_delim _ _ _ h4, ReadUntil_delim _ _ _ h6, ReadUntil_delim _ _ _ h5,
    ReadUntil_delim _ _ _ hj, htl, hval]
  simp

/-- C17: partial sum on structural failure. After a concatenation of
well-formed sections whose first bucket values parse to `vals`, a failing part
followed by any text `Q` leaves the result at the sum of `vals`, so later
sections are not counted. The failing part is either a section whose first
bucket value is not a number, with `Q` arbitrary, or a header `{ns` without its
closing `}`, with `Q` then holding no `}` either (a `}` of `Q` would close the
header). Stated for `getOpsPerSecNew` over new-format sections `P` and for
`getOpsPerSecLegacy` over legacy sections `L`. -/
theorem partial_sum_on_structural_failure {F : Type} (ops : Float64Ops F)
    (P : List NewSection) (vals : List F) (L : List LegacySection) (lvals : List F)
    (hwf : ∀ x ∈ P, x.WellFormed)
    (hval : P.map (fun x => ops.ParseFloat x.v1) = vals.map some)
    (hlwf : ∀ x ∈ L, x.WellFormed)
    (hlval : L.map (fun x => ops.ParseFloat x.v1) = lvals.map some) :
    (∀ ns Q : GoString, '}' ∉ ns → '}' ∉ Q →
      getOpsPerSecNew ops (renderNew P ++ ('{' :: ns ++ Q))
        = some (vals.foldl ops.add ops.zero, none)) ∧
    (∀ x : NewSection, x.WellFormed → ops.ParseFloat x.v1 = none → ∀ Q : GoString,
      getOpsPerSecNew ops (renderNew P ++ (x.render ++ Q))
        = some (vals.foldl ops.add ops.zero, none)) ∧
    (∀ ns Q : GoString, '}' ∉ ns → '}' ∉ Q →
      getOpsPerSecLegacy ops (renderLegacy L ++ ('{' :: ns ++ Q))
        = some (lvals.foldl ops.add ops.zero, none)) ∧
    (∀ x : LegacySection, x.WellFormed → ops.ParseFloat x.v1 = none → ∀ Q : GoString,
      getOpsPerSecLegacy ops (renderLegacy L ++ (x.render ++ Q))
        = some (lvals.foldl ops.add ops.zero, none)) := by
  refine ⟨?_, ?_, ?_, ?_⟩
  · intro ns Q h1 h2
    refine getOpsPerSecNew_after_sections ops P vals hwf hval _ (fun acc => ?_)
    rw [List.cons_append]
    exact newStep_unclosed ops _ acc (by simp [h1, h2])
  · intro x hx hv Q
    exact getOpsPerSecNew_after_sections ops P vals hwf hval _
      (fun acc => newStep_not_a_number ops x hx hv Q acc)
  · intro ns Q h1 h2
    refine getOpsPerSecLegacy_after_sections ops L lvals hlwf hlval _ (fun acc => ?_)
    rw [List.cons_append]
    exact legacyStep_unclosed ops _ acc (by simp [h1, h2])
  · intro x hx hv Q
    exact getOpsPerSecLegacy_after_sections ops L lvals hlwf hlval _
      (fun acc => legacyStep_not_a_number ops x hx hv Q acc)

/-- Witness of C17: in `{test}-write:msec,42,7;{test}-read:msec,n/a;{bar}-write:msec,9;`
the second section has a first bucket that is not a number, and the result is
the `42` of the first section. -/
theorem partial_sum_on_structural_failure_witness :
    renderNew [⟨"test".toList, "write".toList, "msec".toList, "42".toList, ["7".toList]⟩]
        ++ (NewSection.render ⟨"test".toList, "read".toList, "msec".toList, "n/a".toList, []⟩
          ++ "\x7bbar\x7d-write:msec,9;".toList)
      = "\x7btest\x7d-write:msec,42,7;\x7btest\x7d-read:msec,n/a;\x7bbar\x7d-write:msec,9;".toList ∧
    getOpsPerSecNew natOps
      (renderNew [⟨"test".toList, "write".toList, "msec".toList, "42".toList, ["7".toList]⟩]
        ++ (NewSection.render ⟨"test".toList, "read".toList, "msec".toList, "n/a".toList, []⟩
          ++ "\x7bbar\x7d-write:msec,9;".toList))
      = some ([42].foldl natOps.add natOps.zero, none) :=
  ⟨by decide,
   (partial_sum_on_structural_failure natOps
      [⟨"test".toList, "write".toList, "msec".toList, "42".toList, ["7".toList]⟩] [42] [] []
      (by decide) (by decide) (by decide) (by decide)).2.1
      ⟨"test".toList, "read".toList, "msec".toList, "n/a".toList, []⟩ (by decide) (by decide)
      "\x7bbar\x7d-write:msec,9;".toList⟩

/-- Counterexample to C17 as stated: after the header `{ns`, which has no closing
`}`, the text `}-op:u,5;` completes a section, and its `5` is counted although
the sum over the empty prefix is `0`; likewise in the legacy format. -/
theorem unclosed_header_closed_by_rest :
    '}' ∉ "\x7bns".toList ∧
    getOpsPerSecNew natOps (renderNew [] ++ ("\x7bns".toList ++ "\x7d-op:u,5;".toList))
      = some (5, none) ∧
    ([] : List Nat).foldl natOps.add natOps.zero = 0 ∧
    getOpsPerSecLegacy natOps
        (renderLegacy [] ++ ("\x7bns".toList ++ "\x7d-op:t,ops/sec;u,5;".toList))
      = some (5, none) := by
  decide

/-- C18: a last record without its trailing `;` is read by `ReadUntil` up to the
end of the input, and `ReadUntil` drops the last byte of what it read: when the
record has a single bucket value that byte belongs to the counted value, so
`{test}-write:msec,42` yields `4` where `{test}-write:msec,42;` yields `42`,
in both formats. With a second bucket value, or a one-byte value, the first
bucket is counted in full. -/
theorem missing_trailing_delimiter_truncates :
    getOpsPerSecNew natOps "\x7btest\x7d-write:msec,42;".toList = some (42, none) ∧
    getOpsPerSecNew natOps "\x7btest\x7d-write:msec,42".toList = some (4, none) ∧
    getOpsPerSecLegacy natOps "\x7btest\x7d-read:t,ops/sec;u,42;".toList = some (42, none) ∧
    getOpsPerSecLegacy natOps "\x7btest\x7d-read:t,ops/sec;u,42".toList = some (4, none) ∧
    getOpsPerSecNew natOps "\x7btest\x7d-write:msec,42,17".toList = some (42, none) ∧
    getOpsPerSecNew natOps "\x7btest\x7d-write:msec,7".toList = some (7, none) := by
  decide

/-- C19: `ReadUntil(d)` on the unread input `a ++ d ++ b`, where `a` does not
contain `d`, returns `a` with no error and leaves exactly `b` unread; when `d`
is the very next byte it returns the empty text, not an error. -/
theorem ReadUntil_delimiter_present (d : Char) (a b : GoString) (h : d ∉ a) :
    InfoParser.ReadUntil ⟨a ++ d :: b⟩ d = ((a, none), ⟨b⟩) ∧
    InfoParser.ReadUntil ⟨d :: b⟩ d = (([], none), ⟨b⟩) :=
  ⟨ReadUntil_delim a b d h, ReadUntil_delim [] b d (by simp)⟩

/-- Witness of C19: reading up to `;` in `msec,42;rest` and in `;rest`. -/
theorem ReadUntil_delimiter_present_witness :
    ';' ∉ "msec,42".toList ∧
    InfoParser.ReadUntil ⟨"msec,42;rest".toList⟩ ';' = (("msec,42".toList, none), ⟨"rest".toList⟩) ∧
    InfoParser.ReadUntil ⟨";rest".toList⟩ ';' = (([], none), ⟨"rest".toList⟩) :=
  ⟨by decide, ReadUntil_delimiter_present ';' "msec,42".toList "rest".toList (by decide)⟩

/-- C20: `ReadUntil(d)` on an unread input `a` that does not contain `d` reports
the end of input and leaves nothing unread, but the text it returns is `a` only
when `a` has at most one byte: a longer `a` is returned without its last byte,
so `4234.9` is returned as `4234.`. -/
theorem ReadUntil_end_of_input :
    (∀ (d : Char) (a : GoString), d ∉ a →
      InfoParser.ReadUntil ⟨a⟩ d
        = ((if a.length ≤ 1 then a else a.take (a.length - 1), some ReadError.EOF), ⟨[]⟩)) ∧
    InfoParser.ReadUntil ⟨"4234.9".toList⟩ ';'
      = (("4234.".toList, some ReadError.EOF), ⟨[]⟩) ∧
    InfoParser.ReadUntil ⟨"7".toList⟩ ';' = (("7".toList, some ReadError.EOF), ⟨[]⟩) := by
  refine ⟨fun d a h => ReadUntil_eof a d h, by decide, by decide⟩

/-! ## `parseStats`: totality and round trip -/

theorem GoMap.set_length (m : GoMap) (k v : GoString) : (m.set k v).length ≤ m.length + 1 := by
  unfold GoMap.set
  have := List.length_filter_le (fun e : GoString × GoString => decide (e.1 ≠ k)) m
  simp only [List.length_cons]
  omega

theorem GoMap.set_keys_nodup (m : GoMap) (k v : GoString) (h : (m.map Prod.fst).Nodup) :
    ((m.set k v).map Prod.fst).Nodup := by
  unfold GoMap.set
  rw [List.map_cons, List.nodup_cons]
  refine ⟨?_, ?_⟩
  · intro hk
    rw [List.mem_map] at hk
    obtain ⟨e, he, hek⟩ := hk
    rw [List.mem_filter] at he
    simpa [hek] using he.2
  · exact (List.filter_sublist m).map Prod.fst |>.nodup h

theorem parseStatsLoop_length (recs : List GoString) (stats : GoMap) :
    (parseStatsLoop recs stats).length
      ≤ stats.length + (recs.filter (fun r => decide ('=' ∈ r))).length := by
  induction recs generalizing stats with
  | nil => simp [parseStatsLoop]
  | cons r rest ih =>
    rw [parseStatsLoop_step]
    by_cases h : '=' ∈ r
    · have h1 := ih (stats.set (recordKey r) (recordValue r))
      have h2 := GoMap.set_length stats (recordKey r) (recordValue r)
      simp only [h, if_true, List.filter_cons, decide_True, List.length_cons] at h1 ⊢
      omega
    · have h1 := ih stats
      simp only [h, if_false, List.filter_cons, decide_False] at h1 ⊢
      simpa using h1

theorem parseStatsLoop_keys_nodup (recs : List GoString) (stats : GoMap)
    (h : (stats.map Prod.fst).Nodup) : ((parseStatsLoop recs stats).map Prod.fst).Nodup := by
  induction recs generalizing stats with
  | nil => simpa [parseStatsLoop] using h
  | cons r rest ih =>
    rw [parseStatsLoop_step]
    by_cases h1 : '=' ∈ r
    · simp only [h1, if_true]
      exact ih _ (GoMap.set_keys_nodup stats _ _ h)
    · simp only [h1, if_false]
      exact ih _ h

/-- C12: `parseStats` is total: for every text and every separator it returns a
map (an association list with pairwise distinct keys), and the map has at most
as many entries as the text, split on the separator, has records containing
`=`. -/
theorem parseStats_total (text sep : GoString) :
    ∃ m : GoMap, parseStats text sep = m ∧ (m.map Prod.fst).Nodup ∧
      m.length ≤ ((Split text sep).filter (fun r => decide ('=' ∈ r))).length := by
  refine ⟨_, rfl, ?_, ?_⟩
  · exact parseStatsLoop_keys_nodup _ _ (by simp)
  · have := parseStatsLoop_length (Split text sep) []
    simpa [parseStats] using this

theorem Split_char_not_mem (d : Char) (a : GoString) (h : d ∉ a) : Split a [d] = [a] := by
  have := splitScan_char_append d a [] [] h
  simpa [Split, splitScan] using this

theorem Split_Join_char (d : Char) (recs : List GoString) (hne : recs ≠ [])
    (h : ∀ r ∈ recs, d ∉ r) : Split (Join recs [d]) [d] = recs := by
  induction recs with
  | nil => exact absurd rfl hne
  | cons r rest ih =>
    have hr : d ∉ r := h r (List.mem_cons_self _ _)
    cases rest with
    | nil => simpa [Join, List.intercalate] using Split_char_not_mem d r hr
    | cons r2 rest =>
      have h2 := ih (by simp) (fun x hx => h x (List.mem_cons_of_mem _ hx))
      have e : Join (r :: r2 :: rest) [d] = r ++ d :: Join (r2 :: rest) [d] := by
        simp [Join, List.intercalate]
      rw [e, Split_char_append, Split_char_not_mem d r hr, h2]
      rfl

theorem recordKey_render (k v : GoString) (h : '=' ∉ k) : recordKey (k ++ '=' :: v) = k := by
  have := span_ne_append k v '=' h
  rw [span_ne_eq] at this
  exact congrArg Prod.fst this

theorem recordValue_render (k v : GoString) (h : '=' ∉ k) : recordValue (k ++ '=' :: v) = v := by
  have := span_ne_append k v '=' h
  rw [span_ne_eq] at this
  have h2 : (k ++ '=' :: v).dropWhile (fun x => x != '=') = '=' :: v := congrArg Prod.snd this
  unfold recordValue
  rw [h2]
  rfl

theorem GoMap.set_fresh (m : GoMap) (k v : GoString) (h : k ∉ m.map Prod.fst) :
    m.set k v = (k, v) :: m := by
  unfold GoMap.set
  congr 1
  rw [List.filter_eq_self]
  intro e he
  have : e.1 ≠ k := fun hk => h (hk ▸ List.mem_map_of_mem Prod.fst he)
  simpa using this

theorem parseStatsLoop_pairs (pairs : List (GoString × GoString)) (stats : GoMap)
    (hkey : ∀ p ∈ pairs, '=' ∉ p.1)
    (hnd : (pairs.map Prod.fst ++ stats.map Prod.fst).Nodup) :
    parseStatsLoop (pairs.map (fun p => p.1 ++ '=' :: p.2)) stats = pairs.reverse ++ stats := by
  induction pairs generalizing stats with
  | nil => simp [parseStatsLoop]
  | cons p rest ih =>
    obtain ⟨k, v⟩ := p
    have hk : '=' ∉ k := hkey (k, v) (List.mem_cons_self _ _)
    simp only [List.map_cons, List.cons_append, List.nodup_cons, List.mem_append, not_or] at hnd
    obtain ⟨⟨hk1, hk2⟩, hnd2⟩ := hnd
    rw [List.map_cons, parseStatsLoop_step]
    have hmem : '=' ∈ k ++ '=' :: v := by simp
    simp only [hmem, if_true]
    rw [recordKey_render k v hk, recordValue_render k v hk, GoMap.set_fresh stats k v hk2]
    rw [ih _ (fun q hq => hkey q (List.mem_cons_of_mem _ hq))]
    · simp
    · rw [List.map_cons]
      refine List.Nodup.append ?_ ?_ ?_
      · exact (List.nodup_append.1 hnd2).1
      · rw [List.nodup_cons]
        exact ⟨hk2, (List.nodup_append.1 hnd2).2.1⟩
      · intro a ha1 ha2
        rcases List.mem_cons.1 ha2 with e | e
        · have e2 : a = k := e
          exact hk1 (e2 ▸ ha1)
        · exact (List.nodup_append.1 hnd2).2.2 ha1 e

theorem GoMap.lookup_eq_some_iff (m : GoMap) (h : (m.map Prod.fst).Nodup) (k v : GoString) :
    m.lookup k = some v ↔ (k, v) ∈ m := by
  induction m with
  | nil => simp [GoMap.lookup]
  | cons e rest ih =>
    obtain ⟨k1, v1⟩ := e
    rw [List.map_cons, List.nodup_cons] at h
    by_cases hk : k1 = k
    · subst hk
      have hnot : ∀ w, (k1, w) ∉ rest := fun w hw =>
        h.1 (List.mem_map.2 ⟨(k1, w), hw, rfl⟩)
      simp only [GoMap.lookup, if_true, Option.some.injEq, List.mem_cons, Prod.mk.injEq,
        true_and, hnot, or_false]
      exact eq_comm
    · have hk2 : ¬ k = k1 := fun e => hk e.symm
      simp only [GoMap.lookup, hk, if_false, List.mem_cons, Prod.mk.injEq, hk2, false_and,
        false_or]
      exact ih h.2

/-- C13: round trip. For a one-character separator other than `=` and pairs
with pairwise distinct keys, no key containing `=` or the separator and no
value containing the separator, `parseStats` of the pairs rendered as `k=v`
and joined by the separator holds exactly the pairs (the last one first in the
association list): looking up `k` gives `v` exactly when `(k, v)` is one of
the pairs. -/
theorem parseStats_round_trip (sep : Char) (pairs : List (GoString × GoString))
    (hsep : sep ≠ '=') (hnd : (pairs.map Prod.fst).Nodup)
    (hkey : ∀ p ∈ pairs, '=' ∉ p.1 ∧ sep ∉ p.1) (hval : ∀ p ∈ pairs, sep ∉ p.2) :
    parseStats (Join (pairs.map (fun p => p.1 ++ '=' :: p.2)) [sep]) [sep] = pairs.reverse ∧
    ∀ k v : GoString,
      (parseStats (Join (pairs.map (fun p => p.1 ++ '=' :: p.2)) [sep]) [sep]).lookup k = some v
        ↔ (k, v) ∈ pairs := by
  have main : parseStats (Join (pairs.map (fun p => p.1 ++ '=' :: p.2)) [sep]) [sep]
      = pairs.reverse := by
    cases hp : pairs with
    | nil =>
      have e : Split [] [sep] = [[]] := Split_char_not_mem sep [] (by simp)
      have e2 : Join ([] : List GoString) [sep] = [] := rfl
      unfold parseStats
      rw [List.map_nil, e2, e, parseStatsLoop_step]
      simp [parseStatsLoop]
    | cons p rest =>
      rw [← hp]
      unfold parseStats
      rw [Split_Join_char sep _ (by simp [hp])]
      · have := parseStatsLoop_pairs pairs [] (fun q hq => (hkey q hq).1) (by simpa using hnd)
        simpa using this
      · intro r hr
        rw [List.mem_map] at hr
        obtain ⟨q, hq, rfl⟩ := hr
        have h1 := (hkey q hq).2
        have h2 := hval q hq
        simp [h1, h2, hsep]
  refine ⟨main, fun k v => ?_⟩
  rw [main, GoMap.lookup_eq_some_iff _ (by simpa [List.map_reverse] using hnd)]
  simp

/-- Witness of C13: `parseStats("a=1=2;b=3", ";")` is the map `a ↦ "1=2"`,
`b ↦ "3"`. -/
theorem parseStats_round_trip_witness :
    Join ([("a".toList, "1=2".toList), ("b".toList, "3".toList)].map
        (fun p => p.1 ++ '=' :: p.2)) [';'] = "a=1=2;b=3".toList ∧
    parseStats "a=1=2;b=3".toList ";".toList
      = [("b".toList, "3".toList), ("a".toList, "1=2".toList)] ∧
    (parseStats "a=1=2;b=3".toList ";".toList).lookup "a".toList = some "1=2".toList ∧
    (parseStats "a=1=2;b=3".toList ";".toList).lookup "b".toList = some "3".toList :=
  ⟨by decide,
   (parseStats_round_trip ';' [("a".toList, "1=2".toList), ("b".toList, "3".toList)]
      (by decide) (by decide) (by decide) (by decide)).1,
   by decide, by decide⟩

/-! ## The end-to-end scenario -/

/-- C11: end-to-end happy path. In the scenario `happyPath` (three nodes, all
reporting stable; the local node, at any position `i` of the listing, reports
`pending_quiesce=true` on the second poll; `recluster:` succeeds on every node;
the guard sees `pending_quiesce=false` on a peer; `effective_is_quiesced` is
true, the throughput zero and the proxy tally 0 on the first look),
`performPreStopOp` returns as soon as its loops may run twice, and its requests
are exactly the documented sequence with no loop repeated:
`cluster-stable` once per node, `quiesce:` once to the local node, two polls of
`pending_quiesce`, `recluster:` once per node, the guard up to the first peer,
one look at `effective_is_quiesced`, `build` and `latencies:` once each to the
local node, and one proxy sample; each loop lists the nodes once. -/
theorem happy_path_end_to_end (n : Nat) (i : Fin 3) :
    (performPreStopOp (happyPath i) (n + 2) ⟨0, []⟩).finished = true ∧
    requestsOf (performPreStopOp (happyPath i) (n + 2) ⟨0, []⟩).session.trace =
      (happyListing i).map (fun node => (Phase.WaitStable, node.host, stableCommand)) ++
      [(Phase.QuiesceSelf, selfNode.host, quiesceCommand)] ++
      metricRequests .WaitPendingQuiesce selfNode ++
      metricRequests .WaitPendingQuiesce selfNode ++
      (happyListing i).map (fun node => (Phase.Recluster, node.host, reclusterCommand)) ++
      (((happyListing i).take (if i.val = 0 then 2 else 1)).map
        (metricRequests .IdempotencyGuard)).flatten ++
      metricRequests .VerifyEffectiveQuiesce selfNode ++
      [(Phase.VerifyZeroThroughput, selfNode.host, buildCommand),
       (Phase.VerifyZeroThroughput, selfNode.host, "latencies:".toList)] ++
      metricRequests .VerifyProxyDrain selfNode ∧
    listingPhases (performPreStopOp (happyPath i) (n + 2) ⟨0, []⟩).session.trace =
      [.WaitStable, .QuiesceSelf, .Recluster, .IdempotencyGuard, .VerifyEffectiveQuiesce,
       .VerifyZeroThroughput, .VerifyProxyDrain] ∧
    commandTargets stableCommand (performPreStopOp (happyPath i) (n + 2) ⟨0, []⟩).session.trace
      = happyListing i ∧
    commandTargets quiesceCommand (performPreStopOp (happyPath i) (n + 2) ⟨0, []⟩).session.trace
      = [selfNode] ∧
    commandTargets reclusterCommand
      (performPreStopOp (happyPath i) (n + 2) ⟨0, []⟩).session.trace = happyListing i ∧
    commandTargets buildCommand (performPreStopOp (happyPath i) (n + 2) ⟨0, []⟩).session.trace
      = [selfNode] ∧
    commandTargets "latencies:".toList
      (performPreStopOp (happyPath i) (n + 2) ⟨0, []⟩).session.trace = [selfNode] ∧
    commandTargets "latency:".toList
      (performPreStopOp (happyPath i) (n + 2) ⟨0, []⟩).session.trace = [] ∧
    metricPolls .WaitPendingQuiesce "pending_quiesce".toList
      (performPreStopOp (happyPath i) (n + 2) ⟨0, []⟩).session.trace
      = [("localhost".toList, "false".toList), ("localhost".toList, "true".toList)] ∧
    (metricPolls .IdempotencyGuard "pending_quiesce".toList
      (performPreStopOp (happyPath i) (n + 2) ⟨0, []⟩).session.trace).getLast?
      = some ("10.0.0.7".toList, "false".toList) ∧
    metricPolls .VerifyEffectiveQuiesce "effective_is_quiesced".toList
      (performPreStopOp (happyPath i) (n + 2) ⟨0, []⟩).session.trace
      = [("localhost".toList, "true".toList)] := by
  fin_cases i
  · refine ⟨rfl, rfl, rfl, rfl, rfl, rfl, rfl, rfl, rfl, rfl, rfl, rfl⟩
  · refine ⟨rfl, rfl, rfl, rfl, rfl, rfl, rfl, rfl, rfl, rfl, rfl, rfl⟩
  · refine ⟨rfl, rfl, rfl, rfl, rfl, rfl, rfl, rfl, rfl, rfl, rfl, rfl⟩

/-! ## Termination of the parsing loops, the lookahead -/

theorem loopIterations_bound {F : Type} (step : InfoParser → F → LoopStep F)
    (hdec : ∀ ip ip2 acc acc2, step ip acc = .next ip2 acc2 →
      ip2.unread.length < ip.unread.length)
    (hnp : ∀ ip acc, step ip acc ≠ .panic) (n : Nat) :
    ∀ (ip : InfoParser) (acc : F), ip.unread.length ≤ n →
      ∃ k, 1 ≤ k ∧ k ≤ ip.unread.length + 1 ∧
        ∀ fuel, k ≤ fuel → loopIterations step fuel ip acc = some k := by
  induction n with
  | zero =>
    intro ip acc hlen
    cases hs : step ip acc with
    | stop =>
      refine ⟨1, le_refl _, by omega, fun fuel hf => ?_⟩
      obtain ⟨j, rfl⟩ : ∃ j, fuel = j + 1 := ⟨fuel - 1, by omega⟩
      simp [loopIterations, hs]
    | panic => exact absurd hs (hnp ip acc)
    | next ip2 acc2 =>
      have := hdec ip ip2 acc acc2 hs
      omega
  | succ n ih =>
    intro ip acc hlen
    cases hs : step ip acc with
    | stop =>
      refine ⟨1, le_refl _, by omega, fun fuel hf => ?_⟩
      obtain ⟨j, rfl⟩ : ∃ j, fuel = j + 1 := ⟨fuel - 1, by omega⟩
      simp [loopIterations, hs]
    | panic => exact absurd hs (hnp ip acc)
    | next ip2 acc2 =>
      have hd := hdec ip ip2 acc acc2 hs
      obtain ⟨k, hk1, hk2, hk3⟩ := ih ip2 acc2 (by omega)
      refine ⟨k + 1, by omega, by omega, fun fuel hf => ?_⟩
      obtain ⟨j, rfl⟩ : ∃ j, fuel = j + 1 := ⟨fuel - 1, by omega⟩
      simp [loopIterations, hs, hk3 j (by omega)]

theorem legacyLoop_isSome_iff {F : Type} (ops : Float64Ops F) (fuel : Nat) :
    ∀ (ip : InfoParser) (acc : F),
      (legacyLoop ops fuel ip acc).isSome = (loopIterations (legacyStep ops) fuel ip acc).isSome := by
  induction fuel with
  | zero => intro ip acc; simp [legacyLoop, loopIterations]
  | succ k ih =>
    intro ip acc
    rw [legacyLoop_succ]
    cases hs : legacyStep ops ip acc with
    | stop => simp [loopIterations, hs]
    | panic => simp [loopIterations, hs]
    | next ip2 acc2 => simp [loopIterations, hs, ih ip2 acc2]

theorem newLoop_isSome_iff {F : Type} (ops : Float64Ops F) (fuel : Nat) :
    ∀ (ip : InfoParser) (acc : F),
      (newLoop ops fuel ip acc).isSome = (loopIterations (newStep ops) fuel ip acc).isSome := by
  induction fuel with
  | zero => intro ip acc; simp [newLoop, loopIterations]
  | succ k ih =>
    intro ip acc
    rw [newLoop_succ]
    cases hs : newStep ops ip acc with
    | stop => simp [loopIterations, hs]
    | panic => simp [loopIterations, hs]
    | next ip2 acc2 => simp [loopIterations, hs, ih ip2 acc2]

/-- C28: `getOpsPerSecLegacy` and `getOpsPerSecNew` terminate on every input
string. An iteration of either loop that does not break leaves strictly fewer
unread bytes, so on the input `s` the loop leaves by `break` after some number
`k ≤ len(s) + 1` of iterations, whatever larger bound is put on it. -/
theorem getOpsPerSec_terminates {F : Type} (ops : Float64Ops F) :
    (∀ (ip ip2 : InfoParser) (acc acc2 : F), legacyStep ops ip acc = .next ip2 acc2 →
      ip2.unread.length < ip.unread.length) ∧
    (∀ (ip ip2 : InfoParser) (acc acc2 : F), newStep ops ip acc = .next ip2 acc2 →
      ip2.unread.length < ip.unread.length) ∧
    (∀ s : GoString, ∃ k, k ≤ s.length + 1 ∧ ∀ fuel, k ≤ fuel →
      loopIterations (legacyStep ops) fuel (NewInfoParser s) ops.zero = some k ∧
      (legacyLoop ops fuel (NewInfoParser s) ops.zero).isSome = true) ∧
    (∀ s : GoString, ∃ k, k ≤ s.length + 1 ∧ ∀ fuel, k ≤ fuel →
      loopIterations (newStep ops) fuel (NewInfoParser s) ops.zero = some k ∧
      (newLoop ops fuel (NewInfoParser s) ops.zero).isSome = true) := by
  refine ⟨legacyStep_next ops, newStep_next ops, fun s => ?_, fun s => ?_⟩
  · obtain ⟨k, _, hk2, hk3⟩ := loopIterations_bound (legacyStep ops) (legacyStep_next ops)
      (legacyStep_no_panic ops) s.length (NewInfoParser s) ops.zero (le_refl _)
    refine ⟨k, hk2, fun fuel hf => ⟨hk3 fuel hf, ?_⟩⟩
    rw [legacyLoop_isSome_iff, hk3 fuel hf]
    rfl
  · obtain ⟨k, _, hk2, hk3⟩ := loopIterations_bound (newStep ops) (newStep_next ops)
      (newStep_no_panic ops) s.length (NewInfoParser s) ops.zero (le_refl _)
    refine ⟨k, hk2, fun fuel hf => ⟨hk3 fuel hf, ?_⟩⟩
    rw [newLoop_isSome_iff, hk3 fuel hf]
    rfl

/-- C21: `PeekAndExpect` is a lookahead that consumes nothing: the input left
unread is the one before the call, match or not. It returns nil exactly when
the literal has at most 4096 bytes and the unread input starts with it;
otherwise it returns `io.EOF` when the literal has at most 4096 bytes and fewer
bytes remain, `bufio.ErrBufferFull` when the literal is longer than 4096 bytes,
and a wrong-value error when enough bytes remain and they differ. -/
theorem PeekAndExpect_contract (ip : InfoParser) (s : GoString) :
    (ip.PeekAndExpect s).2 = ip ∧
    ((ip.PeekAndExpect s).1 = none ↔
      s.length ≤ defaultBufSize ∧ ip.unread.take s.length = s) ∧
    ((ip.PeekAndExpect s).1 = some ReadError.EOF ↔
      s.length ≤ defaultBufSize ∧ ip.unread.length < s.length) ∧
    ((ip.PeekAndExpect s).1 = some ReadError.BufferFull ↔ defaultBufSize < s.length) ∧
    ((ip.PeekAndExpect s).1 = some ReadError.WrongValue ↔
      s.length ≤ defaultBufSize ∧ s.length ≤ ip.unread.length ∧
        ip.unread.take s.length ≠ s) := by
  unfold InfoParser.PeekAndExpect InfoParser.Peek
  by_cases h1 : defaultBufSize < s.length
  · simp [h1]
  · by_cases h2 : ip.unread.length < s.length
    · have h3 : ip.unread.take s.length ≠ s := by
        intro e
        have := congrArg List.length e
        simp at this
        omega
      simp [h1, h2, h3]
      omega
    · by_cases h3 : ip.unread.take s.length = s
      · simp [h1, h2, h3]
        omega
      · simp [h1, h2, h3]
        omega

theorem PeekAndExpect_long_literal (ip : InfoParser) (s : GoString)
    (h : defaultBufSize < s.length) :
    ip.PeekAndExpect s = (some ReadError.BufferFull, ip) := by
  simp [InfoParser.PeekAndExpect, InfoParser.Peek, h]

/-- Counterexample to C21 as stated: with seven bytes unread, `PeekAndExpect(";")`
returns an error because the next byte is not `;`; with 5000 bytes unread, a
literal of 4097 bytes gets `bufio.ErrBufferFull` although the input starts
with it. In neither case do fewer bytes remain than the literal has. -/
theorem PeekAndExpect_fails_with_enough_input :
    InfoParser.PeekAndExpect ⟨"msec,1;".toList⟩ ";".toList
      = (some ReadError.WrongValue, ⟨"msec,1;".toList⟩) ∧
    ¬ ("msec,1;".toList.length < ";".toList.length) ∧
    InfoParser.PeekAndExpect ⟨List.replicate 5000 ';'⟩ (List.replicate 4097 ';')
      = (some ReadError.BufferFull, ⟨List.replicate 5000 ';'⟩) ∧
    ¬ ((List.replicate 5000 ';').length < (List.replicate 4097 ';').length) := by
  refine ⟨by decide, by decide, ?_, ?_⟩
  · apply PeekAndExpect_long_literal
    rw [List.length_replicate]
    decide
  · rw [List.length_replicate, List.length_replicate]
    decide

/-! ## Community drain, post-start and liveness operations -/

theorem communityPass_eq (c : Cluster σ) (l : List Node) (s : Session σ) :
    communityPass c l s = stablePass c .WaitStable l s := by
  induction l generalizing s with
  | nil => rfl
  | cons n rest ih =>
    simp only [communityPass, stablePass, stableCommand, unstableCluster, ih]

theorem performPreStopOpCommunity_eq (c : Cluster σ) (fuel : Nat) (s : Session σ) :
    performPreStopOpCommunity c fuel s = stableLoop c .WaitStable fuel s := by
  induction fuel generalizing s with
  | zero => rfl
  | succ k ih =>
    simp only [performPreStopOpCommunity, stableLoop, communityPass_eq, ih]

/-- C22: the community drain is the cluster-stable check alone. On every
cluster and from every state, `performPreStopOpCommunity` makes the calls and
the retry decisions of the `WaitStable` loop of `performPreStopOp` and ends as
that loop ends: `performPreStopOp` is the community drain followed, when it
completes, by the rest of the drain from the session it completed in. Every
request it sends is `cluster-stable:ignore-migrations=no;`. -/
theorem community_drain_is_waitStable {F : Type} (cfg : Setup σ F) (fuel : Nat)
    (s : Session σ) :
    performPreStopOpCommunity cfg.cluster fuel s = stableLoop cfg.cluster .WaitStable fuel s ∧
    performPreStopOp cfg fuel s =
      (performPreStopOpCommunity cfg.cluster fuel s).andThen
        (fun _ s1 => drainFromQuiesce cfg fuel s1) ∧
    Grows (fun e => e.phase = .WaitStable ∧ ∀ cmd, e.command = some cmd → cmd = stableCommand)
      s.trace (performPreStopOpCommunity cfg.cluster fuel s).session.trace := by
  refine ⟨performPreStopOpCommunity_eq _ _ _, ?_, ?_⟩
  · rw [performPreStopOpCommunity_eq]
    rfl
  · rw [performPreStopOpCommunity_eq]
    apply stableLoop_grows
    · intro n r
      exact ⟨rfl, fun cmd h => by simpa [Event.command] using h.symm⟩
    · intro l
      exact ⟨rfl, fun cmd h => by simp [Event.command] at h⟩

theorem postStartLoop_succ (c : AdminClient σ) (n : Nat) (w : σ)
    (calls : List (Option GoString)) :
    postStartLoop c (n + 1) w calls =
      if Retried (c.CreateUser w).1 then
        postStartLoop c n (c.CreateUser w).2 (calls ++ [(c.CreateUser w).1])
      else ((c.CreateUser w).2, calls ++ [(c.CreateUser w).1]) := by
  rw [postStartLoop]
  rcases c.CreateUser w with ⟨r, w1⟩
  cases r with
  | none => simp [Retried]
  | some msg =>
    by_cases hm : msg = "User already exists".toList
    · simp [Retried, hm]
    · simp [Retried, hm]

/-- C24: `performPostStartOp` calls `CreateUser` at most 3 times. The calls it
makes are the first call, then the second if the first failed with a text
other than `User already exists`, then the third if the second did so too:
every call but the last is such a failure, and when fewer than 3 calls were
made the last one succeeded or reported `User already exists`. After a third
failure it returns. -/
theorem performPostStartOp_contract (c : AdminClient σ) (w : σ) :
    (performPostStartOp c w).2 =
      (if ¬ Retried (c.CreateUser w).1 then [(c.CreateUser w).1]
       else if ¬ Retried (c.CreateUser (c.CreateUser w).2).1 then
         [(c.CreateUser w).1, (c.CreateUser (c.CreateUser w).2).1]
       else [(c.CreateUser w).1, (c.CreateUser (c.CreateUser w).2).1,
         (c.CreateUser (c.CreateUser (c.CreateUser w).2).2).1]) ∧
    1 ≤ (performPostStartOp c w).2.length ∧ (performPostStartOp c w).2.length ≤ 3 ∧
    (∀ r ∈ (performPostStartOp c w).2.dropLast, Retried r) ∧
    ((performPostStartOp c w).2.length < 3 →
      ∀ r, (performPostStartOp c w).2.getLast? = some r → ¬ Retried r) := by
  have main : (performPostStartOp c w).2 =
      (if ¬ Retried (c.CreateUser w).1 then [(c.CreateUser w).1]
       else if ¬ Retried (c.CreateUser (c.CreateUser w).2).1 then
         [(c.CreateUser w).1, (c.CreateUser (c.CreateUser w).2).1]
       else [(c.CreateUser w).1, (c.CreateUser (c.CreateUser w).2).1,
         (c.CreateUser (c.CreateUser (c.CreateUser w).2).2).1]) := by
    unfold performPostStartOp
    rw [postStartLoop_succ]
    by_cases h1 : Retried (c.CreateUser w).1
    · rw [if_pos h1, postStartLoop_succ]
      by_cases h2 : Retried (c.CreateUser (c.CreateUser w).2).1
      · rw [if_pos h2, postStartLoop_succ]
        by_cases h3 : Retried (c.CreateUser (c.CreateUser (c.CreateUser w).2).2).1
        · simp [h1, h2, h3, postStartLoop]
        · simp [h1, h2, h3]
      · simp [h1, h2]
    · simp [h1]
  refine ⟨main, ?_⟩
  rw [main]
  by_cases h1 : Retried (c.CreateUser w).1
  · by_cases h2 : Retried (c.CreateUser (c.CreateUser w).2).1
    · simp [h1, h2]
    · simp [h1, h2]
  · simp [h1]

theorem livenessLoop_connected (t : ProbeTarget σ) (n : Nat) (w : σ) (calls : List ProbeCall) :
    ((livenessLoop t n true w calls).1 = .fatal ∧
      (livenessLoop t n true w calls).2.2 = calls ++ List.replicate n (.info .failure)) ∨
    (∃ b out, b < n ∧ (livenessLoop t n true w calls).1 = .success ∧
      (livenessLoop t n true w calls).2.2 =
        calls ++ (List.replicate b (.info .failure) ++ [.info (.response out)])) ∨
    ∃ b, b < n ∧ (livenessLoop t n true w calls).1 = .panic ∧
      (livenessLoop t n true w calls).2.2 =
        calls ++ (List.replicate b (.info .failure) ++ [.info .panic]) := by
  induction n generalizing w calls with
  | zero => exact Or.inl ⟨rfl, by simp [livenessLoop]⟩
  | succ n ih =>
    rw [livenessLoop]
    simp only [Bool.true_eq_false, if_false]
    rcases t.RequestInfo w buildCommand with ⟨r, w1⟩
    cases r with
    | failure =>
      dsimp only
      rcases ih w1 (calls ++ [.info .failure]) with
        ⟨h1, h2⟩ | ⟨b, out, h1, h2, h3⟩ | ⟨b, h1, h2, h3⟩
      · exact Or.inl ⟨h1, by rw [h2]; simp [List.replicate_succ]⟩
      · exact Or.inr (Or.inl ⟨b + 1, out, by omega, h2,
          by rw [h3]; simp [List.replicate_succ]⟩)
      · exact Or.inr (Or.inr ⟨b + 1, by omega, h2, by rw [h3]; simp [List.replicate_succ]⟩)
    | panic => exact Or.inr (Or.inr ⟨0, by omega, rfl, by simp⟩)
    | response out => exact Or.inr (Or.inl ⟨0, out, by omega, rfl, by simp⟩)

theorem livenessLoop_unconnected (t : ProbeTarget σ) (n : Nat) (w : σ)
    (calls : List ProbeCall) :
    ((livenessLoop t n false w calls).1 = .fatal ∧
      (livenessLoop t n false w calls).2.2 = calls ++ List.replicate n (.connect false)) ∨
    (∃ a b, a + b = n ∧ 1 ≤ b ∧ (livenessLoop t n false w calls).1 = .fatal ∧
      (livenessLoop t n false w calls).2.2 =
        calls ++ (List.replicate a (.connect false) ++
          .connect true :: List.replicate b (.info .failure))) ∨
    (∃ a b out, a + b < n ∧ (livenessLoop t n false w calls).1 = .success ∧
      (livenessLoop t n false w calls).2.2 =
        calls ++ (List.replicate a (.connect false) ++
          .connect true :: (List.replicate b (.info .failure) ++ [.info (.response out)]))) ∨
    ∃ a b, a + b < n ∧ (livenessLoop t n false w calls).1 = .panic ∧
      (livenessLoop t n false w calls).2.2 =
        calls ++ (List.replicate a (.connect false) ++
          .connect true :: (List.replicate b (.info .failure) ++ [.info .panic])) := by
  induction n generalizing w calls with
  | zero => exact Or.inl ⟨rfl, by simp [livenessLoop]⟩
  | succ n ih =>
    rw [livenessLoop]
    simp only [if_true]
    rcases t.initAerospikeConnection w with ⟨ok, w1⟩
    cases ok with
    | false =>
      dsimp only
      rcases ih w1 (calls ++ [.connect false]) with
        ⟨h1, h2⟩ | ⟨a, b, h0, hb, h1, h2⟩ | ⟨a, b, out, h0, h1, h2⟩ | ⟨a, b, h0, h1, h2⟩
      · exact Or.inl ⟨h1, by rw [h2]; simp [List.replicate_succ]⟩
      · exact Or.inr (Or.inl ⟨a + 1, b, by omega, hb, h1,
          by rw [h2]; simp [List.replicate_succ]⟩)
      · exact Or.inr (Or.inr (Or.inl ⟨a + 1, b, out, by omega, h1,
          by rw [h2]; simp [List.replicate_succ]⟩))
      · exact Or.inr (Or.inr (Or.inr ⟨a + 1, b, by omega, h1,
          by rw [h2]; simp [List.replicate_succ]⟩))
    | true =>
      dsimp only
      rcases t.RequestInfo w1 buildCommand with ⟨r, w2⟩
      cases r with
      | failure =>
        dsimp only
        rcases livenessLoop_connected t n w2 (calls ++ [.connect true, .info .failure]) with
          ⟨h1, h2⟩ | ⟨b, out, h0, h1, h2⟩ | ⟨b, h0, h1, h2⟩
        · exact Or.inr (Or.inl ⟨0, n + 1, by omega, by omega, h1,
            by rw [h2]; simp [List.replicate_succ]⟩)
        · exact Or.inr (Or.inr (Or.inl ⟨0, b + 1, out, by omega, h1,
            by rw [h2]; simp [List.replicate_succ]⟩))
        · exact Or.inr (Or.inr (Or.inr ⟨0, b + 1, by omega, h1,
            by rw [h2]; simp [List.replicate_succ]⟩))
      | panic => exact Or.inr (Or.inr (Or.inr ⟨0, 0, by omega, rfl, by simp⟩))
      | response out => exact Or.inr (Or.inr (Or.inl ⟨0, 0, out, by omega, rfl, by simp⟩))

theorem droppingHost_closesOnFailure : ClosesOnFailure droppingHost := by
  intro w w1 command h next
  cases w with
  | true => simp [droppingHost] at h
  | false =>
    simp [droppingHost] at h
    subst h
    simp [droppingHost]

theorem livenessLoop_closing (t : ProbeTarget σ) (hc : ClosesOnFailure t) (n : Nat) (w : σ)
    (calls : List ProbeCall) :
    ((livenessLoop t n false w calls).1 = .fatal ∧
      (livenessLoop t n false w calls).2.2 = calls ++ List.replicate n (.connect false)) ∨
    (∃ a, a + 1 = n ∧ (livenessLoop t n false w calls).1 = .fatal ∧
      (livenessLoop t n false w calls).2.2 =
        calls ++ (List.replicate a (.connect false) ++ [.connect true, .info .failure])) ∨
    (∃ a out, a < n ∧ (livenessLoop t n false w calls).1 = .success ∧
      (livenessLoop t n false w calls).2.2 =
        calls ++ (List.replicate a (.connect false) ++
          [.connect true, .info (.response out)])) ∨
    (∃ a, a < n ∧ (livenessLoop t n false w calls).1 = .panic ∧
      (livenessLoop t n false w calls).2.2 =
        calls ++ (List.replicate a (.connect false) ++ [.connect true, .info .panic])) ∨
    ∃ a, a + 1 < n ∧ (livenessLoop t n false w calls).1 = .panic ∧
      (livenessLoop t n false w calls).2.2 =
        calls ++ (List.replicate a (.connect false) ++
          [.connect true, .info .failure, .info .panic]) := by
  induction n generalizing w calls with
  | zero => exact Or.inl ⟨rfl, by simp [livenessLoop]⟩
  | succ n ih =>
    rw [livenessLoop]
    simp only [if_true]
    rcases t.initAerospikeConnection w with ⟨ok, w1⟩
    cases ok with
    | false =>
      dsimp only
      rcases ih w1 (calls ++ [.connect false]) with
        ⟨h1, h2⟩ | ⟨a, h0, h1, h2⟩ | ⟨a, out, h0, h1, h2⟩ | ⟨a, h0, h1, h2⟩ | ⟨a, h0, h1, h2⟩
      · exact Or.inl ⟨h1, by rw [h2]; simp [List.replicate_succ]⟩
      · exact Or.inr (Or.inl ⟨a + 1, by omega, h1, by rw [h2]; simp [List.replicate_succ]⟩)
      · exact Or.inr (Or.inr (Or.inl ⟨a + 1, out, by omega, h1,
          by rw [h2]; simp [List.replicate_succ]⟩))
      · exact Or.inr (Or.inr (Or.inr (Or.inl ⟨a + 1, by omega, h1,
          by rw [h2]; simp [List.replicate_succ]⟩)))
      · exact Or.inr (Or.inr (Or.inr (Or.inr ⟨a + 1, by omega, h1,
          by rw [h2]; simp [List.replicate_succ]⟩)))
    | true =>
      dsimp only
      rcases hr : t.RequestInfo w1 buildCommand with ⟨r, w2⟩
      cases r with
      | failure =>
        dsimp only
        cases n with
        | zero => exact Or.inr (Or.inl ⟨0, by omega, rfl, by simp [livenessLoop]⟩)
        | succ m =>
          have hp := hc w1 w2 buildCommand hr buildCommand
          rw [livenessLoop]
          simp only [Bool.true_eq_false, if_false]
          generalize t.RequestInfo w2 buildCommand = res at hp ⊢
          obtain ⟨r2, w3⟩ := res
          dsimp only at hp
          subst hp
          exact Or.inr (Or.inr (Or.inr (Or.inr ⟨0, by omega, rfl, by simp⟩)))
      | panic => exact Or.inr (Or.inr (Or.inr (Or.inl ⟨0, by omega, rfl, by simp⟩)))
      | response out => exact Or.inr (Or.inr (Or.inl ⟨0, out, by omega, rfl, by simp⟩))

/-- C23: `performLivenessProbeOp` keeps a connection once it has one, also after
a request on it failed. On a host that accepts the connection and fails the
first `build` request, the client has closed that connection, and the second
attempt, made on it again, panics: the probe makes no third attempt and does
not end through `Fatal`. In general a run is `a` failed connection attempts,
then, if a connection was obtained, that one connect followed by `b` failed
`build` requests on it, and then nothing more (3 failed attempts, `Fatal`), a
successful `build` request (success) or a request that panics, within 3
attempts; it reports success exactly when a `build` request succeeded. With a
client that closes the connection on a failed request (`ClosesOnFailure`), a
request fails at most once in a run: a failure on the first or second attempt
is followed by a panic, and `Fatal` is reached only by three failed connects or
by two failed connects and a request that fails on the third attempt. -/
theorem performLivenessProbeOp_contract :
    ClosesOnFailure droppingHost ∧
    performLivenessProbeOp droppingHost false =
      (.panic, true, [.connect true, .info .failure, .info .panic]) ∧
    ∀ (σ : Type) (t : ProbeTarget σ) (w : σ),
      (((performLivenessProbeOp t w).1 = .fatal ∧
          (performLivenessProbeOp t w).2.2 = List.replicate 3 (.connect false)) ∨
        (∃ a b, a + b = 3 ∧ 1 ≤ b ∧ (performLivenessProbeOp t w).1 = .fatal ∧
          (performLivenessProbeOp t w).2.2 =
            List.replicate a (.connect false) ++
              .connect true :: List.replicate b (.info .failure)) ∨
        (∃ a b out, a + b + 1 ≤ 3 ∧ (performLivenessProbeOp t w).1 = .success ∧
          (performLivenessProbeOp t w).2.2 =
            List.replicate a (.connect false) ++
              .connect true ::
                (List.replicate b (.info .failure) ++ [.info (.response out)])) ∨
        ∃ a b, a + b + 1 ≤ 3 ∧ (performLivenessProbeOp t w).1 = .panic ∧
          (performLivenessProbeOp t w).2.2 =
            List.replicate a (.connect false) ++
              .connect true :: (List.replicate b (.info .failure) ++ [.info .panic])) ∧
      ((performLivenessProbeOp t w).1 = .success ↔
        ∃ out, ProbeCall.info (.response out) ∈ (performLivenessProbeOp t w).2.2) ∧
      (ClosesOnFailure t →
        ((performLivenessProbeOp t w).1 = .fatal ∧
          (performLivenessProbeOp t w).2.2 = List.replicate 3 (.connect false)) ∨
        ((performLivenessProbeOp t w).1 = .fatal ∧
          (performLivenessProbeOp t w).2.2 =
            List.replicate 2 (.connect false) ++ [.connect true, .info .failure]) ∨
        (∃ a out, a ≤ 2 ∧ (performLivenessProbeOp t w).1 = .success ∧
          (performLivenessProbeOp t w).2.2 =
            List.replicate a (.connect false) ++ [.connect true, .info (.response out)]) ∨
        (∃ a, a ≤ 2 ∧ (performLivenessProbeOp t w).1 = .panic ∧
          (performLivenessProbeOp t w).2.2 =
            List.replicate a (.connect false) ++ [.connect true, .info .panic]) ∨
        ∃ a, a ≤ 1 ∧ (performLivenessProbeOp t w).1 = .panic ∧
          (performLivenessProbeOp t w).2.2 =
            List.replicate a (.connect false) ++
              [.connect true, .info .failure, .info .panic]) := by
  refine ⟨droppingHost_closesOnFailure, by decide, fun σ t w => ?_⟩
  have shape := livenessLoop_unconnected t 3 w []
  simp only [List.nil_append] at shape
  have closing := fun hc => livenessLoop_closing t hc 3 w []
  simp only [List.nil_append] at closing
  unfold performLivenessProbeOp
  refine ⟨?_, ?_, ?_⟩
  · rcases shape with h | ⟨a, b, h0, hb, h1, h2⟩ | ⟨a, b, out, h0, h1, h2⟩ | ⟨a, b, h0, h1, h2⟩
    · exact Or.inl h
    · exact Or.inr (Or.inl ⟨a, b, h0, hb, h1, h2⟩)
    · exact Or.inr (Or.inr (Or.inl ⟨a, b, out, by omega, h1, h2⟩))
    · exact Or.inr (Or.inr (Or.inr ⟨a, b, by omega, h1, h2⟩))
  · rcases shape with ⟨h1, h2⟩ | ⟨a, b, h0, hb, h1, h2⟩ | ⟨a, b, out, h0, h1, h2⟩ |
      ⟨a, b, h0, h1, h2⟩
    · rw [h1, h2]
      simp
    · rw [h1, h2]
      simp [List.mem_replicate]
    · rw [h1, h2]
      simp
    · rw [h1, h2]
      simp [List.mem_replicate]
  · intro hc
    rcases closing hc with h | ⟨a, h0, h1, h2⟩ | ⟨a, out, h0, h1, h2⟩ | ⟨a, h0, h1, h2⟩ |
      ⟨a, h0, h1, h2⟩
    · exact Or.inl h
    · obtain rfl : a = 2 := by omega
      exact Or.inr (Or.inl ⟨h1, h2⟩)
    · exact Or.inr (Or.inr (Or.inl ⟨a, out, by omega, h1, h2⟩))
    · exact Or.inr (Or.inr (Or.inr (Or.inl ⟨a, by omega, h1, h2⟩)))
    · exact Or.inr (Or.inr (Or.inr (Or.inr ⟨a, by omega, h1, h2⟩)))

/-! ## Bookkeeping of initialised volumes -/

theorem splitScan_length_count (d : Char) (s cur : GoString) :
    (splitScan [d] s 0 cur).length = s.count d + 1 := by
  induction s generalizing cur with
  | nil => simp [splitScan]
  | cons x r ih =>
    rw [splitScan_char_cons]
    by_cases h : x = d
    · subst h
      simp [ih]
    · have h2 : ¬ (x == d) = true := by simpa using h
      simp [h, ih, List.count_cons, h2]

theorem Split_length_count (d : Char) (s : GoString) :
    (Split s [d]).length = s.count d + 1 := by
  simp [Split, splitScan_length_count]

theorem removeOldFormattedVolumeName_mem (l : List GoString) (v : GoString) :
    v ∈ removeOldFormattedVolumeName l ↔ v ∈ l ∧ (Split v ['@']).length = 2 := by
  induction l with
  | nil => simp [removeOldFormattedVolumeName]
  | cons x rest ih =>
    rw [removeOldFormattedVolumeName]
    by_cases h : (Split x ['@']).length = 2
    · rw [if_pos h, List.mem_cons, ih, List.mem_cons]
      constructor
      · rintro (e | ⟨h1, h2⟩)
        · exact ⟨Or.inl e, e ▸ h⟩
        · exact ⟨Or.inr h1, h2⟩
      · rintro ⟨e | h1, h2⟩
        · exact Or.inl e
        · exact Or.inr ⟨h1, h2⟩
    · rw [if_neg h, ih, List.mem_cons]
      constructor
      · rintro ⟨h1, h2⟩
        exact ⟨Or.inr h1, h2⟩
      · rintro ⟨e | h1, h2⟩
        · exact absurd (e ▸ h2) h
        · exact ⟨h1, h2⟩

theorem remove_subset (l : List GoString) (r v : GoString) (h : v ∈ remove l r) : v ∈ l := by
  induction l with
  | nil => simp [remove] at h
  | cons x rest ih =>
    rw [remove] at h
    by_cases hx : x = r
    · rw [if_pos hx] at h
      exact List.mem_cons_of_mem _ h
    · rw [if_neg hx] at h
      rcases List.mem_cons.1 h with e | e
      · exact e ▸ List.mem_cons_self _ _
      · exact List.mem_cons_of_mem _ (ih e)

theorem volInitLoop_spec (all : List GoString) (volName pvcUID : GoString)
    (rest : List GoString) (h : ∀ v ∈ rest, (Split v ['@']).length = 2) :
    ∃ needInit volumes, volInitLoop all volName pvcUID rest = some (needInit, volumes) ∧
      (needInit = false ↔
        ∃ v, rest.find? (namedVolume volName) = some v ∧ (Split v ['@'])[1]? = some pvcUID) ∧
      (volumes = all ∨ ∃ r, volumes = remove all r) ∧
      (needInit = false → volumes = all) := by
  induction rest with
  | nil => exact ⟨true, all, rfl, by simp, Or.inl rfl, by simp⟩
  | cons v rest ih =>
    have hv : (Split v ['@']).length = 2 := h v (List.mem_cons_self _ _)
    obtain ⟨name, uid, hs⟩ : ∃ name uid, Split v ['@'] = [name, uid] := by
      match hm : Split v ['@'], hv with
      | [a, b], _ => exact ⟨a, b, rfl⟩
    rw [volInitLoop, hs]
    simp only [List.getElem?_cons_zero, List.getElem?_cons_succ]
    by_cases hn : name = volName
    · have hnamed : namedVolume volName v = true := by simp [namedVolume, hs, hn]
      rw [if_pos hn]
      by_cases hu : uid = pvcUID
      · refine ⟨false, all, by simp [hu], ?_, Or.inl rfl, fun _ => rfl⟩
        simp [List.find?_cons, hnamed, hs, hu]
      · refine ⟨true, remove all v, by simp [hu], ?_, Or.inr ⟨v, rfl⟩, by simp⟩
        simp [List.find?_cons, hnamed, hs, hu]
    · have hnamed : namedVolume volName v = false := by simp [namedVolume, hs, hn]
      rw [if_neg hn]
      obtain ⟨b, vols, h1, h2, h3, h4⟩ := ih (fun x hx => h x (List.mem_cons_of_mem _ hx))
      refine ⟨b, vols, h1, ?_, h3, h4⟩
      rw [h2]
      simp [List.find?_cons, hnamed]

/-- C30: index safety of the initialised-volume bookkeeping. For every list `L`
of entries, every volume name and every PVC uid, `isVolInitialisationNeeded`
applied to `removeOldFormattedVolumeName(L)` returns (no index is out of
range); `needInit` is `false` exactly when the first entry named `volName`
exists and carries the uid `pvcUID`, and the list is then returned unchanged;
every entry of the returned list still has exactly one `@`, that is, splits
into two pieces. -/
theorem isVolInitialisationNeeded_safe (L : List GoString) (volName pvcUID : GoString) :
    ∃ needInit volumes,
      isVolInitialisationNeeded (removeOldFormattedVolumeName L) volName pvcUID
        = some (needInit, volumes) ∧
      (needInit = false ↔
        ∃ v, (removeOldFormattedVolumeName L).find? (namedVolume volName) = some v ∧
          (Split v ['@'])[1]? = some pvcUID) ∧
      (∀ v ∈ volumes, v.count '@' = 1 ∧ (Split v ['@']).length = 2) ∧
      (needInit = false → volumes = removeOldFormattedVolumeName L) := by
  obtain ⟨b, vols, h1, h2, h3, h4⟩ := volInitLoop_spec (removeOldFormattedVolumeName L) volName
    pvcUID (removeOldFormattedVolumeName L)
    (fun v hv => ((removeOldFormattedVolumeName_mem L v).1 hv).2)
  refine ⟨b, vols, h1, h2, ?_, h4⟩
  intro v hv
  have hmem : v ∈ removeOldFormattedVolumeName L := by
    rcases h3 with e | ⟨r, e⟩
    · exact e ▸ hv
    · exact remove_subset _ r v (e ▸ hv)
  have h2 := ((removeOldFormattedVolumeName_mem L v).1 hmem).2
  refine ⟨?_, h2⟩
  rw [Split_length_count] at h2
  omega

/-! ## The throughput check -/

theorem getOpsPerSecLegacy_returns {F : Type} (ops : Float64Ops F) (s : GoString) :
    ∃ v, getOpsPerSecLegacy ops s = some (v, none) := by
  obtain ⟨v, hv⟩ := (legacyLoop_fuel ops (s.length + 1) (NewInfoParser s) ops.zero
    (by simp [NewInfoParser])).1
  exact ⟨v, by simp [getOpsPerSecLegacy, hv]⟩

theorem getOpsPerSecNew_returns {F : Type} (ops : Float64Ops F) (s : GoString) :
    ∃ v, getOpsPerSecNew ops s = some (v, none) := by
  obtain ⟨v, hv⟩ := (newLoop_fuel ops (s.length + 1) (NewInfoParser s) ops.zero
    (by simp [NewInfoParser])).1
  exact ⟨v, by simp [getOpsPerSecNew, hv]⟩

theorem throughputPass_skip {F : Type} (cfg : Setup σ F) (before l : List Node)
    (s : Session σ) (h : ∀ n ∈ before, isSelf cfg.myPodIP n = false) :
    throughputPass cfg (before ++ l) s = throughputPass cfg l s := by
  induction before with
  | nil => rfl
  | cons n rest ih =>
    have h1 : isSelf cfg.myPodIP n = false := h n (List.mem_cons_self _ _)
    rw [List.cons_append, throughputPass, h1]
    simpa using ih (fun m hm => h m (List.mem_cons_of_mem _ hm))

theorem wrapInt64_add (a b : Int) : wrapInt64 (wrapInt64 a + b) = wrapInt64 (a + b) := by
  unfold wrapInt64
  omega

theorem wrapInt64_of_range (a : Int) (h1 : -(2 ^ 63) ≤ a) (h2 : a < 2 ^ 63) :
    wrapInt64 a = a := by
  unfold wrapInt64
  omega

theorem foldl_digits_ge (l : GoString) (n : Nat) :
    n ≤ l.foldl (fun acc c => acc * 10 + (c.toNat - 48)) n := by
  induction l generalizing n with
  | nil => simp
  | cons c r ih =>
    rw [List.foldl_cons]
    exact le_trans (by omega) (ih _)

theorem parseUintLoop_eq (body : GoString) (n : Nat)
    (h : (body.takeWhile Char.isDigit).foldl (fun acc c => acc * 10 + (c.toNat - 48)) n
      < 2 ^ 64) :
    parseUintLoop body n =
      if body.all Char.isDigit = true then
        some (body.foldl (fun acc c => acc * 10 + (c.toNat - 48)) n, false)
      else none := by
  induction body generalizing n with
  | nil => simp [parseUintLoop]
  | cons c r ih =>
    rw [parseUintLoop]
    by_cases hc : c.isDigit = true
    · rw [List.takeWhile_cons, if_pos hc, List.foldl_cons] at h
      have hge := foldl_digits_ge (r.takeWhile Char.isDigit) (n * 10 + (c.toNat - 48))
      have h1 : ¬ n ≥ (2 ^ 64 - 1) / 10 + 1 := by omega
      have h2 : ¬ n * 10 + (c.toNat - 48) > 2 ^ 64 - 1 := by omega
      rw [if_neg (by simp [hc]), if_neg h1, if_neg h2, ih _ h]
      simp [hc]
    · simp [hc]

theorem Atoi_eq_counterValue (s : GoString) (h1 : -(2 ^ 63) ≤ counterValue s)
    (h2 : counterValue s < 2 ^ 63) (h3 : decimalValue (leadingDigits s) < 2 ^ 64) :
    Atoi s = counterValue s := by
  have e3 := parseUintLoop_eq (unsignedPart s) 0 h3
  by_cases hb : unsignedPart s = []
  · simp [Atoi, counterValue, hb]
  · by_cases hd : (unsignedPart s).all Char.isDigit = true
    · have hcv : counterValue s =
          if s.head? = some '-' then -(decimalValue (unsignedPart s) : Int)
          else (decimalValue (unsignedPart s) : Int) := by
        unfold counterValue
        rw [if_neg (by simp [hb, hd])]
      have hA : Atoi s =
          if s.head? = some '-' then
            (if decimalValue (unsignedPart s) > 2 ^ 63 then -(2 ^ 63)
              else -(decimalValue (unsignedPart s) : Int))
          else
            (if decimalValue (unsignedPart s) ≥ 2 ^ 63 then 2 ^ 63 - 1
              else (decimalValue (unsignedPart s) : Int)) := by
        unfold Atoi
        rw [if_neg hb, e3, if_pos hd]
        rfl
      rw [hcv] at h1 h2 ⊢
      rw [hA]
      by_cases hs : s.head? = some '-'
      · simp only [hs, if_true] at h1 h2 ⊢
        rw [if_neg (by omega)]
      · simp only [hs, if_false] at h1 h2 ⊢
        rw [if_neg (by omega)]
    · have hcv : counterValue s = 0 := by
        unfold counterValue
        rw [if_pos (Or.inr (by simpa using hd))]
      rw [hcv]
      unfold Atoi
      rw [if_neg hb, e3, if_neg hd]

theorem addProxyCounters_eq (metrics : GoMap) (total : Int) :
    addProxyCounters metrics total =
      wrapInt64 (total + (proxyCounters.map fun key => Atoi (metrics.index key)).sum) := by
  unfold addProxyCounters
  simp only [proxyCounters, List.map_cons, List.map_nil, List.sum_cons, List.sum_nil,
    wrapInt64_add]
  congr 1
  ring

theorem wrapInt64_idem (a : Int) : wrapInt64 (wrapInt64 a) = wrapInt64 a := by
  unfold wrapInt64
  omega

theorem atoiTally_cons (ns : GoString) (names : List GoString) (st : GoMap)
    (responses : List GoMap) :
    atoiTally (ns :: names) (st :: responses) =
      (proxyCounters.map fun key =>
        Atoi ((parseStats (st.index (namespaceCommand ns)) [';']).index key)).sum
      + atoiTally names responses := by
  simp [atoiTally]

theorem proxyTally_done (c : Cluster σ) (node : Node) (names : List GoString) (total : Int)
    (s s2 : Session σ) (t : Int) (htot : wrapInt64 total = total)
    (h : proxyTally c node names total s = ((false, t), s2)) :
    ∃ responses : List GoMap, responses.length = names.length ∧
      s2.trace = s.trace ++ List.zipWith
        (fun ns stats => ⟨.VerifyProxyDrain, .info node (namespaceCommand ns) (some stats)⟩)
        names responses ∧
      t = wrapInt64 (total + atoiTally names responses) := by
  induction names generalizing total s with
  | nil =>
    simp only [proxyTally, Prod.mk.injEq] at h
    obtain ⟨⟨_, h1⟩, h2⟩ := h
    exact ⟨[], rfl, by simp [h2], by simp [atoiTally, ← h1, htot]⟩
  | cons ns rest ih =>
    rw [proxyTally] at h
    have ht := requestInfo_trace c .VerifyProxyDrain s node (namespaceCommand ns)
    generalize requestInfo c .VerifyProxyDrain s node (namespaceCommand ns) = res at h ht
    obtain ⟨r, s1⟩ := res
    cases r with
    | none => simp at h
    | some stats =>
      dsimp only at h ht
      obtain ⟨responses, h1, h2, h3⟩ := ih _ s1
        (by rw [addProxyCounters_eq, wrapInt64_idem]) h
      refine ⟨stats :: responses, by simp [h1], ?_, ?_⟩
      · rw [h2, ht]
        simp
      · rw [h3, addProxyCounters_eq, wrapInt64_add, atoiTally_cons]
        congr 1
        ring

theorem atoiTally_eq_specTally (names : List GoString) (responses : List GoMap)
    (h : ∀ p ∈ List.zip names responses, ∀ key ∈ proxyCounters,
      -(2 ^ 63) ≤ counterValue ((parseStats (p.2.index (namespaceCommand p.1)) [';']).index key) ∧
      counterValue ((parseStats (p.2.index (namespaceCommand p.1)) [';']).index key) < 2 ^ 63 ∧
      decimalValue
        (leadingDigits ((parseStats (p.2.index (namespaceCommand p.1)) [';']).index key))
        < 2 ^ 64) :
    atoiTally names responses = specTally names responses := by
  unfold atoiTally specTally
  congr 1
  apply List.map_congr_left
  intro p hp
  congr 1
  apply List.map_congr_left
  intro key hkey
  exact Atoi_eq_counterValue _ (h p hp key hkey).1 (h p hp key hkey).2.1 (h p hp key hkey).2.2

/-- C26 (amended): the tally of an iteration of the proxy check in which every request
succeeds. With the local node `node` as the first local entry of the listing,
`out` the answer to `namespaces` and every `namespace/<ns>` request answered,
the pass compares the baseline with `total`, where the requests are one per
name of `out` split on `;`, in order, and `total` is the sum, over these names,
of the six proxy counters read from `parseStats` of the answer, each read by
`strconv.Atoi` and the sum taken in 64-bit arithmetic. When every counter
value and the sum lie in the range of a 64-bit signed integer, and no counter
text starts, after its optional sign, with digits worth `2^64` or more,
`total` is the sum as the specification states it (a missing or non-numeric
value counted as 0). -/
theorem proxy_tally_is_counter_sum (c : Cluster σ) (ip : GoString) (tp : Int) (node : Node)
    (rest : List Node) (s s1 s2 : Session σ) (out : GoMap) (total : Int)
    (hn : isSelf ip node = true)
    (hns : requestInfo c .VerifyProxyDrain s node namespacesCommand = (some out, s1))
    (h : proxyTally c node (Split (out.index namespacesCommand) [';']) 0 s1
      = ((false, total), s2)) :
    proxyPass c ip tp (node :: rest) s = ((decide (tp ≠ total), total), s2) ∧
    ∃ responses : List GoMap,
      responses.length = (Split (out.index namespacesCommand) [';']).length ∧
      s2.trace = s1.trace ++ List.zipWith
        (fun ns stats => ⟨.VerifyProxyDrain, .info node (namespaceCommand ns) (some stats)⟩)
        (Split (out.index namespacesCommand) [';']) responses ∧
      total = wrapInt64 (atoiTally (Split (out.index namespacesCommand) [';']) responses) ∧
      ((∀ p ∈ List.zip (Split (out.index namespacesCommand) [';']) responses,
          ∀ key ∈ proxyCounters,
            -(2 ^ 63) ≤ counterValue
              ((parseStats (p.2.index (namespaceCommand p.1)) [';']).index key) ∧
            counterValue
              ((parseStats (p.2.index (namespaceCommand p.1)) [';']).index key) < 2 ^ 63 ∧
            decimalValue (leadingDigits
              ((parseStats (p.2.index (namespaceCommand p.1)) [';']).index key)) < 2 ^ 64) →
        -(2 ^ 63) ≤ specTally (Split (out.index namespacesCommand) [';']) responses →
        specTally (Split (out.index namespacesCommand) [';']) responses < 2 ^ 63 →
        total = specTally (Split (out.index namespacesCommand) [';']) responses) := by
  constructor
  · rw [proxyPass, if_pos hn, hns]
    dsimp only
    rw [if_pos (Split_length_pos _ _), h]
    dsimp only
    by_cases ht : tp = total
    · simp [ht]
    · simp [ht]
  · obtain ⟨responses, h1, h2, h3⟩ := proxyTally_done c node _ 0 s1 s2 total (by decide) h
    refine ⟨responses, h1, h2, by simpa using h3, fun hr hlo hhi => ?_⟩
    rw [h3, zero_add, atoiTally_eq_specTally _ _ hr]
    exact wrapInt64_of_range _ hlo hhi

/-- Witness of C26: the local node of `proxyCluster` reports three completed
client proxies and two batch sub-transaction proxy errors; the tally is 5. -/
theorem proxy_tally_is_counter_sum_witness :
    isSelf proxyCluster.myPodIP selfNode = true ∧
    specTally ["test".toList]
      [[(namespaceCommand "test".toList,
        "client_proxy_complete=3;batch_sub_proxy_error=2".toList)]] = 5 ∧
    proxyPass proxyCluster.cluster proxyCluster.myPodIP 0 [selfNode] ⟨(), []⟩ =
      ((decide ((0 : Int) ≠ 5), 5),
        (proxyTally proxyCluster.cluster selfNode ["test".toList] 0
          (requestInfo proxyCluster.cluster .VerifyProxyDrain ⟨(), []⟩ selfNode
            namespacesCommand).2).2) :=
  ⟨by decide, by decide,
    (proxy_tally_is_counter_sum proxyCluster.cluster proxyCluster.myPodIP 0 selfNode []
      ⟨(), []⟩ _ _ [(namespacesCommand, "test".toList)] 5 (by decide) rfl rfl).1⟩

/-- Counterexample to C26 as stated: a counter `9223372036854775808` is counted as
`9223372036854775807`; the counters `9223372036854775807` and `1` add up to
`-9223372036854775808`, where the sum of the integers is `9223372036854775808`
in both cases; and the text `99999999999999999999x`, which is not a number, is
counted as `9223372036854775807` instead of 0. -/
theorem proxy_tally_out_of_range :
    (proxyTally (staticCluster [selfNode]
        (fun _ => answerWith "client_proxy_complete=9223372036854775808".toList))
      selfNode ["test".toList] 0 ⟨(), []⟩).1 = (false, 9223372036854775807) ∧
    specTally ["test".toList]
      [[(namespaceCommand "test".toList,
        "client_proxy_complete=9223372036854775808".toList)]] = 9223372036854775808 ∧
    (proxyTally (staticCluster [selfNode]
        (fun _ => answerWith
          "client_proxy_complete=9223372036854775807;client_proxy_error=1".toList))
      selfNode ["test".toList] 0 ⟨(), []⟩).1 = (false, -9223372036854775808) ∧
    specTally ["test".toList]
      [[(namespaceCommand "test".toList,
        "client_proxy_complete=9223372036854775807;client_proxy_error=1".toList)]]
      = 9223372036854775808 ∧
    (proxyTally (staticCluster [selfNode]
        (fun _ => answerWith "client_proxy_complete=99999999999999999999x".toList))
      selfNode ["test".toList] 0 ⟨(), []⟩).1 = (false, 9223372036854775807) ∧
    specTally ["test".toList]
      [[(namespaceCommand "test".toList,
        "client_proxy_complete=99999999999999999999x".toList)]] = 0 ∧
    Atoi "9223372036854775808x".toList = 0 := by
  decide

/-- C27: when a `namespace/<ns>` request of the proxy check fails, the pass asks
for a retry, but the value it hands on as the baseline is the sum over the
namespaces read before the failure, not the baseline it was given. With the
namespaces `test` and `bar`, `namespace/test` reporting 3 proxies and
`namespace/bar` failing, a pass started with baseline 0 ends with baseline 3. -/
theorem partial_tally_kept_as_baseline :
    (∀ (σ : Type) (c : Cluster σ) (ip : GoString) (tp : Int) (node : Node) (rest : List Node)
        (s s1 s2 : Session σ) (out : GoMap) (total : Int),
      isSelf ip node = true →
      requestInfo c .VerifyProxyDrain s node namespacesCommand = (some out, s1) →
      proxyTally c node (Split (out.index namespacesCommand) [';']) 0 s1
        = ((true, total), s2) →
      proxyPass c ip tp (node :: rest) s = ((true, total), s2)) ∧
    (proxyPass partialTallyCluster "10.0.0.5".toList 0 [selfNode] ⟨(), []⟩).1 = (true, 3) ∧
    (proxyPass partialTallyCluster "10.0.0.5".toList 0 [selfNode] ⟨(), []⟩).2.trace =
      [⟨.VerifyProxyDrain, .info selfNode namespacesCommand
          (some [(namespacesCommand, "test;bar".toList)])⟩,
       ⟨.VerifyProxyDrain, .info selfNode (namespaceCommand "test".toList)
          (some [(namespaceCommand "test".toList, "client_proxy_complete=3".toList)])⟩,
       ⟨.VerifyProxyDrain, .info selfNode (namespaceCommand "bar".toList) none⟩] := by
  refine ⟨?_, by decide, by decide⟩
  intro σ c ip tp node rest s s1 s2 out total hn hns h
  rw [proxyPass, if_pos hn, hns]
  dsimp only
  rw [if_pos (Split_length_pos _ _), h]
  dsimp only
  by_cases ht : tp = total
  · simp [ht]
  · simp [ht]

/-! ## The quiesce step without a local node -/

theorem quiescePass_no_self (c : Cluster σ) (ip : GoString) (fuel : Nat) (l : List Node)
    (s : Session σ) (h : ∀ n ∈ l, isSelf ip n = false) :
    quiescePass c ip fuel l s = .done false s := by
  induction l with
  | nil => rfl
  | cons n rest ih =>
    have h1 : isSelf ip n = false := h n (List.mem_cons_self _ _)
    rw [quiescePass, h1]
    simpa using ih (fun m hm => h m (List.mem_cons_of_mem _ hm))

theorem quiescePass_skip (c : Cluster σ) (ip : GoString) (fuel : Nat) (before l : List Node)
    (s : Session σ) (h : ∀ n ∈ before, isSelf ip n = false) :
    quiescePass c ip fuel (before ++ l) s = quiescePass c ip fuel l s := by
  induction before with
  | nil => rfl
  | cons n rest ih =>
    have h1 : isSelf ip n = false := h n (List.mem_cons_self _ _)
    rw [List.cons_append, quiescePass, h1]
    simpa using ih (fun m hm => h m (List.mem_cons_of_mem _ hm))

theorem quiescePass_first_self (c : Cluster σ) (ip : GoString) (fuel : Nat) (node : Node)
    (after : List Node) (s : Session σ) (h : isSelf ip node = true) :
    quiescePass c ip fuel (node :: after) s = quiescePass c ip fuel [node] s := by
  rw [quiescePass, quiescePass, if_pos h, if_pos h]

theorem quiescePass_targets (c : Cluster σ) (ip : GoString) (fuel : Nat) (node : Node)
    (s : Session σ) (h : isSelf ip node = true) :
    Grows (fun e => e.command = some quiesceCommand →
        ∃ r, e = ⟨.QuiesceSelf, .info node quiesceCommand r⟩)
      s.trace (quiescePass c ip fuel [node] s).session.trace := by
  rw [quiescePass, if_pos h]
  have h1 := requestInfo_grows (fun e => e.command = some quiesceCommand →
        ∃ r, e = ⟨.QuiesceSelf, .info node quiesceCommand r⟩) c .QuiesceSelf s node
    quiesceCommand (fun r _ => ⟨r, rfl⟩)
  generalize requestInfo c .QuiesceSelf s node quiesceCommand = res at h1
  obtain ⟨r, s1⟩ := res
  cases r with
  | none => exact h1
  | some out =>
    dsimp only
    rw [andThen_done_session]
    refine h1.trans ((pendingQuiesceLoop_grows [.WaitPendingQuiesce] (by simp) c node fuel
      s1).weaken ?_)
    intro e he hc
    have hp := command_quiesce_phase e he.2 hc
    have := he.1
    rw [hp] at this
    simp at this

theorem quiescePass_sends (c : Cluster σ) (ip : GoString) (fuel : Nat) (node : Node)
    (s : Session σ) (h : isSelf ip node = true) :
    ∃ r, (quiescePass c ip fuel [node] s).session.trace
      = s.trace ++ ⟨.QuiesceSelf, .info node quiesceCommand r⟩ ::
        ((quiescePass c ip fuel [node] s).session.trace.drop (s.trace.length + 1)) := by
  have key : ∀ (t2 : List Event) (e : Event), Grows (fun _ => True) (s.trace ++ [e]) t2 →
      t2 = s.trace ++ e :: t2.drop (s.trace.length + 1) := by
    intro t2 e hg
    obtain ⟨new, hnew, _⟩ := hg
    rw [hnew]
    simp
  rw [quiescePass, if_pos h]
  have h1 := requestInfo_trace c .QuiesceSelf s node quiesceCommand
  generalize requestInfo c .QuiesceSelf s node quiesceCommand = res at h1
  obtain ⟨r, s1⟩ := res
  refine ⟨r, ?_⟩
  apply key
  dsimp only at h1
  rw [← h1]
  cases r with
  | none => exact Grows.refl _ _
  | some out =>
    dsimp only
    rw [andThen_done_session]
    exact grows_true (pendingQuiesceLoop_grows [.WaitPendingQuiesce] (by simp) c node fuel s1)

theorem reclusterLoop_first (c : Cluster σ) (fuel : Nat) (s : Session σ) (n2 : Node)
    (rest2 : List Node) (h : (getNodes c .Recluster s).1 = n2 :: rest2) :
    Grows (fun _ => True)
      (s.trace ++ [⟨.Recluster, .nodes (n2 :: rest2)⟩,
        ⟨.Recluster, .info n2 reclusterCommand
          (requestInfo c .Recluster (getNodes c .Recluster s).2 n2 reclusterCommand).1⟩])
      (reclusterLoop c (fuel + 1) s).session.trace := by
  have e0 : (requestInfo c .Recluster (getNodes c .Recluster s).2 n2 reclusterCommand).2.trace
      = s.trace ++ [⟨.Recluster, .nodes (n2 :: rest2)⟩,
        ⟨.Recluster, .info n2 reclusterCommand
          (requestInfo c .Recluster (getNodes c .Recluster s).2 n2 reclusterCommand).1⟩] := by
    rw [requestInfo_trace, getNodes_trace, h]
    simp
  rw [← e0, reclusterLoop]
  have hg : getNodes c .Recluster s = (n2 :: rest2, (getNodes c .Recluster s).2) :=
    Prod.ext h rfl
  rw [hg]
  dsimp only
  rw [reclusterPass]
  generalize requestInfo c .Recluster (getNodes c .Recluster s).2 n2 reclusterCommand = res
  obtain ⟨r, s1⟩ := res
  cases r with
  | none =>
    dsimp only
    exact grows_true (reclusterLoop_grows [.Recluster] (by simp) c fuel s1)
  | some out =>
    dsimp only
    have h2 := grows_true (reclusterPass_grows [.Recluster] (by simp) c rest2 s1)
    generalize reclusterPass c rest2 s1 = res2 at h2
    obtain ⟨b, s2⟩ := res2
    cases b with
    | true =>
      dsimp only
      exact h2.trans (grows_true (reclusterLoop_grows [.Recluster] (by simp) c fuel s2))
    | false => exact h2

/-- Counterexample to C2 as stated: the legacy section whose first bucket value
is the decimal number written with 310 nines is well formed, but the number is
beyond the range of `float64`: `ParseFloat` reports the range error, the loop
breaks, and the result is the sum so far, `0` for the section alone and `7`
after a section worth 7, whatever follows. -/
theorem getOpsPerSecLegacy_number_out_of_range :
    hugeLegacySection.WellFormed ∧
    hugeLegacySection.v1.all Char.isDigit = true ∧
    0 < decimalValue hugeLegacySection.v1 ∧
    rangedOps.ParseFloat hugeLegacySection.v1 = none ∧
    getOpsPerSecLegacy rangedOps (renderLegacy [hugeLegacySection]) = some (0, none) ∧
    getOpsPerSecLegacy rangedOps
      (renderLegacy [⟨"test".toList, "write".toList, "t".toList, "ops/sec".toList, "u".toList,
          "7".toList, []⟩,
        hugeLegacySection,
        ⟨"bar".toList, "read".toList, "t".toList, "ops/sec".toList, "u".toList,
          "5".toList, []⟩]) = some (7, none) := by
  decide

/-- Counterexample to C3 as stated: the new-format section whose first bucket
value is the decimal number written with 310 nines is well formed, but the
number is beyond the range of `float64`: `ParseFloat` reports the range error,
the loop breaks, and the result is the sum so far, `0` for the section alone
and `7` after a section worth 7, whatever follows. -/
theorem getOpsPerSecNew_number_out_of_range :
    hugeNewSection.WellFormed ∧
    hugeNewSection.v1.all Char.isDigit = true ∧
    0 < decimalValue hugeNewSection.v1 ∧
    rangedOps.ParseFloat hugeNewSection.v1 = none ∧
    getOpsPerSecNew rangedOps (renderNew [hugeNewSection]) = some (0, none) ∧
    getOpsPerSecNew rangedOps
      (renderNew [⟨"test".toList, "write".toList, "msec".toList, "7".toList, []⟩,
        hugeNewSection,
        ⟨"bar".toList, "read".toList, "msec".toList, "5".toList, []⟩]) = some (7, none) := by
  decide

end AKU
